import Mathlib

/-!
# A shallow embedding of the `params` configuration package

The Go package `params` declares configuration parameters through struct tags
and fills them from a JSON file, from command-line flags and from the process
environment.  This file embeds the package in Lean, function by function, and
proves properties of the embedding.

Conventions of the embedding:

* a Go `string` is a Lean `String`, read as its list of runes (`String.data`);
  byte offsets are recovered with `Char.utf8Size` where the source uses them;
* a Go `interface{}` value is a `Value`;
* a Go function returning `error` returns `Res`, whose third case `panic`
  records a run-time panic (failed type assertion, index out of range);
* every `fmt.Errorf` / `errors.New` call site is one constructor of `Err`
  carrying the arguments of the format string;
* everything the package obtains from outside itself (Unicode tables,
  `strconv.ParseFloat`, `time.ParseDuration`, `os.Stat`, `os.LookupEnv`,
  the order of `range` over a map, the `flag` parser, `encoding/json`) is a
  field of `Platform`, so theorems hold for every behaviour of those parts;
  `strconv.ParseInt` and `strconv.ParseBool` are embedded in full;
* `int` and `uint` are 64 bits wide; an `int` is an `Int`, a `uint` a `Nat`,
  and the places where the source narrows or wraps say so;
* a configuration struct is a `Config`: the tree of its fields with, at every
  field that is not a struct, the current content, whose dynamic type is the
  declared type of the field.  Embedded fields and nil pointers are not
  modelled.
-/

namespace Params

/-! ## Values -/

/-- The kinds of parameter, `internalType` in `parameter.go`. -/
inductive internalType where
  | stringType
  | intType
  | uintType
  | boolType
  | durationType
  | floatType
  | invalidType
  deriving DecidableEq, Repr

/-- A `float64`: a finite value is kept as the rational it denotes. -/
inductive F64 where
  | fin (q : Rat)
  | posInf
  | negInf
  | nan
  deriving DecidableEq, Repr

/-- A dynamically typed Go value (`interface{}`), as far as the package
distinguishes them.  `other` stands for a value of any further type
(slice, map, pointer, `int32`, ...); its tag only tells such values apart. -/
inductive Value where
  | nil
  | str (s : String)
  | int (n : Int)
  | uint (n : Nat)
  | bool (b : Bool)
  | duration (d : Int)
  | float (f : F64)
  | other (tag : String)
  deriving DecidableEq, Repr

/-- The errors the package creates, one constructor per call site of
`fmt.Errorf` or `errors.New`, with the arguments of the format string. -/
inductive Err where
  /-- Text "invalid value for field %s: %s". -/
  | invalidValue (name text : String)
  /-- Text "unknown parameter type: %v". -/
  | unknownParameterType (t : internalType)
  /-- Text "can't set %s to %v since type is %T". -/
  | cantSet (name : String) (v : Value)
  /-- Text "unknown type: %v". -/
  | unknownType (t : internalType)
  /-- Text "field %s has an unknown field type". -/
  | unknownFieldType (name : String)
  /-- Text "invalid format for parameter %s: %s". -/
  | invalidFormat (name token : String)
  /-- Text "field %s must be a numeric type if min parameter is set". -/
  | minNeedsNumeric (name : String)
  /-- Text "field %s must be a numeric type if max parameter is set". -/
  | maxNeedsNumeric (name : String)
  /-- Text "field %s must be of string type if file flag is set". -/
  | fileNeedsString (name : String)
  /-- Text "field %s must be of string type if options flag is set". -/
  | optionsNeedString (name : String)
  /-- Text "field %s does not contain any options". -/
  | noOptions (name : String)
  /-- Text "field %s has invalid tags". -/
  | invalidTags (name : String)
  /-- Text "invalid min value for field %s". -/
  | invalidMin (name : String)
  /-- Text "invalid max value for field %s". -/
  | invalidMax (name : String)
  /-- Text "missing required parameter: %s". -/
  | missingRequired (name : String)
  /-- Text "value for %s is below the minimum". -/
  | belowMinimum (name : String)
  /-- Text "value for %s is above the minimum" (sic), the max check. -/
  | aboveMaximum (name : String)
  /-- Text "option %v is not valid for %s". -/
  | invalidOption (v : Value) (name : String)
  /-- The error of `os.Stat` for a path. -/
  | statFailed (path : String)
  /-- Text "config must be non-nil". -/
  | configNil
  /-- Text "needs pointer to configuration". -/
  | needsPointer
  /-- Text "needs struct type for configuration". -/
  | needsStruct
  /-- Text "field %s is unexported but has tag". -/
  | unexportedWithTag (field : String)
  /-- Text "cannot set field %s". -/
  | cannotSetField (field : String)
  /-- Text "invalid type for %s: %v (%T)". -/
  | invalidTypeFor (name : String) (v : Value)
  /-- Text "reader must be non-nil". -/
  | readerNil
  /-- The error of `ioutil.ReadAll`. -/
  | readFailed
  /-- The error of `json.Unmarshal`. -/
  | jsonFailed
  /-- Text "can't parse duration field %s". -/
  | durationNotString (name : String)
  /-- Text "field %s isn't properly formatted". -/
  | durationMalformed (name : String)
  /-- Text "can't make flag for %s:%v". -/
  | cantMakeFlag (name : String) (t : internalType)
  /-- The error of `FlagSet.Parse`. -/
  | flagParseFailed
  deriving DecidableEq, Repr

/-- Outcome of a Go call that returns `(T, error)` and may panic. -/
inductive Res (α : Type) where
  | ok (a : α)
  | error (e : Err)
  | panic (what : String)
  deriving DecidableEq, Repr

/-- Sequencing of outcomes: errors and panics propagate. -/
def Res.bind {α β : Type} (r : Res α) (f : α → Res β) : Res β :=
  match r with
  | .ok a => f a
  | .error e => .error e
  | .panic w => .panic w

instance : Monad Res where
  pure := Res.ok
  bind := Res.bind

/-- The call returned normally with a nil error. -/
def Res.isOk {α : Type} : Res α → Bool
  | .ok _ => true
  | _ => false

/-- The call returned normally with a non-nil error. -/
def Res.isError {α : Type} : Res α → Bool
  | .error _ => true
  | _ => false

/-- The call did not return: it panicked. -/
def Res.isPanic {α : Type} : Res α → Bool
  | .panic _ => true
  | _ => false

/-! ## The platform -/

/-- The `flag.ErrorHandling` argument of `flag.NewFlagSet`. -/
inductive ErrorHandling where
  | ContinueOnError
  | ExitOnError
  | PanicOnError
  deriving DecidableEq, Repr

/-- One flag registered on a `flag.FlagSet` by `StringVar`, `IntVar`, ... -/
structure FlagReg where
  name : String
  kind : internalType
  dflt : Value
  usage : String
  deriving DecidableEq, Repr

/-- A `flag.FlagSet` after a successful `Parse`: the names of the flags that
were set on the command line, in the order `Visit` yields them, and the
content of the variable bound to each flag name. -/
structure FlagSet where
  actual : List String
  current : String → Value

mutual
/-- A decoded JSON value as `json.Unmarshal` stores it in an `interface{}`:
a nested `map[string]interface{}` or any other value. -/
inductive Json where
  | val (v : Value)
  | obj (m : JsonMap)
/-- A `map[string]interface{}`, listed in the order `range` visits it. -/
inductive JsonMap where
  | nil
  | cons (key : String) (v : Json) (rest : JsonMap)
end

/-- Everything the package takes from the Go runtime, the standard library
and the operating system. -/
structure Platform where
  /-- Go function `unicode.IsUpper`. -/
  isUpper : Char → Bool
  /-- Go function `unicode.IsLower`. -/
  isLower : Char → Bool
  /-- Go function `unicode.ToLower`. -/
  toLower : Char → Char
  /-- Go function `unicode.ToUpper`. -/
  toUpper : Char → Char
  /-- Two different runes that `strings.EqualFold` identifies (same orbit of
  `unicode.SimpleFold`). -/
  caseFold : Char → Char → Bool
  /-- Go function `unicode.IsSpace`. -/
  isSpace : Char → Bool
  /-- Go call `strconv.ParseFloat(s, 64)`; `none` when it returns an error. -/
  parseFloat : String → Option F64
  /-- The float that `strconv.ParseFloat(s, 64)` returns next to an error
  (zero after a syntax error, an infinity after a range error). -/
  parseFloatFailValue : String → F64
  /-- The float that `strconv.ParseFloat(s, 32)` returns, error ignored. -/
  parseFloat32Value : String → F64
  /-- Go call `time.ParseDuration(s)` in nanoseconds; `none` on error. -/
  parseDuration : String → Option Int
  /-- Whether `os.Stat(path)` returns a nil error. -/
  fileExists : String → Bool
  /-- Go call `os.LookupEnv(key)`. -/
  lookupEnv : String → Option String
  /-- Conversion `int(f)` of a `float64` that has no exact truncation inside
  the range of `int` (implementation-dependent in Go). -/
  floatToIntOutOfRange : F64 → Int
  /-- Conversion `uint(f)` of a `float64` outside the range of `uint`. -/
  floatToUintOutOfRange : F64 → Nat
  /-- Go call `json.Unmarshal(bytes, &jsonMap)` into an empty map; `none`
  when it returns an error. -/
  jsonUnmarshal : String → Option JsonMap
  /-- The order in which `range` visits the entries of a flat map. -/
  rangeOrder : List (String × Value) → List (String × Value)
  /-- A `range` loop visits every entry of the map exactly once. -/
  rangeOrder_perm : ∀ m, List.Perm (rangeOrder m) m
  /-- Go call `fs.Parse(args)` on a flag set holding the given flags; `none`
  when it returns an error (under `ExitOnError` the process exits instead). -/
  flagParse : ErrorHandling → List FlagReg → List String → Option FlagSet

/-! ### A reference platform

Used to evaluate the embedding on concrete inputs.  Its Unicode tables cover
Basic Latin and Latin-1 (U+0000 to U+00FF), where they agree with Go; its
`ParseFloat` reads signed decimal integer literals below `2^64` only, its
`ParseDuration` an unsigned integer with one unit. -/

/-- Table `unicode.IsUpper` on U+0000..U+00FF. -/
def refIsUpper (c : Char) : Bool :=
  (65 ≤ c.toNat && c.toNat ≤ 90) ||
  (192 ≤ c.toNat && c.toNat ≤ 222 && c.toNat != 215)

/-- Table `unicode.IsLower` on U+0000..U+00FF. -/
def refIsLower (c : Char) : Bool :=
  (97 ≤ c.toNat && c.toNat ≤ 122) || c.toNat == 181 ||
  (223 ≤ c.toNat && c.toNat ≤ 255 && c.toNat != 247)

/-- Table `unicode.ToLower` on U+0000..U+00FF. -/
def refToLower (c : Char) : Char :=
  if refIsUpper c then Char.ofNat (c.toNat + 32) else c

/-- Table `unicode.ToUpper` on U+0000..U+00FF. -/
def refToUpper (c : Char) : Char :=
  if (97 ≤ c.toNat && c.toNat ≤ 122) ||
      (224 ≤ c.toNat && c.toNat ≤ 254 && c.toNat != 247) then Char.ofNat (c.toNat - 32)
  else if c.toNat == 181 then Char.ofNat 924
  else if c.toNat == 255 then Char.ofNat 376
  else c

/-- Table `unicode.IsSpace` on U+0000..U+00FF. -/
def refIsSpace (c : Char) : Bool :=
  (9 ≤ c.toNat && c.toNat ≤ 13) || c.toNat == 32 || c.toNat == 133 || c.toNat == 160

/-- Value of a non-empty run of decimal digits. -/
def digitsValue : List Char → Option Nat
  | [] => none
  | cs => if cs.all Char.isDigit then some (cs.foldl (fun n c => 10 * n + (c.toNat - 48)) 0) else none

/-- A signed decimal integer literal: an optional sign, then digits. -/
def signedLiteral (s : String) : Option Int :=
  match s.data with
  | '-' :: cs => (digitsValue cs).map (fun n => - (n : Int))
  | '+' :: cs => (digitsValue cs).map (fun n => (n : Int))
  | cs => (digitsValue cs).map (fun n => (n : Int))

/-- Floor of the binary logarithm, by halving at most `fuel` times. -/
def log2Fuel : Nat → Nat → Nat
  | 0, _ => 0
  | fuel + 1, n => if 2 ≤ n then log2Fuel fuel (n / 2) + 1 else 0

/-- Round a natural number to the nearest one with at most 53 significant
bits, ties to even: the value of `float64(n)` for `n` below `2^1024`. -/
def roundNat53 (n : Nat) : Nat :=
  if n ≤ 2 ^ 53 then n
  else
    let e := log2Fuel 1100 n - 52
    let q := n / 2 ^ e
    let r := n % 2 ^ e
    let half := 2 ^ (e - 1)
    let q1 := if half < r ∨ (r = half ∧ q % 2 = 1) then q + 1 else q
    q1 * 2 ^ e

/-- Conversion `float64(n)` of an integer below `2^1024` in magnitude. -/
def F64.ofInt (n : Int) : F64 :=
  if 0 ≤ n then .fin (roundNat53 n.toNat) else .fin (- (roundNat53 (-n).toNat : Int))

/-- Reading of `strconv.ParseFloat` on signed decimal integer literals below
`2^64` in magnitude; every other text is refused. -/
def refParseFloat (s : String) : Option F64 :=
  match signedLiteral s with
  | some n => if n.natAbs < 2 ^ 64 then some (F64.ofInt n) else none
  | none => none

/-- Reading of `time.ParseDuration` on an unsigned decimal integer followed by
one unit (`ns`, `us`, `ms`, `s`, `m`, `h`); every other text is refused. -/
def refParseDuration (s : String) : Option Int :=
  let digits := s.data.takeWhile Char.isDigit
  let unit := String.mk (s.data.dropWhile Char.isDigit)
  let scale : Option Nat :=
    if unit = "ns" then some 1
    else if unit = "us" then some 1000
    else if unit = "ms" then some 1000000
    else if unit = "s" then some 1000000000
    else if unit = "m" then some 60000000000
    else if unit = "h" then some 3600000000000
    else none
  match digitsValue digits, scale with
  | some n, some k => if n * k < 2 ^ 63 then some ((n * k : Nat) : Int) else none
  | _, _ => none

/-- The reference platform: Latin-1 tables, integer literals for
`ParseFloat`, single-unit durations, no environment, no files, no document,
no command line, maps ranged in stored order. -/
def refPlatform : Platform where
  isUpper := refIsUpper
  isLower := refIsLower
  toLower := refToLower
  toUpper := refToUpper
  caseFold := fun c d => refToLower c == refToLower d
  isSpace := refIsSpace
  parseFloat := refParseFloat
  parseFloatFailValue := fun _ => .fin 0
  parseFloat32Value := fun s => (refParseFloat s).getD (.fin 0)
  parseDuration := refParseDuration
  fileExists := fun _ => false
  lookupEnv := fun _ => none
  floatToIntOutOfRange := fun _ => - 2 ^ 63
  floatToUintOutOfRange := fun _ => 2 ^ 63
  jsonUnmarshal := fun _ => none
  rangeOrder := fun m => m
  rangeOrder_perm := fun m => List.Perm.refl m
  flagParse := fun _ _ _ => none

/-! ## Strings -/

/-- Go call `strings.Replace(s, old, new, -1)` for one-rune `old` and `new`. -/
def replaceChar (old new : Char) (s : String) : String :=
  ⟨s.data.map (fun c => if c = old then new else c)⟩

/-- Go function `strings.ToLower`. -/
def strToLower (P : Platform) (s : String) : String :=
  ⟨s.data.map P.toLower⟩

/-- Go function `strings.ToUpper`. -/
def strToUpper (P : Platform) (s : String) : String :=
  ⟨s.data.map P.toUpper⟩

/-- Rune-wise comparison of `strings.EqualFold`. -/
def equalFoldChars (P : Platform) : List Char → List Char → Bool
  | [], [] => true
  | c :: cs, d :: ds => (c == d || P.caseFold c d) && equalFoldChars P cs ds
  | _, _ => false

/-- Go function `strings.EqualFold`. -/
def equalFold (P : Platform) (s t : String) : Bool :=
  equalFoldChars P s.data t.data

/-- Pieces of a rune list between occurrences of `sep`. -/
def splitChars (sep : Char) : List Char → List (List Char)
  | [] => [[]]
  | c :: cs =>
    if c = sep then [] :: splitChars sep cs
    else
      match splitChars sep cs with
      | [] => [[c]]
      | h :: t => (c :: h) :: t

/-- Go call `strings.Split(s, sep)` for a one-rune separator. -/
def strSplit (s : String) (sep : Char) : List String :=
  (splitChars sep s.data).map String.mk

/-- Go function `strings.TrimSpace`. -/
def trimSpace (P : Platform) (s : String) : String :=
  ⟨((s.data.dropWhile P.isSpace).reverse.dropWhile P.isSpace).reverse⟩

/-! ## Parameters (`parameter.go`) -/

/-- Parameter is a single config parameter. -/
structure parameter where
  name : String := ""
  paramtype : internalType := .stringType
  description : String := ""
  defaultValue : String := ""
  value : Value := .nil
  minvalue : String := ""
  maxvalue : String := ""
  file : Bool := false
  options : List String := []
  required : Bool := false
  isSet : Bool := false
  deriving DecidableEq, Repr

/-- Loop state of `hyphenName`. -/
structure HyphenState where
  ret : List Char
  prevChar : Char
  prevPrevChar : Char
  changes : Nat
  deriving DecidableEq, Repr

/-- One iteration of the loop of `hyphenName`, at byte offset `i` with rune
`ch`.  The write `ret[i-1+changes] = '-'` panics outside the slice. -/
def hyphenStep (P : Platform) (st : HyphenState) (i : Nat) (ch : Char) : Res HyphenState :=
  if i < 2 then
    .ok { ret := st.ret ++ [ch], prevPrevChar := st.prevChar, prevChar := ch, changes := st.changes }
  else
    let caseChange :=
      (P.isUpper st.prevPrevChar && P.isUpper st.prevChar && P.isLower ch) ||
      (P.isLower st.prevPrevChar && P.isUpper st.prevChar && P.isLower ch) ||
      (P.isLower st.prevPrevChar && P.isUpper st.prevChar && P.isUpper ch)
    if caseChange then
      if i - 1 + st.changes < st.ret.length then
        .ok { ret := (st.ret.set (i - 1 + st.changes) '-' ++ [st.prevChar]) ++ [ch],
              prevPrevChar := st.prevChar, prevChar := ch, changes := st.changes + 1 }
      else .panic "index out of range"
    else
      .ok { ret := st.ret ++ [ch], prevPrevChar := st.prevChar, prevChar := ch, changes := st.changes }

/-- The `for i, ch := range` loop of `hyphenName`; `i` is a byte offset. -/
def hyphenLoop (P : Platform) : HyphenState → Nat → List Char → Res HyphenState
  | st, _, [] => .ok st
  | st, i, ch :: rest =>
    match hyphenStep P st i ch with
    | .ok st1 => hyphenLoop P st1 (i + ch.utf8Size) rest
    | .error e => .error e
    | .panic w => .panic w

/-- Method `hyphenName` converts name into a lowercase string with hyphens. -/
def parameter.hyphenName (P : Platform) (p : parameter) : Res String :=
  match hyphenLoop P { ret := [], prevChar := 'X', prevPrevChar := 'X', changes := 0 } 0
      (replaceChar '.' '-' p.name).data with
  | .ok st => .ok (strToLower P ⟨st.ret⟩)
  | .error e => .error e
  | .panic w => .panic w

/-- Method `envName`: the flag name in upper case with underscores. -/
def parameter.envName (P : Platform) (p : parameter) : Res String :=
  match p.hyphenName P with
  | .ok h => .ok (replaceChar '-' '_' (strToUpper P h))
  | .error e => .error e
  | .panic w => .panic w

/-- Function `toInternalType` classifies a dynamically typed value. -/
def toInternalType : Value → internalType
  | .duration _ => .durationType
  | .uint _ => .uintType
  | .int _ => .intType
  | .float _ => .floatType
  | .bool _ => .boolType
  | .str _ => .stringType
  | _ => .invalidType

/-- Go call `strconv.ParseInt(s, 10, 64)`: the value returned and whether
the error is nil.  A syntax error returns 0, a range error the nearest bound. -/
def parseIntRaw (s : String) : Int × Bool :=
  match signedLiteral s with
  | none => (0, false)
  | some n =>
    if n < - 2 ^ 63 then (- 2 ^ 63, false)
    else if 2 ^ 63 ≤ n then (2 ^ 63 - 1, false)
    else (n, true)

/-- Go call `strconv.ParseInt(s, 10, 64)` when the error is nil. -/
def parseInt (s : String) : Option Int :=
  match parseIntRaw s with
  | (n, true) => some n
  | (_, false) => none

/-- Go function `strconv.ParseBool`. -/
def parseBool (s : String) : Option Bool :=
  if s = "1" ∨ s = "t" ∨ s = "T" ∨ s = "TRUE" ∨ s = "true" ∨ s = "True" then some true
  else if s = "0" ∨ s = "f" ∨ s = "F" ∨ s = "FALSE" ∨ s = "false" ∨ s = "False" then some false
  else none

/-- Method `SetValueAsString`: the parameter after the call and what the
call returned. -/
def parameter.SetValueAsString (P : Platform) (p : parameter) (val : String) :
    parameter × Res Unit :=
  match p.paramtype with
  | .stringType => ({ p with value := .str val, isSet := true }, .ok ())
  | .uintType =>
    match parseInt val with
    | some v =>
      if v < 0 then (p, .error (.invalidValue p.name val))
      else ({ p with value := .uint v.toNat, isSet := true }, .ok ())
    | none => (p, .error (.invalidValue p.name val))
  | .intType =>
    match parseInt val with
    | some v => ({ p with value := .int v, isSet := true }, .ok ())
    | none => (p, .error (.invalidValue p.name val))
  | .boolType =>
    match parseBool val with
    | some v => ({ p with value := .bool v, isSet := true }, .ok ())
    | none => (p, .error (.invalidValue p.name val))
  | .durationType =>
    match P.parseDuration val with
    | some v => ({ p with value := .duration v, isSet := true }, .ok ())
    | none => (p, .error (.invalidValue p.name val))
  | .floatType =>
    match P.parseFloat val with
    | some v => ({ p with value := .float v, isSet := true }, .ok ())
    | none => (p, .error (.invalidValue p.name val))
  | .invalidType => (p, .error (.unknownParameterType p.paramtype))

/-- Method `SetValue` sets the parameter value: the parameter after the
call and what the call returned. -/
def parameter.SetValue (p : parameter) (value : Value) : parameter × Res Unit :=
  if toInternalType value ≠ p.paramtype then (p, .error (.cantSet p.name value))
  else
    match p.paramtype with
    | .invalidType => (p, .error (.unknownType p.paramtype))
    | _ => ({ p with value := value, isSet := true }, .ok ())

/-- The i-th element `tv[i]` of a slice; out of range panics. -/
def index (tv : List String) (i : Nat) : Res String :=
  match tv.get? i with
  | some s => .ok s
  | none => .panic "index out of range"

/-- The `switch` on the attribute key in `newParameter`; `tv` is the token
split at the equals signs. -/
def newParameterKey (ret : parameter) (tv : List String) (key : String) : Res parameter :=
  if key = "desc" then
    (index tv 1).bind fun x => .ok { ret with description := x }
  else if key = "default" then
    (index tv 1).bind fun x => .ok { ret with defaultValue := x }
  else if key = "min" then
    (index tv 1).bind fun x =>
      if ret.paramtype ≠ .intType ∧ ret.paramtype ≠ .uintType ∧ ret.paramtype ≠ .floatType then
        .error (.minNeedsNumeric ret.name)
      else .ok { ret with minvalue := x }
  else if key = "max" then
    (index tv 1).bind fun x =>
      if ret.paramtype ≠ .intType ∧ ret.paramtype ≠ .uintType ∧ ret.paramtype ≠ .floatType then
        .error (.maxNeedsNumeric ret.name)
      else .ok { ret with maxvalue := x }
  else if key = "file" then
    if ret.paramtype ≠ .stringType then .error (.fileNeedsString ret.name)
    else .ok { ret with file := true }
  else if key = "required" then .ok { ret with required := true }
  else if key = "options" then
    if ret.paramtype ≠ .stringType then .error (.optionsNeedString ret.name)
    else
      (index tv 1).bind fun x =>
        if strSplit x ',' = [""] then .error (.noOptions ret.name)
        else .ok { ret with options := strSplit x ',' }
  else .error (.invalidTags ret.name)

/-- Body of the loop over the attributes of a tag in `newParameter`. -/
def newParameterAttr (P : Platform) (ret : parameter) (v : String) : Res parameter :=
  if 2 < (strSplit v '=').length then .error (.invalidFormat ret.name v)
  else if (strSplit v '=').head? = some "" then .ok ret
  else newParameterKey ret (strSplit v '=')
    (strToLower P (trimSpace P ((strSplit v '=').headD "")))

/-- The loop `for _, v := range attribs` of `newParameter`. -/
def newParameterLoop (P : Platform) : parameter → List String → Res parameter
  | ret, [] => .ok ret
  | ret, v :: rest => (newParameterAttr P ret v).bind fun r => newParameterLoop P r rest

/-- The checks of `newParameter` after its loop: both bounds must parse, the
default is applied as text, and `isSet` is cleared. -/
def newParameterFinish (P : Platform) (ret : parameter) : Res (Option parameter) :=
  if ret.minvalue ≠ "" ∧ P.parseFloat ret.minvalue = none then .error (.invalidMin ret.name)
  else if ret.maxvalue ≠ "" ∧ P.parseFloat ret.maxvalue = none then .error (.invalidMax ret.name)
  else if ret.defaultValue ≠ "" then
    match ret.SetValueAsString P ret.defaultValue with
    | (r, .ok _) => .ok (some { r with isSet := false })
    | (_, .error e) => .error e
    | (_, .panic w) => .panic w
  else .ok (some { ret with isSet := false })

/-- Function `newParameter`: the parameter declared by one struct field with
name `fieldName`, result `tag` of `field.Tag.Lookup("param")` and current
content `value`; `none` when the field has no tag. -/
def newParameter (P : Platform) (pfx fieldName : String) (tag : Option String) (value : Value) :
    Res (Option parameter) :=
  match tag with
  | none => .ok none
  | some tagValue =>
    let ret : parameter := { name := pfx ++ fieldName, paramtype := toInternalType value }
    if ret.paramtype = .invalidType then .error (.unknownFieldType ret.name)
    else (newParameterLoop P ret (strSplit tagValue ';')).bind (newParameterFinish P)

/-- Comparison `a < b` of two `float64`. -/
def F64.lt : F64 → F64 → Bool
  | .nan, _ => false
  | _, .nan => false
  | .fin a, .fin b => decide (a < b)
  | .fin _, .posInf => true
  | .fin _, .negInf => false
  | .negInf, .negInf => false
  | .negInf, _ => true
  | .posInf, _ => false

/-- Method `toFloat`: the value widened to `float64`; the type assertion
panics on a value of another dynamic type. -/
def parameter.toFloat (p : parameter) : Res F64 :=
  match p.paramtype with
  | .intType =>
    match p.value with
    | .int n => .ok (F64.ofInt n)
    | _ => .panic "interface conversion: not int"
  | .uintType =>
    match p.value with
    | .uint n => .ok (F64.ofInt n)
    | _ => .panic "interface conversion: not uint"
  | .floatType =>
    match p.value with
    | .float f => .ok f
    | _ => .panic "interface conversion: not float64"
  | _ => .ok (.fin 0)

/-- The float returned by `v, _ := strconv.ParseFloat(s, 64)`. -/
def parseFloatValue (P : Platform) (s : String) : F64 :=
  match P.parseFloat s with
  | some v => v
  | none => P.parseFloatFailValue s

/-- The `min` check of `validate`. -/
def parameter.checkMin (P : Platform) (p : parameter) : Res Unit :=
  if p.minvalue ≠ "" then
    p.toFloat.bind fun f =>
      if F64.lt f (parseFloatValue P p.minvalue) then .error (.belowMinimum p.name) else .ok ()
  else .ok ()

/-- The `max` check of `validate`. -/
def parameter.checkMax (P : Platform) (p : parameter) : Res Unit :=
  if p.maxvalue ≠ "" then
    p.toFloat.bind fun f =>
      if F64.lt (parseFloatValue P p.maxvalue) f then .error (.aboveMaximum p.name) else .ok ()
  else .ok ()

/-- The loop over `p.options` in `validate`: whether an option was found. -/
def parameter.findOption (P : Platform) (p : parameter) : List String → Res Bool
  | [] => .ok false
  | v :: rest =>
    match p.value with
    | .nil => p.findOption P rest
    | .str s => if equalFold P v s then .ok true else p.findOption P rest
    | _ => .panic "interface conversion: not string"

/-- The `options` check of `validate`. -/
def parameter.checkOptions (P : Platform) (p : parameter) : Res Unit :=
  if 0 < p.options.length then
    (p.findOption P p.options).bind fun found =>
      if !found then .error (.invalidOption p.value p.name) else .ok ()
  else .ok ()

/-- The `file` check of `validate`. -/
def parameter.checkFile (P : Platform) (p : parameter) : Res Unit :=
  if p.file ∧ p.value ≠ .nil then
    match p.value with
    | .str s =>
      if s ≠ "" then (if P.fileExists s then .ok () else .error (.statFailed s)) else .ok ()
    | _ => .panic "interface conversion: not string"
  else .ok ()

/-- The checks of `validate` after the required check, in source order. -/
def parameter.checks (P : Platform) (p : parameter) : Res Unit :=
  (p.checkMin P).bind fun _ =>
  (p.checkMax P).bind fun _ =>
  (p.checkOptions P).bind fun _ =>
  p.checkFile P

/-- Method `validate` of a parameter. -/
def parameter.validate (P : Platform) (p : parameter) : Res Unit :=
  if p.required ∧ !p.isSet then .error (.missingRequired p.name)
  else p.checks P

/-! ## Configuration structs and the parameter list (`parameters.go`) -/

mutual
/-- A Go value as `reflect` sees it: a struct with its fields, or a value of
any other type together with its current content. -/
inductive Config where
  | leaf (v : Value)
  | struct (fs : Fields)
/-- The fields of a struct in declaration order: name, result of
`Tag.Lookup("param")`, and content. -/
inductive Fields where
  | nil
  | cons (name : String) (tag : Option String) (c : Config) (rest : Fields)
end

/-- The `config interface{}` argument of the entry points. -/
inductive Root where
  | nil
  | value (c : Config)
  | pointer (c : Config)

/-- Structure `configParameters` is the internal (flattened) representation
of the configuration parameters. -/
structure configParameters where
  params : List parameter
  deriving DecidableEq, Repr

/-- The first byte of the UTF-8 encoding of a rune. -/
def firstByte (c : Char) : Nat :=
  if c.toNat < 128 then c.toNat
  else if c.toNat < 2048 then 192 + c.toNat / 64
  else if c.toNat < 65536 then 224 + c.toNat / 4096
  else 240 + c.toNat / 262144

/-- The test `unicode.IsLower(rune(field.Name[0]))`: the first byte of the
name, read as a rune, is a lower-case letter. -/
def startsLower (P : Platform) (name : String) : Bool :=
  match name.data with
  | [] => false
  | c :: _ => P.isLower (Char.ofNat (firstByte c))

/-- Whether a field name is exported, which is what `CanInterface` reports
for a field reached through exported fields only. -/
def isExported (P : Platform) (name : String) : Bool :=
  match name.data with
  | [] => false
  | c :: _ => P.isUpper c

mutual
/-- Function `readParameters` on a value that is not a pointer: only a struct
is accepted. -/
def Config.readParameters (P : Platform) (pfx : String) :
    Config → List parameter → Res (List parameter)
  | .leaf _, _ => .error .needsStruct
  | .struct fs, params => fs.readParameters P pfx params
/-- The loop of `readParameters` over the fields of a struct. -/
def Fields.readParameters (P : Platform) (pfx : String) :
    Fields → List parameter → Res (List parameter)
  | .nil, params => .ok params
  | .cons name tag c rest, params =>
    if startsLower P name then
      if tag.isSome then .error (.unexportedWithTag name)
      else rest.readParameters P pfx params
    else if !isExported P name then .error (.cannotSetField name)
    else
      match c with
      | .struct fs =>
        (fs.readParameters P (pfx ++ name ++ ".") params).bind fun ps =>
          rest.readParameters P pfx ps
      | .leaf v =>
        (newParameter P pfx name tag v).bind fun param =>
          match param with
          | none => rest.readParameters P pfx params
          | some p => rest.readParameters P pfx (params ++ [p])
end

/-- Function `newConfigParameters` creates a configuration parameter set
based on the supplied pointer to a configuration struct. -/
def newConfigParameters (P : Platform) (config : Root) : Res configParameters :=
  match config with
  | .nil => .error .configNil
  | .value _ => .error .needsPointer
  | .pointer c => (c.readParameters P "" []).bind fun ps => .ok { params := ps }

/-- Index of the first parameter whose name equals `name` under
`strings.EqualFold`. -/
def findParameter (P : Platform) (name : String) : List parameter → Option Nat
  | [] => none
  | p :: rest =>
    if equalFold P p.name name then some 0
    else (findParameter P name rest).map (· + 1)

/-- Method `getParameter`: the position in `c.params` of the parameter the
returned pointer refers to, `none` for a nil pointer. -/
def configParameters.getParameter (P : Platform) (c : configParameters) (name : String) :
    Option Nat :=
  findParameter P name c.params

/-- Method `Validate`: the first error of `validate` in list order. -/
def validateAll (P : Platform) : List parameter → Res Unit
  | [] => .ok ()
  | v :: rest => (v.validate P).bind fun _ => validateAll P rest

/-- Method `Validate` of the parameter list. -/
def configParameters.Validate (P : Platform) (c : configParameters) : Res Unit :=
  validateAll P c.params

/-- Go call `f.FieldByName(name)` on the fields of a struct: the first field
with that name. -/
def Fields.fieldByName : Fields → String → Option Config
  | .nil, _ => none
  | .cons n _ c rest, name => if n = name then some c else rest.fieldByName name

/-- The chain of `FieldByName` calls of `AssignValues` along a path, followed
by `f.Interface()`.  The result is `none` where `reflect` panics: a call on a
value that is not a struct, a field that does not exist, or a field that is
not exported. -/
def Config.fieldByPath (P : Platform) : Config → List String → Option Config
  | c, [] => some c
  | .leaf _, _ :: _ => none
  | .struct fs, name :: rest =>
    match fs.fieldByName name with
    | some c => if isExported P name then c.fieldByPath P rest else none
    | none => none

/-- Go call `f.Interface()` on a field. -/
def Config.interface : Config → Value
  | .leaf v => v
  | .struct _ => .other "struct"

mutual
/-- The struct in which the field at a path holds `v` (the effect of
`f.SetString`, `f.SetInt`, ... on the field that `fieldByPath` reaches). -/
def Config.setPath : Config → List String → Value → Config
  | .leaf _, [], v => .leaf v
  | .struct fs, [], _ => .struct fs
  | .leaf w, _ :: _, _ => .leaf w
  | .struct fs, name :: rest, v => .struct (fs.setPath name rest v)
/-- Setting below the first field with a given name. -/
def Fields.setPath : Fields → String → List String → Value → Fields
  | .nil, _, _, _ => .nil
  | .cons n t c more, name, rest, v =>
    if n = name then .cons n t (c.setPath rest v) more
    else .cons n t c (more.setPath name rest v)
end

/-- Body of the loop of `AssignValues` for one parameter: the configuration
struct after it and the error it returns, if any. -/
def assignValue (P : Platform) (config : Config) (v : parameter) : Config × Res Unit :=
  let fields := strSplit v.name '.'
  match config.fieldByPath P fields with
  | none => (config, .panic "reflect: call on zero or unexported Value")
  | some f =>
    if toInternalType f.interface ≠ v.paramtype then
      (config, .error (.invalidTypeFor v.name v.value))
    else if v.value = .nil then (config, .ok ())
    else if v.paramtype = .invalidType then (config, .ok ())
    else if toInternalType v.value ≠ v.paramtype then
      (config, .panic "interface conversion")
    else (config.setPath fields v.value, .ok ())

/-- The loop of `AssignValues` over the parameters. -/
def assignAll (P : Platform) : Config → List parameter → Config × Res Unit
  | config, [] => (config, .ok ())
  | config, v :: rest =>
    match assignValue P config v with
    | (c1, .ok _) => assignAll P c1 rest
    | (c1, .error e) => (c1, .error e)
    | (c1, .panic w) => (c1, .panic w)

/-- Method `AssignValues` assigns the current parameter config to the
struct behind the pointer `config`. -/
def configParameters.AssignValues (P : Platform) (c : configParameters) (config : Config) :
    Config × Res Unit :=
  assignAll P config c.params

/-! ## The file loader (`file.go`) -/

/-- The assignment `out[k] = v` on a map kept as a list of entries. -/
def mapSet : List (String × Value) → String → Value → List (String × Value)
  | [], k, v => [(k, v)]
  | (k1, v1) :: rest, k, v => if k1 = k then (k, v) :: rest else (k1, v1) :: mapSet rest k v

/-- Function `flattenMap`: flatten nested JSON structs into a single level;
the result is the map `out` after the call. -/
def JsonMap.flattenMap (P : Platform) (pfx : String) :
    JsonMap → List (String × Value) → List (String × Value)
  | .nil, out => out
  | .cons k (.obj submap) rest, out =>
    rest.flattenMap P pfx (submap.flattenMap P (pfx ++ strToLower P k ++ ".") out)
  | .cons k (.val v) rest, out =>
    rest.flattenMap P pfx (mapSet out (pfx ++ strToLower P k) v)

/-- Conversion `int(tmp)` of a `float64`: truncation towards zero. -/
def floatToInt (P : Platform) (tmp : F64) : Int :=
  match tmp with
  | .fin q =>
    let t := Int.tdiv q.num q.den
    if - 2 ^ 63 ≤ t ∧ t < 2 ^ 63 then t else P.floatToIntOutOfRange tmp
  | _ => P.floatToIntOutOfRange tmp

/-- Conversion `uint(tmp)` of a `float64`: truncation towards zero. -/
def floatToUint (P : Platform) (tmp : F64) : Nat :=
  match tmp with
  | .fin q =>
    let t := Int.tdiv q.num q.den
    if 0 ≤ t ∧ t < 2 ^ 64 then t.toNat else P.floatToUintOutOfRange tmp
  | _ => P.floatToUintOutOfRange tmp

/-- The `io.Reader` argument of `NewFile`. -/
inductive Reader where
  | nil
  | failing
  | bytes (data : String)

/-- Body of the loop of `NewFile` once the parameter `para` of a key is
found: the parameter after it and the error returned, if any. -/
def fileValue (P : Platform) (para : parameter) (v : Value) : parameter × Res Unit :=
  if para.paramtype = .intType then
    match v with
    | .float tmp => para.SetValue (.int (floatToInt P tmp))
    | _ => (para, .panic "interface conversion: not float64")
  else if para.paramtype = .uintType then
    match v with
    | .float tmp => para.SetValue (.uint (floatToUint P tmp))
    | _ => (para, .panic "interface conversion: not float64")
  else if para.paramtype = .durationType then
    match v with
    | .str tmp =>
      match P.parseDuration tmp with
      | none => (para, .error (.durationMalformed para.name))
      | some d => ((para.SetValue (.duration d)).1, .ok ())
    | _ => (para, .error (.durationNotString para.name))
  else para.SetValue v

/-- The loop `for k, v := range configMap` of `NewFile`. -/
def fileLoop (P : Platform) : List parameter → List (String × Value) → List parameter × Res Unit
  | params, [] => (params, .ok ())
  | params, (k, v) :: rest =>
    match findParameter P k params with
    | none => fileLoop P params rest
    | some i =>
      match params.get? i with
      | none => fileLoop P params rest
      | some para =>
        match fileValue P para v with
        | (para1, .ok _) => fileLoop P (params.set i para1) rest
        | (para1, .error e) => (params.set i para1, .error e)
        | (para1, .panic w) => (params.set i para1, .panic w)

/-- The part of `NewFile` after the document is decoded: fill the parameters
from the flattened map, assign, validate. -/
def loadFile (P : Platform) (params : configParameters) (c : Config) (jsonMap : JsonMap) :
    Config × Res Unit :=
  let configMap := jsonMap.flattenMap P "" []
  match fileLoop P params.params (P.rangeOrder configMap) with
  | (_, .error e) => (c, .error e)
  | (_, .panic w) => (c, .panic w)
  | (ps, .ok _) =>
    match configParameters.AssignValues P { params := ps } c with
    | (c1, .error e) => (c1, .error e)
    | (c1, .panic w) => (c1, .panic w)
    | (c1, .ok _) => (c1, configParameters.Validate P { params := ps })

/-- Function `NewFile` populates a config struct with values from a config
file: the struct behind `config` after the call, and what the call returned. -/
def NewFile (P : Platform) (config : Root) (reader : Reader) : Root × Res Unit :=
  match newConfigParameters P config with
  | .error e => (config, .error e)
  | .panic w => (config, .panic w)
  | .ok params =>
    match config with
    | .pointer c =>
      match reader with
      | .nil => (config, .error .readerNil)
      | .failing => (config, .error .readFailed)
      | .bytes data =>
        match P.jsonUnmarshal data with
        | none => (config, .error .jsonFailed)
        | some jsonMap =>
          match loadFile P params c jsonMap with
          | (c1, r) => (.pointer c1, r)
    | _ => (config, .panic "unreachable")

/-! ## The flag loader (`flags.go`) -/

/-- Structure `flagDef`; the variable `value` points to is the one the flag
set holds under `flagName`. -/
structure flagDef where
  flagName : String
  name : String
  paramtype : internalType
  deriving DecidableEq, Repr

/-- Method `flagValue` returns the value as a scalar value, read from the
variable bound to the flag; a variable of another type panics. -/
def flagDef.flagValue (d : flagDef) (fs : FlagSet) : Res Value :=
  if d.paramtype = .invalidType then .panic "can't"
  else if toInternalType (fs.current d.flagName) = d.paramtype then .ok (fs.current d.flagName)
  else .panic "interface conversion"

/-- Function `defaultAsInt`. -/
def defaultAsInt (defaultVal : String) : Int :=
  if defaultVal = "" then 0 else (parseIntRaw defaultVal).1

/-- Function `defaultAsBool`. -/
def defaultAsBool (defaultVal : String) : Bool :=
  (parseBool defaultVal).getD false

/-- Function `defaultAsFloat64`. -/
def defaultAsFloat64 (P : Platform) (defaultVal : String) : F64 :=
  P.parseFloat32Value defaultVal

/-- Function `defaultAsDuration`. -/
def defaultAsDuration (P : Platform) (defaultVal : String) : Int :=
  (P.parseDuration defaultVal).getD 0

/-- Registration of a flag on the flag set (`fs.StringVar`, ...): a name
already in use panics ("flag redefined"). -/
def register (regs : List FlagReg) (r : FlagReg) : Res (List FlagReg) :=
  if regs.any (fun x => x.name == r.name) then .panic "flag redefined" else .ok (regs ++ [r])

/-- Function `makeFlag`: the flags registered so far extended by the flag of
`p`, and the `flagDef` returned. -/
def makeFlag (P : Platform) (regs : List FlagReg) (p : parameter) :
    Res (List FlagReg × flagDef) :=
  (p.hyphenName P).bind fun flagName =>
    let ret : flagDef := { flagName := flagName, name := p.name, paramtype := p.paramtype }
    let dflt : Option Value :=
      match p.paramtype with
      | .stringType => some (.str p.defaultValue)
      | .boolType => some (.bool (defaultAsBool p.defaultValue))
      | .intType => some (.int (defaultAsInt p.defaultValue))
      | .uintType => some (.uint (defaultAsInt p.defaultValue % 2 ^ 64).toNat)
      | .floatType => some (.float (defaultAsFloat64 P p.defaultValue))
      | .durationType => some (.duration (defaultAsDuration P p.defaultValue))
      | .invalidType => none
    match dflt with
    | none => .error (.cantMakeFlag p.name p.paramtype)
    | some d =>
      (register regs { name := flagName, kind := p.paramtype, dflt := d, usage := p.description }).bind
        fun regs1 => .ok (regs1, ret)

/-- The loop of `newFlagWithErrorHandling` that makes one flag per parameter. -/
def makeFlags (P : Platform) : List FlagReg → List parameter → Res (List FlagReg × List flagDef)
  | regs, [] => .ok (regs, [])
  | regs, p :: rest =>
    (makeFlag P regs p).bind fun (regs1, d) =>
      (makeFlags P regs1 rest).bind fun (regs2, ds) => .ok (regs2, d :: ds)

/-- The loop "check for environment overrides". -/
def envLoop (P : Platform) : List parameter → Res (List parameter)
  | [] => .ok []
  | p :: rest =>
    (p.envName P).bind fun key =>
      match P.lookupEnv key with
      | some val =>
        match p.SetValueAsString P val with
        | (p1, .ok _) => (envLoop P rest).bind fun ps => .ok (p1 :: ps)
        | (_, .error e) => .error e
        | (_, .panic w) => .panic w
      | none => (envLoop P rest).bind fun ps => .ok (p :: ps)

/-- The callback of `fs.Visit`: the first `flagDef` with the name of each
flag that was set. -/
def flagsToSet (flagVars : List flagDef) : List String → List flagDef
  | [] => []
  | f :: rest =>
    match flagVars.find? (fun d => d.flagName == f) with
    | some d => d :: flagsToSet flagVars rest
    | none => flagsToSet flagVars rest

/-- The loop `for i := range flagsToSet`. -/
def flagLoop (P : Platform) (fs : FlagSet) : List parameter → List flagDef → Res (List parameter)
  | params, [] => .ok params
  | params, d :: rest =>
    match findParameter P d.name params with
    | none => flagLoop P fs params rest
    | some i =>
      match params.get? i with
      | none => flagLoop P fs params rest
      | some p =>
        (d.flagValue fs).bind fun v =>
          match p.SetValue v with
          | (p1, .ok _) => flagLoop P fs (params.set i p1) rest
          | (_, .error e) => .error e
          | (_, .panic w) => .panic w

/-- The part of `newFlagWithErrorHandling` after the parameters are built:
the parameter list before `AssignValues`. -/
def resolveFlags (P : Platform) (params : List parameter) (args : List String)
    (opt : ErrorHandling) (envOverride : Bool) : Res (List parameter) :=
  (makeFlags P [] params).bind fun (regs, flagVars) =>
    match P.flagParse opt regs args with
    | none => .error .flagParseFailed
    | some fs =>
      (if envOverride then envLoop P params else .ok params).bind fun ps =>
        flagLoop P fs ps (flagsToSet flagVars fs.actual)

/-- Function `newFlagWithErrorHandling`: the struct behind `config` after the
call, and what the call returned.  The error of `AssignValues` is dropped. -/
def newFlagWithErrorHandling (P : Platform) (config : Root) (args : List String)
    (opt : ErrorHandling) (envOverride : Bool) : Root × Res Unit :=
  match newConfigParameters P config with
  | .error e => (config, .error e)
  | .panic w => (config, .panic w)
  | .ok params =>
    match config with
    | .pointer c =>
      match resolveFlags P params.params args opt envOverride with
      | .error e => (config, .error e)
      | .panic w => (config, .panic w)
      | .ok ps =>
        match configParameters.AssignValues P { params := ps } c with
        | (c1, .panic w) => (.pointer c1, .panic w)
        | (c1, _) => (.pointer c1, configParameters.Validate P { params := ps })
    | _ => (config, .panic "unreachable")

/-- Function `NewFlag` parses the command line parameters. -/
def NewFlag (P : Platform) (config : Root) (args : List String) : Root × Res Unit :=
  newFlagWithErrorHandling P config args .ExitOnError false

/-- Function `NewEnvFlag`: settings from environment variables and command
line arguments; the command line overrides the environment. -/
def NewEnvFlag (P : Platform) (config : Root) (args : List String) : Root × Res Unit :=
  newFlagWithErrorHandling P config args .ExitOnError true

/-! ## Specification vocabulary -/

/-- The content of the field at a path of field names, when the path leads to
a field that is not a struct. -/
def Config.get : Config → List String → Option Value
  | .leaf v, [] => some v
  | .struct _, [] => none
  | .leaf _, _ :: _ => none
  | .struct fs, name :: rest =>
    match fs.fieldByName name with
    | some c => c.get rest
    | none => none

/-- The content of a field of the struct behind the `config` pointer. -/
def Root.get : Root → List String → Option Value
  | .pointer c, path => c.get path
  | _, _ => none

/-- The validation errors: those that `validate` creates. -/
def Err.isValidation : Err → Bool
  | .missingRequired _ => true
  | .belowMinimum _ => true
  | .aboveMaximum _ => true
  | .invalidOption _ _ => true
  | .statFailed _ => true
  | _ => false

/-- An outcome that is not a validation error. -/
def Res.NoValidation {α : Type} (r : Res α) : Prop :=
  ∀ e, r = .error e → e.isValidation = false

/-- A struct with one field `Val uint` tagged `desc=description;min=100;max=200`
(`pc2` of `TestMinMaxParameter`), holding zero. -/
def pc2 : Config :=
  .struct (.cons "Val" (some "desc=description;min=100;max=200") (.leaf (.uint 0)) .nil)

/-- The reference platform at the moment the command line `--val=99` has
been parsed into a `uint` flag and the document with the single member
"val": 99 has been decoded. -/
def val99Platform : Platform :=
  { refPlatform with
    flagParse := fun _ _ args =>
      if args = ["--val=99"] then some { actual := ["val"], current := fun _ => .uint 99 }
      else none
    jsonUnmarshal := fun data =>
      if data = "\x7b\"val\": 99\x7d" then some (.cons "val" (.val (.float (.fin 99))) .nil)
      else none }

/-- The bound a parameter declares in `minvalue` or `maxvalue`, as the
integer its text is parsed to; `none` for an empty text. -/
def DeclaredBound (P : Platform) (text : String) (bound : Option Int) : Prop :=
  match bound with
  | none => text = ""
  | some m => text ≠ "" ∧ P.parseFloat text = some (.fin (m : Rat))

/-- The names of the fields of a struct, in declaration order. -/
def Fields.names : Fields → List String
  | .nil => []
  | .cons name _ _ rest => name :: rest.names

mutual
/-- What the Go language guarantees of a struct value: within each struct the
field names are pairwise different, and no field name contains a dot. -/
def Config.wellFormed : Config → Bool
  | .leaf _ => true
  | .struct fs => decide fs.names.Nodup && fs.wellFormed
/-- The fields of a well-formed struct, field by field. -/
def Fields.wellFormed : Fields → Bool
  | .nil => true
  | .cons name _ c rest => !name.data.contains '.' && c.wellFormed && rest.wellFormed
end

/-- The dotted name of a path of field names. -/
def dotted : List String → String
  | [] => ""
  | [a] => a
  | a :: b :: rest => a ++ "." ++ dotted (b :: rest)

/-- A parameter declared by a leaf of the struct with fields `fs`: its name is
`pfx` followed by the dotted path to the leaf, its kind is the kind of the
leaf, and its value, if any, is of that kind. -/
def DeclaredIn (P : Platform) (fs : Fields) (pfx : String) (p : parameter) : Prop :=
  ∃ name rest v0, name ∈ fs.names ∧ (∀ n ∈ name :: rest, n.data.contains '.' = false) ∧
    p.name = pfx ++ dotted (name :: rest) ∧
    (Config.struct fs).fieldByPath P (name :: rest) = some (.leaf v0) ∧
    toInternalType v0 = p.paramtype ∧ p.paramtype ≠ .invalidType ∧
    (p.value = .nil ∨ toInternalType p.value = p.paramtype)

/-- A parameter that fits a struct: its name is the path to a field that is
not a struct, the kind of the field is the kind of the parameter, and the
value of the parameter, if any, is of that kind. -/
def Fits (P : Platform) (c : Config) (p : parameter) : Prop :=
  ∃ v0, c.fieldByPath P (strSplit p.name '.') = some (.leaf v0) ∧
    toInternalType v0 = p.paramtype ∧
    (p.value = .nil ∨ toInternalType p.value = p.paramtype)

/-- Every field that is not a struct in `c0` is a field of the same kind in
`c`. -/
def SameKinds (P : Platform) (c0 c : Config) : Prop :=
  ∀ q v0, c0.fieldByPath P q = some (.leaf v0) →
    ∃ v1, c.fieldByPath P q = some (.leaf v1) ∧ toInternalType v1 = toInternalType v0

/-- The reference platform on which `json.Unmarshal` decodes the text `doc`
to the map `jsonMap` and refuses every other text. -/
def docPlatform (doc : String) (jsonMap : JsonMap) : Platform :=
  { refPlatform with jsonUnmarshal := fun data => if data = doc then some jsonMap else none }

/-- The struct `cfg` of `TestEnvironment`: string fields `F1` tagged
`default=F1`, `F2` tagged `default=F2` and `F3` with an empty tag, all
empty. -/
def cfgEnv : Config :=
  .struct (.cons "F1" (some "default=F1") (.leaf (.str ""))
    (.cons "F2" (some "default=F2") (.leaf (.str ""))
    (.cons "F3" (some "") (.leaf (.str ""))
    .nil)))

/-- The parameters that schema construction builds for `cfgEnv`. -/
def cfgEnvParams : List parameter :=
  [{ name := "F1", defaultValue := "F1", value := .str "F1" },
   { name := "F2", defaultValue := "F2", value := .str "F2" },
   { name := "F3" }]

/-- The reference platform with the environment of `TestEnvironment`
(`F2=env2`, `F3=env3`) at the moment the command line `--f3=flag3` has been
parsed. -/
def envFlagPlatform : Platform :=
  { refPlatform with
    lookupEnv := fun key =>
      if key = "F2" then some "env2" else if key = "F3" then some "env3" else none
    flagParse := fun _ _ args =>
      if args = ["--f3=flag3"] then
        some { actual := ["f3"],
               current := fun n => if n = "f3" then .str "flag3" else if n = "f2" then .str "F2"
                 else .str "F1" }
      else none }

/-- The value a decoded JSON value `v` stands for when it is correctly typed
for a parameter of kind `kind`: a JSON string for a string, a JSON boolean for
a bool, a JSON number for a float, a JSON number that is an integer within
the range of the type for int and uint, a JSON string that
`time.ParseDuration` accepts for a duration (then the parsed span). -/
def correctlyTyped (P : Platform) (kind : internalType) (v : Value) : Option Value :=
  match kind, v with
  | .stringType, .str s => some (.str s)
  | .boolType, .bool b => some (.bool b)
  | .floatType, .float f => some (.float f)
  | .intType, .float (.fin q) =>
    if q.den = 1 ∧ - 2 ^ 63 ≤ q.num ∧ q.num < 2 ^ 63 then some (.int q.num) else none
  | .uintType, .float (.fin q) =>
    if q.den = 1 ∧ 0 ≤ q.num ∧ q.num < 2 ^ 64 then some (.uint q.num.toNat) else none
  | .durationType, .str s => (P.parseDuration s).map Value.duration
  | _, _ => none

/-- A struct with one field of every supported kind and a nested group:
`Name string`, `Count int`, `Size uint`, `On bool`, `Wait time.Duration`,
`Ratio float64` and `Group struct { Level int; Tag string }`, every leaf
tagged with a description, all zero. -/
def allKinds : Config :=
  .struct (.cons "Name" (some "desc=a string") (.leaf (.str ""))
    (.cons "Count" (some "desc=an int;min=-10") (.leaf (.int 0))
    (.cons "Size" (some "desc=a uint;default=2") (.leaf (.uint 0))
    (.cons "On" (some "desc=a bool") (.leaf (.bool false))
    (.cons "Wait" (some "desc=a duration;default=10ns") (.leaf (.duration 0))
    (.cons "Ratio" (some "desc=a float") (.leaf (.float (.fin 0)))
    (.cons "Group" none
      (.struct (.cons "Level" (some "desc=nested int") (.leaf (.int 0))
        (.cons "Tag" (some "desc=nested string;options=red,green") (.leaf (.str ""))
        .nil)))
    .nil)))))))

/-- The decoded form of the document `allKindsText`. -/
def allKindsDoc : JsonMap :=
  .cons "name" (.val (.str "x"))
    (.cons "count" (.val (.float (.fin (-3))))
    (.cons "size" (.val (.float (.fin 7)))
    (.cons "on" (.val (.bool true))
    (.cons "wait" (.val (.str "12ms"))
    (.cons "ratio" (.val (.float (.fin (1 / 2))))
    (.cons "group" (.obj
      (.cons "level" (.val (.float (.fin 2)))
        (.cons "tag" (.val (.str "Green"))
        .nil)))
    .nil))))))

/-- A JSON document giving every field of `allKinds` a correctly typed
value. -/
def allKindsText : String :=
  "\x7b\"name\": \"x\", \"count\": -3, \"size\": 7, \"on\": true, \"wait\": \"12ms\", " ++
  "\"ratio\": 0.5, \"group\": \x7b\"level\": 2, \"tag\": \"Green\"\x7d\x7d"

/-- The platform on which the document `allKindsText` decodes to
`allKindsDoc`. -/
def allKindsPlatform : Platform := docPlatform allKindsText allKindsDoc

/-- The parameters that schema construction builds for `allKinds`. -/
def allKindsParams : configParameters :=
  { params := [
      { name := "Name", description := "a string" },
      { name := "Count", paramtype := .intType, description := "an int", minvalue := "-10" },
      { name := "Size", paramtype := .uintType, description := "a uint", defaultValue := "2",
        value := .uint 2 },
      { name := "On", paramtype := .boolType, description := "a bool" },
      { name := "Wait", paramtype := .durationType, description := "a duration",
        defaultValue := "10ns", value := .duration 10 },
      { name := "Ratio", paramtype := .floatType, description := "a float" },
      { name := "Group.Level", paramtype := .intType, description := "nested int" },
      { name := "Group.Tag", description := "nested string", options := ["red", "green"] }] }

/-- The parse of a text for a kind, in the words of the specification: a
string is taken verbatim; a uint is a base-10 integer that is not negative; an
int is a base-10 integer; a bool is a boolean literal; a duration follows the
duration syntax; a float is a 64-bit float.  `none` when the text is
rejected. -/
def textualParse (P : Platform) (kind : internalType) (val : String) : Option Value :=
  match kind with
  | .stringType => some (.str val)
  | .uintType => (parseInt val).bind fun v => if 0 ≤ v then some (.uint v.toNat) else none
  | .intType => (parseInt val).map .int
  | .boolType => (parseBool val).map .bool
  | .durationType => (P.parseDuration val).map .duration
  | .floatType => (P.parseFloat val).map .float
  | .invalidType => none

/-- The key of an attribute token of a tag: the text before the first `=`,
trimmed and in lower case. -/
def tokenKey (P : Platform) (t : String) : String :=
  strToLower P (trimSpace P ((strSplit t '=').headD ""))

/-- The attribute keys that carry a value after `=`. -/
def valueKeys : List String := ["desc", "default", "min", "max", "options"]

/-- The attribute keys the package knows. -/
def knownKeys : List String := ["desc", "default", "min", "max", "file", "required", "options"]

/-- An attribute token in which a key that carries a value is followed by
`=`. -/
def tokenWritten (P : Platform) (t : String) : Bool :=
  decide ((strSplit t '=').length ≠ 1) || !(valueKeys.contains (tokenKey P t))

/-- A tag in which every attribute that carries a value is written
`key=value`. -/
def tagWritten (P : Platform) (tag : String) : Bool :=
  (strSplit tag ';').all (tokenWritten P)

/-- The kinds that admit the attributes `min` and `max`. -/
def internalType.numeric : internalType → Bool
  | .intType => true
  | .uintType => true
  | .floatType => true
  | _ => false

/-- The field an error message names, for the errors of `newParameter`. -/
def Err.field : Err → Option String
  | .invalidValue name _ => some name
  | .unknownFieldType name => some name
  | .invalidFormat name _ => some name
  | .minNeedsNumeric name => some name
  | .maxNeedsNumeric name => some name
  | .fileNeedsString name => some name
  | .optionsNeedString name => some name
  | .noOptions name => some name
  | .invalidTags name => some name
  | .invalidMin name => some name
  | .invalidMax name => some name
  | _ => none

/-- A leaf field that carries a tag, as the traversal of a struct meets it:
the names of the enclosing nested structs from the outside in, the name of
the field, its tag and its content. -/
structure Leaf where
  groups : List String
  name : String
  tag : String
  value : Value
  deriving DecidableEq, Repr

/-- The prefix that the names of the fields of a nested struct get: the name
of every enclosing struct followed by a dot. -/
def groupPfx : List String → String
  | [] => ""
  | g :: rest => g ++ "." ++ groupPfx rest

/-- The tagged leaf fields that the loop of `readParameters` comes by, in
the order of the traversal: a member on which the test `startsLower` holds is
skipped, a nested struct is descended into, a leaf without tag is passed
over. -/
def Fields.taggedLeaves (P : Platform) : Fields → List Leaf
  | .nil => []
  | .cons name tag c rest =>
    if startsLower P name then rest.taggedLeaves P
    else
      match c with
      | .struct fs =>
        (fs.taggedLeaves P).map (fun l => { l with groups := name :: l.groups })
          ++ rest.taggedLeaves P
      | .leaf v =>
        match tag with
        | some t => ⟨[], name, t, v⟩ :: rest.taggedLeaves P
        | none => rest.taggedLeaves P

/-- The parameter `p` is what `newParameter` builds for the tagged leaf `l`
of a struct whose field names get the prefix `pfx`. -/
def Built (P : Platform) (pfx : String) (p : parameter) (l : Leaf) : Prop :=
  newParameter P (pfx ++ groupPfx l.groups) l.name (some l.tag) l.value = .ok (some p)

/-- The reference platform at the moment the empty command line has been
parsed, so that no flag is set, and the document with no member has been
decoded to the empty map; no environment variable is set. -/
def noSourcePlatform : Platform :=
  { refPlatform with
    flagParse := fun _ _ args =>
      if args = [] then some { actual := [], current := fun _ => .nil } else none
    jsonUnmarshal := fun data => if data = "\x7b\x7d" then some .nil else none }

/-- A struct with one field `Val int` tagged `required;default=5`, holding
zero. -/
def reqDefault : Config :=
  .struct (.cons "Val" (some "required;default=5") (.leaf (.int 0)) .nil)

/-- The tagged leaf fields of the struct behind a `config` pointer; none when
`config` is not a pointer to a struct. -/
def Root.taggedLeaves (P : Platform) : Root → List Leaf
  | .pointer (.struct fs) => fs.taggedLeaves P
  | _ => []

/-- A name that begins with a lower-case letter: its first rune is one. -/
def beginsLower (P : Platform) (name : String) : Bool :=
  match name.data with
  | [] => false
  | c :: _ => P.isLower c

/-- Some direct member of the struct, or of a nested struct that the
traversal descends into, has a name beginning with a lower-case letter (by its
first rune, or by its first byte as `startsLower` tests) and carries a tag. -/
def Fields.hasLowerTagged (P : Platform) : Fields → Bool
  | .nil => false
  | .cons name tag c rest =>
    ((beginsLower P name || startsLower P name) && tag.isSome)
    || (match c with
        | .struct fs => !startsLower P name && fs.hasLowerTagged P
        | .leaf _ => false)
    || rest.hasLowerTagged P

/-- The fields of the struct `cfg` of `TestUnexportedFields`: string fields
`f0` without tag and `f1` tagged `desc=Foo;default=Bar`. -/
def cfgUnexported : Fields :=
  .cons "f0" none (.leaf (.str ""))
    (.cons "f1" (some "desc=Foo;default=Bar") (.leaf (.str "")) .nil)

/-- The fields of a struct with a nested struct: `Name string` tagged
`desc=n`; `HTTP` with `Endpoint string` tagged `desc=e`, `TLS bool` without
tag and `secret string` without tag; `Plain int` without tag; `Port int`
tagged `default=80`. -/
def cfgNested : Fields :=
  .cons "Name" (some "desc=n") (.leaf (.str ""))
    (.cons "HTTP" none
      (.struct
        (.cons "Endpoint" (some "desc=e") (.leaf (.str ""))
          (.cons "TLS" none (.leaf (.bool false))
            (.cons "secret" none (.leaf (.str "")) .nil))))
      (.cons "Plain" none (.leaf (.int 0))
        (.cons "Port" (some "default=80") (.leaf (.int 0)) .nil)))

/-- The fields of the struct `pc4` of `TestMinMaxParameter`: one field
`ValOne uint` tagged `desc=description;min=1`, holding zero. -/
def pc4 : Fields :=
  .cons "ValOne" (some "desc=description;min=1") (.leaf (.uint 0)) .nil

/-- The visible leaf fields that carry a tag, in depth-first declaration
order, in the words of the specification: a member whose name begins with a
lower-case letter is not visible and is skipped, a visible nested struct is
descended into, a leaf without tag is not a parameter. -/
def Fields.visibleLeaves (P : Platform) : Fields → List Leaf
  | .nil => []
  | .cons name tag c rest =>
    if beginsLower P name then rest.visibleLeaves P
    else
      match c with
      | .struct fs =>
        (fs.visibleLeaves P).map (fun l => { l with groups := name :: l.groups })
          ++ rest.visibleLeaves P
      | .leaf v =>
        match tag with
        | some t => ⟨[], name, t, v⟩ :: rest.visibleLeaves P
        | none => rest.visibleLeaves P

/-- Some direct member of the struct, or of a visible nested struct, has a
name beginning with a lower-case letter and carries a tag, in the words of
the specification. -/
def Fields.lowerTaggedVisible (P : Platform) : Fields → Bool
  | .nil => false
  | .cons name tag c rest =>
    (beginsLower P name && tag.isSome)
    || (match c with
        | .struct fs => !beginsLower P name && fs.lowerTaggedVisible P
        | .leaf _ => false)
    || rest.lowerTaggedVisible P

/-- On every field name of the struct, nested structs included, the test of
the source on the first byte gives what the first rune gives. -/
def Fields.byteTestAgrees (P : Platform) : Fields → Bool
  | .nil => true
  | .cons name _ c rest =>
    (startsLower P name == beginsLower P name)
    && (match c with
        | .struct fs => fs.byteTestAgrees P
        | .leaf _ => true)
    && rest.byteTestAgrees P

/-- The platform `noSourcePlatform` whose table `unicode.IsUpper` also
knows the upper-case letter U+1EA4 (LATIN CAPITAL LETTER A WITH CIRCUMFLEX
AND ACUTE), which UTF-8 encodes with the first byte 0xE1. -/
def upperExtPlatform : Platform :=
  { noSourcePlatform with isUpper := fun c => refIsUpper c || c.toNat == 7844 }

/-- The fields of a struct with one nested struct named by the upper-case
letter U+1EA4, which holds the field `Name string` tagged `desc=n`. -/
def cfgExported : Fields :=
  .cons "Ấ" none (.struct (.cons "Name" (some "desc=n") (.leaf (.str "")) .nil)) .nil

/-- The fields of a struct with one nested struct named by the upper-case
letter U+1EA4, which holds the field `name string` tagged `desc=n`. -/
def cfgExportedLower : Fields :=
  .cons "Ấ" none (.struct (.cons "name" (some "desc=n") (.leaf (.str "")) .nil)) .nil

/-- A case transition at three consecutive characters: (upper, upper, lower),
(lower, upper, lower) or (lower, upper, upper). -/
def caseTransition (P : Platform) (a b c : Char) : Bool :=
  (P.isUpper a && P.isUpper b && P.isLower c) ||
  (P.isLower a && P.isUpper b && P.isLower c) ||
  (P.isLower a && P.isUpper b && P.isUpper c)

/-- The characters of a string with one `-` inserted immediately before every
character that has a predecessor `a` and a successor `c` in the string and is
the middle `b` of a case transition `(a, b, c)`; `prev` is the character
before the list, if there is one.  The triplets are read from the characters
of the string, not from the inserted hyphens. -/
def insertHyphens (P : Platform) : Option Char → List Char → List Char
  | _, [] => []
  | prev, b :: rest =>
    (match prev, rest.head? with
      | some a, some c => if caseTransition P a b c then ['-', b] else [b]
      | _, _ => [b])
    ++ insertHyphens P (some b) rest

/-- The flag name of a name, in the words of the specification: every `.`
replaced by `-`, a `-` inserted before the middle character of every case
transition, and the whole in lower case. -/
def hyphenRef (P : Platform) (name : String) : String :=
  strToLower P ⟨insertHyphens P none (replaceChar '.' '-' name).data⟩

/-- A name all of whose characters are ASCII characters. -/
def asciiName (name : String) : Bool :=
  name.data.all (fun c => decide (c.toNat < 128))

/-- The characters that the reference definition of the flag name gives for
position `j` of the characters `s`: the character at `j`, after a `-` when
`1 ≤ j`, `j + 1 < length` and the characters at `j - 1`, `j`, `j + 1` are a
case transition. -/
def hyphenAt (P : Platform) (s : List Char) (j : Nat) : List Char :=
  if 1 ≤ j ∧ j + 1 < s.length ∧
      caseTransition P (s.getD (j - 1) 'X') (s.getD j 'X') (s.getD (j + 1) 'X') = true
  then ['-', s.getD j 'X'] else [s.getD j 'X']

/-- The fields of a struct with one field `SeñorName string` tagged
`desc=n`. -/
def cfgSenor : Fields :=
  .cons "SeñorName" (some "desc=n") (.leaf (.str "")) .nil

/-- The fields of a struct with the nested struct `HTTP` holding
`Endpoint string` tagged `desc=e`, and the field `HTTPEndpoint string` tagged
`desc=f`. -/
def cfgCollide : Fields :=
  .cons "HTTP" none (.struct (.cons "Endpoint" (some "desc=e") (.leaf (.str "")) .nil))
    (.cons "HTTPEndpoint" (some "desc=f") (.leaf (.str "")) .nil)

/-- The fields of a struct with one field `Val string` tagged
`desc=foo;options=a,B,C,d` (`pc1` of `TestOptions`). -/
def cfgOptions : Fields :=
  .cons "Val" (some "desc=foo;options=a,B,C,d") (.leaf (.str "")) .nil

/-- One call that assigns to a parameter: `SetValue` with a value or
`SetValueAsString` with a text. -/
inductive Assignment where
  | typed (v : Value)
  | textual (s : String)

/-- The parameter after one assigning call, whether it succeeds or fails. -/
def parameter.afterCall (P : Platform) (p : parameter) : Assignment → parameter
  | .typed v => (p.SetValue v).1
  | .textual s => (p.SetValueAsString P s).1

/-- The parameter after a sequence of assigning calls. -/
def parameter.afterCalls (P : Platform) (p : parameter) (ops : List Assignment) : parameter :=
  ops.foldl (parameter.afterCall P) p

/-- The fields of a struct with one field `Val int` tagged `desc=foo`. -/
def cfgIntVal : Fields :=
  .cons "Val" (some "desc=foo") (.leaf (.int 0)) .nil

/-- The fields of a struct with one field `Wait time.Duration` tagged
`desc=foo`. -/
def cfgDurationVal : Fields :=
  .cons "Wait" (some "desc=foo") (.leaf (.duration 0)) .nil

/-- The non-object leaves of a nested map in listing order, each with the
keys on the path to it; a nested object has no entry of its own. -/
def JsonMap.leafPaths : JsonMap → List (List String × Value)
  | .nil => []
  | .cons k (.obj m) rest => (m.leafPaths.map fun e => (k :: e.1, e.2)) ++ rest.leafPaths
  | .cons k (.val v) rest => ([k], v) :: rest.leafPaths

/-- The key of a leaf in the flattened map, in the words of the
specification: the lower-cased keys on the path to the leaf joined with
dots. -/
def flatKey (P : Platform) (path : List String) : String :=
  dotted (path.map (strToLower P))

/-- The entries of the flattened map, in the words of the specification: one
entry per non-object leaf, under its flat key, with the value of the leaf. -/
def JsonMap.flatEntries (P : Platform) (m : JsonMap) : List (String × Value) :=
  m.leafPaths.map fun e => (flatKey P e.1, e.2)

/-- The entries that `flattenMap` writes for a map below the key text `pfx`,
in the order it writes them. -/
def JsonMap.entriesFrom (P : Platform) (pfx : String) : JsonMap → List (String × Value)
  | .nil => []
  | .cons k (.obj m) rest =>
    m.entriesFrom P (pfx ++ strToLower P k ++ ".") ++ rest.entriesFrom P pfx
  | .cons k (.val v) rest => (pfx ++ strToLower P k, v) :: rest.entriesFrom P pfx

/-- The same nested map with its entries listed in another order, at the top
or inside nested objects: the orders in which `range` can visit it. -/
inductive JsonMap.Reordered : JsonMap → JsonMap → Prop where
  | refl (m : JsonMap) : JsonMap.Reordered m m
  | swap (k1 : String) (v1 : Json) (k2 : String) (v2 : Json) (rest : JsonMap) :
    JsonMap.Reordered (.cons k1 v1 (.cons k2 v2 rest)) (.cons k2 v2 (.cons k1 v1 rest))
  | tail (k : String) (v : Json) {r r1 : JsonMap} :
    JsonMap.Reordered r r1 → JsonMap.Reordered (.cons k v r) (.cons k v r1)
  | inside (k : String) {m m1 : JsonMap} (rest : JsonMap) :
    JsonMap.Reordered m m1 → JsonMap.Reordered (.cons k (.obj m) rest) (.cons k (.obj m1) rest)
  | trans {a b c : JsonMap} :
    JsonMap.Reordered a b → JsonMap.Reordered b c → JsonMap.Reordered a c

/-- The nested map of a document with the members `http` (an object with
`endpoint`), `deviceIO` (an object with `endpoint`) and `myBool`, after
`TestDebugging`. -/
def mapNested : JsonMap :=
  .cons "http" (.obj (.cons "endpoint" (.val (.str ":1234")) .nil))
    (.cons "deviceIO" (.obj (.cons "endpoint" (.val (.str "localhost:4711")) .nil))
      (.cons "myBool" (.val (.bool true)) .nil))

/-- The nested map `mapNested` listed in another order. -/
def mapNestedSwapped : JsonMap :=
  .cons "deviceIO" (.obj (.cons "endpoint" (.val (.str "localhost:4711")) .nil))
    (.cons "http" (.obj (.cons "endpoint" (.val (.str ":1234")) .nil))
      (.cons "myBool" (.val (.bool true)) .nil))

/-- A struct with the string fields `ABc` and `Abc`, both tagged with a
description and empty: the names are equal under `strings.EqualFold`, the
flag names `a-bc` and `abc` differ. -/
def cfgFold : Config :=
  .struct (.cons "ABc" (some "desc=first") (.leaf (.str ""))
    (.cons "Abc" (some "desc=second") (.leaf (.str "")) .nil))

/-- The reference platform at the moment the command line `--abc=x` has been
parsed for the flags `a-bc` and `abc`: the flag `abc` is set and its variable
holds "x", the variable of the other flag holds the empty default. -/
def foldFlagPlatform : Platform :=
  { refPlatform with
    flagParse := fun _ _ args =>
      if args = ["--abc=x"] then
        some { actual := ["abc"], current := fun n => if n = "abc" then .str "x" else .str "" }
      else none }

/-- A struct with one field `Val int` tagged
`required;default=150;min=100;max=200`, holding zero. -/
def cfgReqRange : Config :=
  .struct (.cons "Val" (some "required;default=150;min=100;max=200") (.leaf (.int 0)) .nil)

/-- A struct with one field `Val string` tagged `options=a,b;file`, empty. -/
def cfgOptionsFile : Config :=
  .struct (.cons "Val" (some "options=a,b;file") (.leaf (.str "")) .nil)

/-- A value as it is written in a JSON document: a JSON string, a JSON
boolean, a JSON number given by the `float64` it denotes, or a JSON integer
literal. -/
inductive JsonInput where
  | str (s : String)
  | bool (b : Bool)
  | number (f : F64)
  | integer (n : Int)
  deriving DecidableEq

/-- What `json.Unmarshal` stores in an `interface{}` for a JSON value: a
`string`, a `bool`, and for every number, an integer literal included, a
`float64`, the one nearest to the literal. -/
def JsonInput.decode : JsonInput → Value
  | .str s => .str s
  | .bool b => .bool b
  | .number f => .float f
  | .integer n => .float (F64.ofInt n)

/-- The field content the specification expects after a JSON input that is
correctly typed for the kind: the JSON string for a string, the JSON boolean
for a bool, the JSON number for a float, the JSON integer for an int or uint
when it lies within the range of the type, the parsed span of a duration
string; `none` when the input is not correctly typed for the kind. -/
def JsonInput.expected (P : Platform) (kind : internalType) (input : JsonInput) : Option Value :=
  match kind, input with
  | .stringType, .str s => some (.str s)
  | .boolType, .bool b => some (.bool b)
  | .floatType, .number f => some (.float f)
  | .floatType, .integer n => some (.float (F64.ofInt n))
  | .intType, .integer n => if - 2 ^ 63 ≤ n ∧ n < 2 ^ 63 then some (.int n) else none
  | .uintType, .integer n => if 0 ≤ n ∧ n < 2 ^ 64 then some (.uint n.toNat) else none
  | .durationType, .str s => (P.parseDuration s).map Value.duration
  | _, _ => none

/-- A document that gives `val` the JSON integer `2^53 + 1`. -/
def bigIntText : String := "\x7b\"val\": 9007199254740993\x7d"

/-- The reference platform on which the document `bigIntText` decodes to the
map with the one entry `val`, the decoded integer literal. -/
def bigIntPlatform : Platform :=
  docPlatform bigIntText (.cons "val" (.val (JsonInput.decode (.integer 9007199254740993))) .nil)

/-- A document that gives `val` the JSON integer `2^63 - 1`, the largest
int. -/
def maxIntText : String := "\x7b\"val\": 9223372036854775807\x7d"

/-- The reference platform on which the document `maxIntText` decodes to the
map with the one entry `val`, the decoded integer literal. -/
def maxIntPlatform : Platform :=
  docPlatform maxIntText (.cons "val" (.val (JsonInput.decode (.integer 9223372036854775807))) .nil)

/-! ## Theorems -/

/-- C1: on the reference tables `hyphenName` reproduces the documented table
of thirteen names exactly. -/
theorem hyphenName_table :
    (parameter.hyphenName refPlatform { name := "Na" } = .ok "na") ∧
    (parameter.hyphenName refPlatform { name := "NaNa" } = .ok "na-na") ∧
    (parameter.hyphenName refPlatform { name := "NaNaNa" } = .ok "na-na-na") ∧
    (parameter.hyphenName refPlatform { name := "BATMAN" } = .ok "batman") ∧
    (parameter.hyphenName refPlatform { name := "NanNan" } = .ok "nan-nan") ∧
    (parameter.hyphenName refPlatform { name := "NameName" } = .ok "name-name") ∧
    (parameter.hyphenName refPlatform { name := "A" } = .ok "a") ∧
    (parameter.hyphenName refPlatform { name := "AA" } = .ok "aa") ∧
    (parameter.hyphenName refPlatform { name := "Ab" } = .ok "ab") ∧
    (parameter.hyphenName refPlatform { name := "NameTLA" } = .ok "name-tla") ∧
    (parameter.hyphenName refPlatform { name := "TLAName" } = .ok "tla-name") ∧
    (parameter.hyphenName refPlatform { name := "TLANameTLA" } = .ok "tla-name-tla") ∧
    (parameter.hyphenName refPlatform { name := "NameTLAName" } = .ok "name-tla-name") := by
  refine ⟨?_, ?_, ?_, ?_, ?_, ?_, ?_, ?_, ?_, ?_, ?_, ?_, ?_⟩ <;> decide

/-! ### Outcomes -/

theorem Res.bind_eq_error {α β : Type} {r : Res α} {f : α → Res β} {e : Err}
    (h : r.bind f = .error e) : r = .error e ∨ ∃ a, r = .ok a ∧ f a = .error e := by
  cases r with
  | ok a => exact Or.inr ⟨a, rfl, h⟩
  | error e1 => left; simpa [Res.bind] using h
  | panic w => simp [Res.bind] at h

theorem Res.bind_eq_ok {α β : Type} {r : Res α} {f : α → Res β} {b : β}
    (h : r.bind f = .ok b) : ∃ a, r = .ok a ∧ f a = .ok b := by
  cases r with
  | ok a => exact ⟨a, rfl, h⟩
  | error e1 => simp [Res.bind] at h
  | panic w => simp [Res.bind] at h

/-! ### Validation of one parameter -/

theorem checkMin_error {P : Platform} {p : parameter} {e : Err}
    (h : p.checkMin P = .error e) : e = .belowMinimum p.name := by
  unfold parameter.checkMin at h
  split at h
  · rcases Res.bind_eq_error h with h1 | ⟨f, -, h2⟩
    · unfold parameter.toFloat at h1
      split at h1 <;> first | (split at h1 <;> simp at h1) | simp at h1
    · split at h2 <;> simp at h2
      exact h2.symm
  · simp at h

theorem checkMax_error {P : Platform} {p : parameter} {e : Err}
    (h : p.checkMax P = .error e) : e = .aboveMaximum p.name := by
  unfold parameter.checkMax at h
  split at h
  · rcases Res.bind_eq_error h with h1 | ⟨f, -, h2⟩
    · unfold parameter.toFloat at h1
      split at h1 <;> first | (split at h1 <;> simp at h1) | simp at h1
    · split at h2 <;> simp at h2
      exact h2.symm
  · simp at h

theorem findOption_ne_error {P : Platform} {p : parameter} {e : Err} (opts : List String) :
    p.findOption P opts ≠ .error e := by
  induction opts with
  | nil => simp [parameter.findOption]
  | cons v rest ih =>
    unfold parameter.findOption
    split
    · exact ih
    · split
      · simp
      · exact ih
    · simp

theorem checkOptions_error {P : Platform} {p : parameter} {e : Err}
    (h : p.checkOptions P = .error e) : e = .invalidOption p.value p.name := by
  unfold parameter.checkOptions at h
  split at h
  · rcases Res.bind_eq_error h with h1 | ⟨f, -, h2⟩
    · exact absurd h1 (findOption_ne_error _)
    · split at h2 <;> simp at h2
      exact h2.symm
  · simp at h

theorem checkFile_error {P : Platform} {p : parameter} {e : Err}
    (h : p.checkFile P = .error e) : ∃ s, e = .statFailed s := by
  unfold parameter.checkFile at h
  split at h
  · split at h
    · split at h
      · split at h
        · simp at h
        · exact ⟨_, by simpa using h.symm⟩
      · simp at h
    · simp at h
  · simp at h

theorem validate_eq_checks {P : Platform} {p : parameter} (h : ¬ (p.required = true ∧ p.isSet = false)) :
    p.validate P = p.checks P := by
  unfold parameter.validate
  rw [if_neg]
  simpa using h

theorem checks_ne_missing (P : Platform) (p : parameter) (n : String) :
    p.checks P ≠ .error (.missingRequired n) := by
  intro h
  unfold parameter.checks at h
  rcases Res.bind_eq_error h with h1 | ⟨_, -, h⟩
  · cases checkMin_error h1
  rcases Res.bind_eq_error h with h1 | ⟨_, -, h⟩
  · cases checkMax_error h1
  rcases Res.bind_eq_error h with h1 | ⟨_, -, h⟩
  · cases checkOptions_error h1
  · obtain ⟨s, hs⟩ := checkFile_error h
    cases hs

theorem SetValue_ok {p : parameter} {value : Value} (h : (p.SetValue value).2 = .ok ()) :
    (p.SetValue value).1 = { p with value := value, isSet := true } := by
  unfold parameter.SetValue at h ⊢
  split at h
  · simp at h
  · rw [if_neg (by assumption)]
    split at h
    · simp at h
    · rfl

theorem SetValueAsString_ok_isSet {P : Platform} {p : parameter} {val : String}
    (h : (p.SetValueAsString P val).2 = .ok ()) :
    (p.SetValueAsString P val).1.isSet = true ∧
    (p.SetValueAsString P val).1.required = p.required := by
  unfold parameter.SetValueAsString at h ⊢
  split <;> simp_all <;> split <;> simp_all
  split <;> simp_all

/-- C2: for every parameter name, `envName` is `hyphenName` with every rune
upper-cased and every hyphen then replaced by an underscore; on the reference
tables "Some", "Some.Name" and "a.B.c" give "SOME", "SOME_NAME" and "A_B_C". -/
theorem envName_spec :
    (∀ (P : Platform) (p : parameter),
      p.envName P = (p.hyphenName P).bind fun h =>
        .ok ⟨h.data.map fun c => if P.toUpper c = '-' then '_' else P.toUpper c⟩) ∧
    parameter.envName refPlatform { name := "Some" } = .ok "SOME" ∧
    parameter.envName refPlatform { name := "Some.Name" } = .ok "SOME_NAME" ∧
    parameter.envName refPlatform { name := "a.B.c" } = .ok "A_B_C" := by
  refine ⟨?_, by decide, by decide, by decide⟩
  intro P p
  unfold parameter.envName
  cases h : p.hyphenName P <;> simp [Res.bind, replaceChar, strToUpper]
  rfl

/-- C5: a required parameter that no source has assigned fails validation
with the missing-required error, and after any successful typed or textual
assignment validation does not return that error. -/
theorem required_check (P : Platform) (p : parameter) (hreq : p.required = true) :
    (p.isSet = false → p.validate P = .error (.missingRequired p.name)) ∧
    (∀ value, (p.SetValue value).2 = .ok () →
      ∀ n, (p.SetValue value).1.validate P ≠ .error (.missingRequired n)) ∧
    (∀ val, (p.SetValueAsString P val).2 = .ok () →
      ∀ n, (p.SetValueAsString P val).1.validate P ≠ .error (.missingRequired n)) := by
  refine ⟨?_, ?_, ?_⟩
  · intro hset
    simp [parameter.validate, hreq, hset]
  · intro value hok n
    rw [validate_eq_checks (by rw [SetValue_ok hok]; simp)]
    exact checks_ne_missing _ _ _
  · intro val hok n
    rw [validate_eq_checks (by simp [(SetValueAsString_ok_isSet hok).1])]
    exact checks_ne_missing _ _ _

/-! ### Widening to `float64` -/

theorem F64.ofInt_exact {n : Int} (h : |n| ≤ 2 ^ 53) : F64.ofInt n = .fin (n : Rat) := by
  have h1 := abs_le.mp h
  unfold F64.ofInt
  split
  · rename_i h0
    have : n.toNat ≤ 2 ^ 53 := by omega
    simp only [roundNat53, if_pos this]
    congr 1
    have : ((n.toNat : Int) : Rat) = (n : Rat) := by rw [Int.toNat_of_nonneg h0]
    exact_mod_cast this
  · rename_i h0
    have : (-n).toNat ≤ 2 ^ 53 := by omega
    simp only [roundNat53, if_pos this]
    congr 1
    have h2 : (((-n).toNat : Int)) = -n := Int.toNat_of_nonneg (by omega)
    have : ((-((-n).toNat : Int) : Int) : Rat) = (n : Rat) := by rw [h2]; simp
    exact_mod_cast this

theorem F64.lt_fin_int (a b : Int) : F64.lt (.fin (a : Rat)) (.fin (b : Rat)) = decide (a < b) := by
  simp [F64.lt]

theorem toFloat_int {p : parameter} {v : Int}
    (hkind : (p.paramtype = .intType ∧ p.value = .int v) ∨
      (p.paramtype = .uintType ∧ 0 ≤ v ∧ p.value = .uint v.toNat))
    (hv : |v| ≤ 2 ^ 53) : p.toFloat = .ok (.fin (v : Rat)) := by
  rcases hkind with ⟨h1, h2⟩ | ⟨h1, h0, h2⟩
  · simp [parameter.toFloat, h1, h2, F64.ofInt_exact hv]
  · have : ((v.toNat : Nat) : Int) = v := Int.toNat_of_nonneg h0
    simp [parameter.toFloat, h1, h2, this, F64.ofInt_exact hv]

theorem checkMin_int {P : Platform} {p : parameter} {v : Int} {omin : Option Int}
    (hf : p.toFloat = .ok (.fin (v : Rat))) (hmin : DeclaredBound P p.minvalue omin) :
    p.checkMin P = if ∃ m, omin = some m ∧ v < m then .error (.belowMinimum p.name) else .ok () := by
  unfold parameter.checkMin
  cases omin with
  | none => simp [DeclaredBound] at hmin; simp [hmin]
  | some m =>
    obtain ⟨h1, h2⟩ := hmin
    simp [h1, hf, Res.bind, parseFloatValue, h2, F64.lt_fin_int]

theorem checkMax_int {P : Platform} {p : parameter} {v : Int} {omax : Option Int}
    (hf : p.toFloat = .ok (.fin (v : Rat))) (hmax : DeclaredBound P p.maxvalue omax) :
    p.checkMax P = if ∃ m, omax = some m ∧ m < v then .error (.aboveMaximum p.name) else .ok () := by
  unfold parameter.checkMax
  cases omax with
  | none => simp [DeclaredBound] at hmax; simp [hmax]
  | some m =>
    obtain ⟨h1, h2⟩ := hmax
    simp [h1, hf, Res.bind, parseFloatValue, h2, F64.lt_fin_int]

/-- C6, amended: for an int or uint parameter holding `v`, with optional
declared bounds that parse to the integers `m` and `M` (all within the range
where widening to float64 is exact), `validate` returns the missing-required
error when the parameter is required and no source has set it, whatever `v`
is; otherwise the below-minimum error when `v < m`, otherwise the
above-maximum error when `M < v`, otherwise nothing.  So it reports an error
exactly when the required check fails or `v < m` or `M < v`. -/
theorem range_check (P : Platform) (p : parameter) (v : Int) (omin omax : Option Int)
    (hkind : (p.paramtype = .intType ∧ p.value = .int v) ∨
      (p.paramtype = .uintType ∧ 0 ≤ v ∧ p.value = .uint v.toNat))
    (hv : |v| ≤ 2 ^ 53)
    (hmin : DeclaredBound P p.minvalue omin) (hmax : DeclaredBound P p.maxvalue omax)
    (hopt : p.options = []) (hfile : p.file = false) :
    ((p.validate P).isError = true ↔
      (p.required = true ∧ p.isSet = false) ∨
      (∃ m, omin = some m ∧ v < m) ∨ (∃ M, omax = some M ∧ M < v)) ∧
    p.validate P =
      (if p.required = true ∧ p.isSet = false then .error (.missingRequired p.name)
       else if ∃ m, omin = some m ∧ v < m then .error (.belowMinimum p.name)
       else if ∃ M, omax = some M ∧ M < v then .error (.aboveMaximum p.name)
       else .ok ()) := by
  have hf := toFloat_int hkind hv
  have hval : p.validate P =
      (if p.required = true ∧ p.isSet = false then .error (.missingRequired p.name)
       else if ∃ m, omin = some m ∧ v < m then .error (.belowMinimum p.name)
       else if ∃ M, omax = some M ∧ M < v then .error (.aboveMaximum p.name)
       else .ok ()) := by
    by_cases hreq : p.required = true ∧ p.isSet = false
    · rw [if_pos hreq]
      unfold parameter.validate
      rw [if_pos]
      simpa using hreq
    · rw [if_neg hreq, validate_eq_checks hreq]
      unfold parameter.checks
      rw [checkMin_int hf hmin, checkMax_int hf hmax]
      have h3 : p.checkOptions P = .ok () := by simp [parameter.checkOptions, hopt]
      have h4 : p.checkFile P = .ok () := by simp [parameter.checkFile, hfile]
      rw [h3, h4]
      split
      · rfl
      · split <;> rfl
  refine ⟨?_, hval⟩
  rw [hval]
  split
  · rename_i h0; simp [Res.isError, h0]
  · rename_i h0
    split
    · rename_i h; simp [Res.isError, h]
    · rename_i h
      split
      · rename_i h'; simp [Res.isError, h']
      · rename_i h'; simp [Res.isError, h0, h, h']

/-- C6, amended, at the bounds `min=100;max=200` on the reference platform:
for a parameter that is not required, 99 and 201 are rejected, 100 and 200 are
accepted. -/
theorem range_check_witness :
    (parameter.validate refPlatform
      { paramtype := .intType, value := .int 99, minvalue := "100", maxvalue := "200" }).isError = true ∧
    (parameter.validate refPlatform
      { paramtype := .intType, value := .int 100, minvalue := "100", maxvalue := "200" }).isError ≠ true ∧
    (parameter.validate refPlatform
      { paramtype := .uintType, value := .uint 200, minvalue := "100", maxvalue := "200" }).isError ≠ true ∧
    (parameter.validate refPlatform
      { paramtype := .uintType, value := .uint 201, minvalue := "100", maxvalue := "200" }).isError = true := by
  have hb100 : ∀ p : parameter, p.minvalue = "100" → DeclaredBound refPlatform p.minvalue (some 100) := by
    intro p h
    rw [h]
    exact ⟨by decide, by decide⟩
  have hb200 : ∀ p : parameter, p.maxvalue = "200" → DeclaredBound refPlatform p.maxvalue (some 200) := by
    intro p h
    rw [h]
    exact ⟨by decide, by decide⟩
  refine ⟨?_, ?_, ?_, ?_⟩
  · exact ((range_check refPlatform _ 99 (some 100) (some 200) (Or.inl ⟨rfl, rfl⟩) (by norm_num [abs_le])
      (hb100 _ rfl) (hb200 _ rfl) rfl rfl).1).2 (Or.inr (Or.inl ⟨100, rfl, by decide⟩))
  · intro h
    rcases ((range_check refPlatform _ 100 (some 100) (some 200) (Or.inl ⟨rfl, rfl⟩) (by norm_num [abs_le])
      (hb100 _ rfl) (hb200 _ rfl) rfl rfl).1).1 h with ⟨hr, -⟩ | ⟨m, hm, hlt⟩ | ⟨m, hm, hlt⟩
    · cases hr
    · cases hm; omega
    · cases hm; omega
  · intro h
    rcases ((range_check refPlatform _ 200 (some 100) (some 200) (Or.inr ⟨rfl, by decide, rfl⟩)
      (by norm_num [abs_le])
      (hb100 _ rfl) (hb200 _ rfl) rfl rfl).1).1 h with ⟨hr, -⟩ | ⟨m, hm, hlt⟩ | ⟨m, hm, hlt⟩
    · cases hr
    · cases hm; omega
    · cases hm; omega
  · exact ((range_check refPlatform _ 201 (some 100) (some 200) (Or.inr ⟨rfl, by decide, rfl⟩)
      (by norm_num [abs_le])
      (hb100 _ rfl) (hb200 _ rfl) rfl rfl).1).2 (Or.inr (Or.inr ⟨200, rfl, by decide⟩))

/-- C6, counterexample: the int parameter declared by the tag
`required;default=150;min=100;max=200` holds 150, which lies within its
declared bounds 100 and 200, yet `validate` reports an error, the
missing-required one; `NewFlag` on a command line without flags returns that
error for a struct with such a field, which then holds 150. -/
theorem range_check_counterexample :
    newParameter refPlatform "" "Val" (some "required;default=150;min=100;max=200") (.int 0) =
      .ok (some { name := "Val", paramtype := .intType, required := true, defaultValue := "150",
                  minvalue := "100", maxvalue := "200", value := .int 150 }) ∧
    DeclaredBound refPlatform "100" (some 100) ∧ DeclaredBound refPlatform "200" (some 200) ∧
    (parameter.validate refPlatform
      { name := "Val", paramtype := .intType, required := true, defaultValue := "150",
        minvalue := "100", maxvalue := "200", value := .int 150 }).isError = true ∧
    parameter.validate refPlatform
      { name := "Val", paramtype := .intType, required := true, defaultValue := "150",
        minvalue := "100", maxvalue := "200", value := .int 150 } = .error (.missingRequired "Val") ∧
    ¬ ((150 : Int) < 100 ∨ (200 : Int) < 150) ∧
    (NewFlag noSourcePlatform (.pointer cfgReqRange) []).2 = .error (.missingRequired "Val") ∧
    (NewFlag noSourcePlatform (.pointer cfgReqRange) []).1.get ["Val"] = some (.int 150) :=
  ⟨by decide!, ⟨by decide, by decide⟩, ⟨by decide, by decide⟩, by decide!, by decide!, by decide,
   by decide!, by decide!⟩

/-- Witness of C5: a required string parameter fails before and passes after
an assignment. -/
theorem required_check_witness :
    parameter.validate refPlatform { name := "ParamA", required := true } =
      .error (.missingRequired "ParamA") ∧
    (∀ n, (parameter.SetValue { name := "ParamA", required := true } (.str "yes")).1.validate
      refPlatform ≠ .error (.missingRequired n)) :=
  ⟨(required_check refPlatform { name := "ParamA", required := true } rfl).1 rfl,
   (required_check refPlatform { name := "ParamA", required := true } rfl).2.1 (.str "yes") rfl⟩

theorem findOption_str {P : Platform} {p : parameter} {v : String} (hval : p.value = .str v)
    (opts : List String) :
    p.findOption P opts = .ok (opts.any fun o => equalFold P o v) := by
  induction opts with
  | nil => simp [parameter.findOption]
  | cons o rest ih =>
    unfold parameter.findOption
    rw [hval] at *
    by_cases h : equalFold P o v = true
    · simp [h]
    · simp [h, ih]

theorem checkOptions_str {P : Platform} {p : parameter} {v : String} (hval : p.value = .str v)
    (hopt : p.options ≠ []) :
    p.checkOptions P =
      if (p.options.any fun o => equalFold P o v) then .ok ()
      else .error (.invalidOption (.str v) p.name) := by
  have hlen : 0 < p.options.length := List.length_pos.mpr hopt
  simp only [Res.bind, parameter.checkOptions, if_pos hlen, findOption_str hval, hval]
  cases (p.options.any fun o => equalFold P o v) <;> simp

theorem checkFile_str {P : Platform} {p : parameter} {v : String} (hval : p.value = .str v) :
    p.checkFile P =
      if p.file = true ∧ v ≠ "" ∧ P.fileExists v = false then .error (.statFailed v) else .ok () := by
  unfold parameter.checkFile
  rw [hval]
  by_cases hf : p.file = true
  · by_cases hv : v = ""
    · simp [hf, hv]
    · cases he : P.fileExists v <;> simp [hf, hv, he]
  · simp [hf]

/-- C7, amended: for a string parameter with a declared option list and an
assigned value `v`, the option check of `validate` accepts exactly when some
declared option equals `v` under `strings.EqualFold`.  `validate` as a whole
accepts exactly when, in addition, the required check passes and, if the
parameter carries the `file` flag and `v` is not empty, a file named `v`
exists.  When the required check passes and no option matches, `validate`
returns the invalid-option error. -/
theorem options_check (P : Platform) (p : parameter) (v : String)
    (hval : p.value = .str v) (hopt : p.options ≠ [])
    (hmin : p.minvalue = "") (hmax : p.maxvalue = "") :
    (p.checkOptions P = .ok () ↔ ∃ o ∈ p.options, equalFold P o v = true) ∧
    (p.validate P = .ok () ↔
      ¬ (p.required = true ∧ p.isSet = false) ∧
      (∃ o ∈ p.options, equalFold P o v = true) ∧
      (p.file = true → v ≠ "" → P.fileExists v = true)) ∧
    (¬ (p.required = true ∧ p.isSet = false) →
      (¬ ∃ o ∈ p.options, equalFold P o v = true) →
      p.validate P = .error (.invalidOption (.str v) p.name)) := by
  have h1 : p.checkMin P = .ok () := by simp [parameter.checkMin, hmin]
  have h2 : p.checkMax P = .ok () := by simp [parameter.checkMax, hmax]
  have h3 := checkOptions_str (P := P) hval hopt
  have h4 := checkFile_str (P := P) hval
  have hany : (p.options.any fun o => equalFold P o v) = true ↔
      ∃ o ∈ p.options, equalFold P o v = true := by
    simp [List.any_eq_true]
  refine ⟨?_, ?_, ?_⟩
  · rw [h3, ← hany]
    cases (p.options.any fun o => equalFold P o v) <;> simp
  · by_cases hreq : p.required = true ∧ p.isSet = false
    · have : p.validate P = .error (.missingRequired p.name) := by
        unfold parameter.validate
        rw [if_pos]
        simpa using hreq
      rw [this]
      simp [hreq]
    · rw [validate_eq_checks hreq]
      unfold parameter.checks
      rw [h1, h2, h3, h4, ← hany]
      cases (p.options.any fun o => equalFold P o v)
      · simp [Res.bind]
      · by_cases hf : p.file = true
        · by_cases hv : v = ""
          · simp [Res.bind, hreq, hf, hv]
          · cases he : P.fileExists v <;> simp [Res.bind, hreq, hf, hv, he]
        · simp [Res.bind, hreq, hf]
  · intro hreq hno
    rw [validate_eq_checks hreq]
    unfold parameter.checks
    rw [h1, h2, h3]
    have : (p.options.any fun o => equalFold P o v) = false := by
      cases hb : (p.options.any fun o => equalFold P o v)
      · rfl
      · exact absurd (hany.mp hb) hno
    simp [Res.bind, this]

/-- C7, amended, at the options `a,B,C,d` on the reference platform, for a
parameter that is not required and has no `file` flag: the values "A" and "b"
are accepted and "q" is rejected. -/
theorem options_check_witness :
    parameter.validate refPlatform { value := .str "A", options := ["a", "B", "C", "d"] } = .ok () ∧
    parameter.validate refPlatform { value := .str "b", options := ["a", "B", "C", "d"] } = .ok () ∧
    parameter.validate refPlatform { value := .str "q", options := ["a", "B", "C", "d"] } =
      .error (.invalidOption (.str "q") "") :=
  ⟨((options_check refPlatform { value := .str "A", options := ["a", "B", "C", "d"] } "A" rfl
      (by simp) rfl rfl).2.1).2 ⟨by simp, ⟨"a", by simp, by decide⟩, by simp⟩,
   ((options_check refPlatform { value := .str "b", options := ["a", "B", "C", "d"] } "b" rfl
      (by simp) rfl rfl).2.1).2 ⟨by simp, ⟨"B", by simp, by decide⟩, by simp⟩,
   (options_check refPlatform { value := .str "q", options := ["a", "B", "C", "d"] } "q" rfl
      (by simp) rfl rfl).2.2 (by simp) (by decide)⟩

/-- C7, counterexample: the string parameter declared by the tag
`options=a,b;file` and assigned the value "a" is rejected by `validate` with
the error of `os.Stat`, although the declared option `a` equals its value;
`NewFile` returns that error for a document that gives the field the value
"a". -/
theorem options_check_counterexample :
    newParameter refPlatform "" "Val" (some "options=a,b;file") (.str "") =
      .ok (some { name := "Val", options := ["a", "b"], file := true }) ∧
    parameter.SetValue { name := "Val", options := ["a", "b"], file := true } (.str "a") =
      ({ name := "Val", options := ["a", "b"], file := true, value := .str "a", isSet := true },
       .ok ()) ∧
    (∃ o ∈ ["a", "b"], equalFold refPlatform o "a" = true) ∧
    parameter.validate refPlatform
      { name := "Val", options := ["a", "b"], file := true, value := .str "a", isSet := true } =
      .error (.statFailed "a") ∧
    (NewFile (docPlatform "\x7b\"val\": \"a\"\x7d" (.cons "val" (.val (.str "a")) .nil))
      (.pointer cfgOptionsFile) (.bytes "\x7b\"val\": \"a\"\x7d")).2 = .error (.statFailed "a") :=
  ⟨by decide!, by decide!, ⟨"a", by simp, by decide!⟩, by decide!, by decide!⟩

/-- C10: typed assignment on a parameter of one of the six kinds.  A value
whose kind differs from the kind of the parameter is refused with the
type-mismatch error carrying the name and the value, and the parameter is
left as it was; a value of the right kind is stored as it is and `isSet`
becomes true, nothing else changes. -/
theorem SetValue_spec (p : parameter) (value : Value) (hkind : p.paramtype ≠ .invalidType) :
    (toInternalType value ≠ p.paramtype →
      p.SetValue value = (p, .error (.cantSet p.name value))) ∧
    (toInternalType value = p.paramtype →
      p.SetValue value = ({ p with value := value, isSet := true }, .ok ())) := by
  constructor
  · intro h
    simp [parameter.SetValue, h]
  · intro h
    unfold parameter.SetValue
    rw [if_neg (by simpa using h)]
    split
    · contradiction
    · rfl

/-- Witness of C10: a string parameter refuses the number 1 and stores the
string ":1234". -/
theorem SetValue_spec_witness :
    parameter.SetValue { name := "HTTP.Endpoint" } (.float (.fin 1)) =
      ({ name := "HTTP.Endpoint" }, .error (.cantSet "HTTP.Endpoint" (.float (.fin 1)))) ∧
    parameter.SetValue { name := "HTTP.Endpoint" } (.str ":1234") =
      ({ name := "HTTP.Endpoint", value := .str ":1234", isSet := true }, .ok ()) :=
  ⟨(SetValue_spec { name := "HTTP.Endpoint" } (.float (.fin 1)) (by decide)).1 (by decide),
   (SetValue_spec { name := "HTTP.Endpoint" } (.str ":1234") (by decide)).2 (by decide)⟩

/-! ### Errors raised before validation are not validation errors -/

theorem Res.NoValidation.bind {α β : Type} {r : Res α} {f : α → Res β}
    (h1 : r.NoValidation) (h2 : ∀ a, (f a).NoValidation) : (r.bind f).NoValidation := by
  intro e he
  rcases Res.bind_eq_error he with h | ⟨a, -, h⟩
  · exact h1 e h
  · exact h2 a e h

theorem Res.noValidation_ok {α : Type} (a : α) : (Res.ok a).NoValidation := by
  intro e he; cases he

theorem Res.noValidation_panic {α : Type} (w : String) : (Res.panic w : Res α).NoValidation := by
  intro e he; cases he

theorem Res.noValidation_error {α : Type} {e : Err} (h : e.isValidation = false) :
    (Res.error e : Res α).NoValidation := by
  intro e1 he; cases he; exact h

theorem SetValueAsString_noValidation (P : Platform) (p : parameter) (val : String) :
    (p.SetValueAsString P val).2.NoValidation := by
  intro e he
  unfold parameter.SetValueAsString at he
  split at he
  · cases he
  · split at he
    · split at he
      · cases he; rfl
      · cases he
    · cases he; rfl
  all_goals first
    | (split at he <;> cases he <;> rfl)
    | (cases he; rfl)

theorem SetValue_noValidation (p : parameter) (value : Value) :
    (p.SetValue value).2.NoValidation := by
  intro e he
  unfold parameter.SetValue at he
  split at he
  · cases he; rfl
  · split at he
    · cases he; rfl
    · cases he

theorem index_noValidation (tv : List String) (i : Nat) : (index tv i).NoValidation := by
  intro e he
  unfold index at he
  split at he <;> cases he

theorem newParameterKey_noValidation (ret : parameter) (tv : List String) (key : String) :
    (newParameterKey ret tv key).NoValidation := by
  unfold newParameterKey
  split
  · exact Res.NoValidation.bind (index_noValidation _ _) (fun x => Res.noValidation_ok _)
  split
  · exact Res.NoValidation.bind (index_noValidation _ _) (fun x => Res.noValidation_ok _)
  split
  · refine Res.NoValidation.bind (index_noValidation _ _) (fun x => ?_)
    split
    · exact Res.noValidation_error rfl
    · exact Res.noValidation_ok _
  split
  · refine Res.NoValidation.bind (index_noValidation _ _) (fun x => ?_)
    split
    · exact Res.noValidation_error rfl
    · exact Res.noValidation_ok _
  split
  · split
    · exact Res.noValidation_error rfl
    · exact Res.noValidation_ok _
  split
  · exact Res.noValidation_ok _
  split
  · split
    · exact Res.noValidation_error rfl
    · refine Res.NoValidation.bind (index_noValidation _ _) (fun x => ?_)
      split
      · exact Res.noValidation_error rfl
      · exact Res.noValidation_ok _
  · exact Res.noValidation_error rfl

theorem newParameterAttr_noValidation (P : Platform) (ret : parameter) (v : String) :
    (newParameterAttr P ret v).NoValidation := by
  unfold newParameterAttr
  split
  · exact Res.noValidation_error rfl
  split
  · exact Res.noValidation_ok _
  · exact newParameterKey_noValidation _ _ _

theorem newParameterLoop_noValidation (P : Platform) (ret : parameter) (attribs : List String) :
    (newParameterLoop P ret attribs).NoValidation := by
  induction attribs generalizing ret with
  | nil => exact Res.noValidation_ok _
  | cons v rest ih =>
    exact Res.NoValidation.bind (newParameterAttr_noValidation P ret v) (fun r => ih r)

theorem newParameterFinish_noValidation (P : Platform) (ret : parameter) :
    (newParameterFinish P ret).NoValidation := by
  unfold newParameterFinish
  split
  · exact Res.noValidation_error rfl
  split
  · exact Res.noValidation_error rfl
  split
  · have h := SetValueAsString_noValidation P ret ret.defaultValue
    split
    · exact Res.noValidation_ok _
    · rename_i heq
      rw [heq] at h
      intro e he
      cases he
      exact h _ rfl
    · exact Res.noValidation_panic _
  · exact Res.noValidation_ok _

theorem newParameter_noValidation (P : Platform) (pfx fieldName : String) (tag : Option String)
    (value : Value) : (newParameter P pfx fieldName tag value).NoValidation := by
  unfold newParameter
  split
  · exact Res.noValidation_ok _
  · simp only
    split
    · exact Res.noValidation_error rfl
    · exact Res.NoValidation.bind (newParameterLoop_noValidation _ _ _)
        (fun r => newParameterFinish_noValidation P r)

theorem Fields.readParameters_noValidation (P : Platform) (fs : Fields) (pfx : String)
    (params : List parameter) : (fs.readParameters P pfx params).NoValidation := by
  match fs with
  | .nil =>
    unfold Fields.readParameters
    exact Res.noValidation_ok _
  | .cons name tag c rest =>
    unfold Fields.readParameters
    split
    · split
      · exact Res.noValidation_error rfl
      · exact Fields.readParameters_noValidation P rest pfx params
    · split
      · exact Res.noValidation_error rfl
      · match c with
        | .struct fs1 =>
          exact Res.NoValidation.bind (Fields.readParameters_noValidation P fs1 _ _)
            (fun ps => Fields.readParameters_noValidation P rest pfx ps)
        | .leaf v =>
          refine Res.NoValidation.bind (newParameter_noValidation P pfx name tag v) (fun param => ?_)
          cases param with
          | none => exact Fields.readParameters_noValidation P rest pfx params
          | some p => exact Fields.readParameters_noValidation P rest pfx _

theorem newConfigParameters_noValidation (P : Platform) (config : Root) :
    (newConfigParameters P config).NoValidation := by
  unfold newConfigParameters
  split
  · exact Res.noValidation_error rfl
  · exact Res.noValidation_error rfl
  · rename_i c
    refine Res.NoValidation.bind ?_ (fun ps => Res.noValidation_ok _)
    cases c with
    | leaf v => unfold Config.readParameters; exact Res.noValidation_error rfl
    | struct fs => unfold Config.readParameters; exact Fields.readParameters_noValidation P fs _ _

theorem fileValue_noValidation (P : Platform) (para : parameter) (v : Value) :
    (fileValue P para v).2.NoValidation := by
  unfold fileValue
  split
  · split
    · exact SetValue_noValidation _ _
    · exact Res.noValidation_panic _
  split
  · split
    · exact SetValue_noValidation _ _
    · exact Res.noValidation_panic _
  split
  · split
    · split
      · exact Res.noValidation_error rfl
      · exact Res.noValidation_ok _
    · exact Res.noValidation_error rfl
  · exact SetValue_noValidation _ _

theorem fileLoop_noValidation (P : Platform) (params : List parameter)
    (entries : List (String × Value)) : (fileLoop P params entries).2.NoValidation := by
  induction entries generalizing params with
  | nil => exact Res.noValidation_ok _
  | cons kv rest ih =>
    obtain ⟨k, v⟩ := kv
    unfold fileLoop
    split
    · exact ih _
    · split
      · exact ih _
      · rename_i para hp
        have h := fileValue_noValidation P para v
        split
        · exact ih _
        · rename_i heq
          rw [heq] at h
          exact h
        · exact Res.noValidation_panic _

theorem assignValue_noValidation (P : Platform) (config : Config) (v : parameter) :
    (assignValue P config v).2.NoValidation := by
  unfold assignValue
  simp only
  split
  · exact Res.noValidation_panic _
  · split
    · exact Res.noValidation_error rfl
    split
    · exact Res.noValidation_ok _
    split
    · exact Res.noValidation_ok _
    split
    · exact Res.noValidation_panic _
    · exact Res.noValidation_ok _

theorem assignAll_noValidation (P : Platform) (config : Config) (ps : List parameter) :
    (assignAll P config ps).2.NoValidation := by
  induction ps generalizing config with
  | nil => exact Res.noValidation_ok _
  | cons v rest ih =>
    unfold assignAll
    have h := assignValue_noValidation P config v
    split
    · exact ih _
    · rename_i heq
      rw [heq] at h
      exact h
    · exact Res.noValidation_panic _

theorem hyphenStep_noValidation (P : Platform) (st : HyphenState) (i : Nat) (ch : Char) :
    (hyphenStep P st i ch).NoValidation := by
  unfold hyphenStep
  simp only
  split
  · exact Res.noValidation_ok _
  split
  · split
    · exact Res.noValidation_ok _
    · exact Res.noValidation_panic _
  · exact Res.noValidation_ok _

theorem hyphenLoop_noValidation (P : Platform) (st : HyphenState) (i : Nat) (cs : List Char) :
    (hyphenLoop P st i cs).NoValidation := by
  induction cs generalizing st i with
  | nil => exact Res.noValidation_ok _
  | cons ch rest ih =>
    unfold hyphenLoop
    have h := hyphenStep_noValidation P st i ch
    split
    · exact ih _ _
    · rename_i heq
      rw [heq] at h
      exact h
    · exact Res.noValidation_panic _

theorem hyphenName_noValidation (P : Platform) (p : parameter) : (p.hyphenName P).NoValidation := by
  unfold parameter.hyphenName
  have h := hyphenLoop_noValidation P
    { ret := [], prevChar := 'X', prevPrevChar := 'X', changes := 0 } 0
    (replaceChar '.' '-' p.name).data
  split
  · exact Res.noValidation_ok _
  · rename_i heq
    rw [heq] at h
    intro e he
    cases he
    exact h _ rfl
  · exact Res.noValidation_panic _

theorem envName_noValidation (P : Platform) (p : parameter) : (p.envName P).NoValidation := by
  unfold parameter.envName
  have h := hyphenName_noValidation P p
  split
  · exact Res.noValidation_ok _
  · rename_i heq
    rw [heq] at h
    exact h
  · exact Res.noValidation_panic _

theorem makeFlag_noValidation (P : Platform) (regs : List FlagReg) (p : parameter) :
    (makeFlag P regs p).NoValidation := by
  unfold makeFlag
  refine Res.NoValidation.bind (hyphenName_noValidation P p) (fun flagName => ?_)
  simp only
  split
  · exact Res.noValidation_error rfl
  · refine Res.NoValidation.bind ?_ (fun _ => Res.noValidation_ok _)
    unfold register
    split
    · exact Res.noValidation_panic _
    · exact Res.noValidation_ok _

theorem makeFlags_noValidation (P : Platform) (regs : List FlagReg) (ps : List parameter) :
    (makeFlags P regs ps).NoValidation := by
  induction ps generalizing regs with
  | nil => exact Res.noValidation_ok _
  | cons p rest ih =>
    unfold makeFlags
    refine Res.NoValidation.bind (makeFlag_noValidation P regs p) (fun x => ?_)
    exact Res.NoValidation.bind (ih _) (fun _ => Res.noValidation_ok _)

theorem envLoop_noValidation (P : Platform) (ps : List parameter) :
    (envLoop P ps).NoValidation := by
  induction ps with
  | nil => exact Res.noValidation_ok _
  | cons p rest ih =>
    unfold envLoop
    refine Res.NoValidation.bind (envName_noValidation P p) (fun key => ?_)
    split
    · rename_i val _
      have h := SetValueAsString_noValidation P p val
      split
      · exact Res.NoValidation.bind ih (fun _ => Res.noValidation_ok _)
      · rename_i heq
        rw [heq] at h
        intro e he
        cases he
        exact h _ rfl
      · exact Res.noValidation_panic _
    · exact Res.NoValidation.bind ih (fun _ => Res.noValidation_ok _)

theorem flagValue_noValidation (d : flagDef) (fs : FlagSet) : (d.flagValue fs).NoValidation := by
  unfold flagDef.flagValue
  split
  · exact Res.noValidation_panic _
  split
  · exact Res.noValidation_ok _
  · exact Res.noValidation_panic _

theorem flagLoop_noValidation (P : Platform) (fs : FlagSet) (params : List parameter)
    (ds : List flagDef) : (flagLoop P fs params ds).NoValidation := by
  induction ds generalizing params with
  | nil => exact Res.noValidation_ok _
  | cons d rest ih =>
    unfold flagLoop
    split
    · exact ih _
    · split
      · exact ih _
      · rename_i p _
        refine Res.NoValidation.bind (flagValue_noValidation d fs) (fun v => ?_)
        have h := SetValue_noValidation p v
        split
        · exact ih _
        · rename_i heq
          rw [heq] at h
          intro e he
          cases he
          exact h _ rfl
        · exact Res.noValidation_panic _

theorem resolveFlags_noValidation (P : Platform) (params : List parameter) (args : List String)
    (opt : ErrorHandling) (envOverride : Bool) :
    (resolveFlags P params args opt envOverride).NoValidation := by
  unfold resolveFlags
  refine Res.NoValidation.bind (makeFlags_noValidation P [] params) (fun x => ?_)
  obtain ⟨regs, flagVars⟩ := x
  simp only
  split
  · exact Res.noValidation_error rfl
  · refine Res.NoValidation.bind ?_ (fun ps => flagLoop_noValidation P _ _ _)
    split
    · exact envLoop_noValidation P params
    · exact Res.noValidation_ok _

/-- C4, counterexample: for the struct `pc2` (one field `Val uint` with
`min=100;max=200`, holding 0) the flag loader on `--val=99` and the file
loader on the document with "val": 99 both return the below-minimum
validation error, and both have already written 99 into the field. -/
theorem no_partial_commit_counterexample :
    (NewFlag val99Platform (.pointer pc2) ["--val=99"]).2 = .error (.belowMinimum "Val") ∧
    (NewFile val99Platform (.pointer pc2) (.bytes "\x7b\"val\": 99\x7d")).2 =
      .error (.belowMinimum "Val") ∧
    Err.isValidation (.belowMinimum "Val") = true ∧
    (Root.pointer pc2).get ["Val"] = some (.uint 0) ∧
    (NewFlag val99Platform (.pointer pc2) ["--val=99"]).1.get ["Val"] = some (.uint 99) ∧
    (NewFile val99Platform (.pointer pc2) (.bytes "\x7b\"val\": 99\x7d")).1.get ["Val"] =
      some (.uint 99) ∧
    (NewFlag val99Platform (.pointer pc2) ["--val=99"]).1 ≠ .pointer pc2 ∧
    (NewFile val99Platform (.pointer pc2) (.bytes "\x7b\"val\": 99\x7d")).1 ≠ .pointer pc2 := by
  have h1 : (NewFlag val99Platform (.pointer pc2) ["--val=99"]).1.get ["Val"] = some (.uint 99) := by
    decide!
  have h2 : (NewFile val99Platform (.pointer pc2) (.bytes "\x7b\"val\": 99\x7d")).1.get ["Val"] =
      some (.uint 99) := by decide!
  have h0 : (Root.pointer pc2).get ["Val"] = some (.uint 0) := by decide
  refine ⟨by decide!, by decide!, rfl, h0, h1, h2, ?_, ?_⟩
  · intro h
    rw [h, h0] at h1
    cases h1
  · intro h
    rw [h, h0] at h2
    cases h2

/-- C4, amended: when the file loader or the flag loader returns a validation
error, the parameters were built and resolved without error, `AssignValues`
has already run on the resolved list, the struct behind the pointer is the
one `AssignValues` left, and the error is the one `Validate` returned. -/
theorem validation_error_after_assignment (P : Platform) (c : Config) :
    (∀ reader root1 e, NewFile P (.pointer c) reader = (root1, .error e) → e.isValidation = true →
      ∃ params ps data jsonMap,
        newConfigParameters P (.pointer c) = .ok params ∧
        reader = .bytes data ∧ P.jsonUnmarshal data = some jsonMap ∧
        fileLoop P params.params (P.rangeOrder (jsonMap.flattenMap P "" [])) = (ps, .ok ()) ∧
        (configParameters.AssignValues P { params := ps } c).2 = .ok () ∧
        root1 = .pointer (configParameters.AssignValues P { params := ps } c).1 ∧
        configParameters.Validate P { params := ps } = .error e) ∧
    (∀ args opt envOverride root1 e,
      newFlagWithErrorHandling P (.pointer c) args opt envOverride = (root1, .error e) →
      e.isValidation = true →
      ∃ params ps,
        newConfigParameters P (.pointer c) = .ok params ∧
        resolveFlags P params.params args opt envOverride = .ok ps ∧
        root1 = .pointer (configParameters.AssignValues P { params := ps } c).1 ∧
        configParameters.Validate P { params := ps } = .error e) := by
  constructor
  · intro reader root1 e h hval
    unfold NewFile at h
    cases hp : newConfigParameters P (.pointer c) with
    | error e1 =>
      rw [hp] at h
      simp only [Prod.mk.injEq, Res.error.injEq] at h
      have := newConfigParameters_noValidation P (.pointer c) e1 hp
      rw [h.2] at this
      rw [this] at hval
      cases hval
    | panic w =>
      rw [hp] at h
      simp at h
    | ok params =>
      rw [hp] at h
      simp only at h
      cases reader with
      | nil => simp only [Prod.mk.injEq, Res.error.injEq] at h; rw [← h.2] at hval; cases hval
      | failing => simp only [Prod.mk.injEq, Res.error.injEq] at h; rw [← h.2] at hval; cases hval
      | bytes data =>
        simp only at h
        cases hj : P.jsonUnmarshal data with
        | none =>
          rw [hj] at h
          simp only [Prod.mk.injEq, Res.error.injEq] at h
          rw [← h.2] at hval
          cases hval
        | some jsonMap =>
          rw [hj] at h
          simp only [Prod.mk.injEq] at h
          obtain ⟨hroot, hres⟩ := h
          unfold loadFile at hroot hres
          simp only at hroot hres
          have hfl := fileLoop_noValidation P params.params (P.rangeOrder (jsonMap.flattenMap P "" []))
          cases hloop : fileLoop P params.params (P.rangeOrder (jsonMap.flattenMap P "" [])) with
          | mk ps r =>
            rw [hloop] at hroot hres hfl
            cases r with
            | error e1 =>
              simp only [Res.error.injEq] at hres
              have := hfl e1 rfl
              rw [hres, hval] at this
              cases this
            | panic w => simp at hres
            | ok u =>
              simp only at hroot hres
              have hal := assignAll_noValidation P c ps
              unfold configParameters.AssignValues at hroot hres ⊢
              simp only at hroot hres ⊢
              cases ha : assignAll P c ps with
              | mk c1 r1 =>
                rw [ha] at hroot hres hal
                cases r1 with
                | error e1 =>
                  simp only [Res.error.injEq] at hres
                  have := hal e1 rfl
                  rw [hres, hval] at this
                  cases this
                | panic w => simp at hres
                | ok u1 =>
                  simp only at hroot hres
                  refine ⟨params, ps, data, jsonMap, rfl, rfl, hj, hloop, ?_, ?_, hres⟩
                  · rw [ha]
                  · rw [ha]; exact hroot.symm
  · intro args opt envOverride root1 e h hval
    unfold newFlagWithErrorHandling at h
    cases hp : newConfigParameters P (.pointer c) with
    | error e1 =>
      rw [hp] at h
      simp only [Prod.mk.injEq, Res.error.injEq] at h
      have := newConfigParameters_noValidation P (.pointer c) e1 hp
      rw [h.2] at this
      rw [this] at hval
      cases hval
    | panic w =>
      rw [hp] at h
      simp at h
    | ok params =>
      rw [hp] at h
      simp only at h
      have hrf := resolveFlags_noValidation P params.params args opt envOverride
      cases hr : resolveFlags P params.params args opt envOverride with
      | error e1 =>
        rw [hr] at h hrf
        simp only [Prod.mk.injEq, Res.error.injEq] at h
        have := hrf e1 rfl
        rw [h.2, hval] at this
        cases this
      | panic w =>
        rw [hr] at h
        simp at h
      | ok ps =>
        rw [hr] at h
        simp only at h
        refine ⟨params, ps, rfl, hr, ?_⟩
        cases ha : configParameters.AssignValues P { params := ps } c with
        | mk c1 r1 =>
          rw [ha] at h
          cases r1 with
          | panic w => simp at h
          | error e1 =>
            simp only [Prod.mk.injEq] at h
            exact ⟨h.1.symm, h.2⟩
          | ok u =>
            simp only [Prod.mk.injEq] at h
            exact ⟨h.1.symm, h.2⟩

/-- Witness of C4 (amended), at the flag loader on `pc2` with `--val=99`. -/
theorem validation_error_after_assignment_witness :
    ∃ params ps,
      newConfigParameters val99Platform (.pointer pc2) = .ok params ∧
      resolveFlags val99Platform params.params ["--val=99"] .ExitOnError false = .ok ps ∧
      (NewFlag val99Platform (.pointer pc2) ["--val=99"]).1 =
        .pointer (configParameters.AssignValues val99Platform { params := ps } pc2).1 ∧
      configParameters.Validate val99Platform { params := ps } = .error (.belowMinimum "Val") :=
  (validation_error_after_assignment val99Platform pc2).2 ["--val=99"] .ExitOnError false
    (NewFlag val99Platform (.pointer pc2) ["--val=99"]).1 (.belowMinimum "Val")
    (Prod.ext rfl (by decide!)) rfl

/-! ### Dotted names -/

theorem splitChars_no_sep {sep : Char} {cs : List Char} (h : cs.contains sep = false) :
    splitChars sep cs = [cs] := by
  induction cs with
  | nil => rfl
  | cons c rest ih =>
    simp only [List.contains_cons, Bool.or_eq_false_iff, beq_eq_false_iff_ne, ne_eq] at h
    have hc : c ≠ sep := fun e => h.1 e.symm
    simp only [splitChars, if_neg hc, ih h.2]

theorem splitChars_append_sep {sep : Char} {cs ds : List Char} (h : cs.contains sep = false) :
    splitChars sep (cs ++ sep :: ds) = cs :: splitChars sep ds := by
  induction cs with
  | nil => simp [splitChars]
  | cons c rest ih =>
    simp only [List.contains_cons, Bool.or_eq_false_iff, beq_eq_false_iff_ne, ne_eq] at h
    have hc : c ≠ sep := fun e => h.1 e.symm
    have ih2 : splitChars sep (rest.append (sep :: ds)) = rest :: splitChars sep ds := ih h.2
    simp only [List.cons_append, splitChars, if_neg hc]
    rw [ih2]

theorem strSplit_dotted (name : String) (rest : List String)
    (h : ∀ n ∈ name :: rest, n.data.contains '.' = false) :
    strSplit (dotted (name :: rest)) '.' = name :: rest := by
  induction rest generalizing name with
  | nil =>
    have := h name (by simp)
    simp [strSplit, dotted, splitChars_no_sep this]
  | cons b more ih =>
    have h1 := h name (by simp)
    have h2 := ih b (fun n hn => h n (by simp at hn ⊢; exact Or.inr hn))
    unfold strSplit at h2 ⊢
    simp only [dotted, String.data_append]
    rw [List.append_assoc, List.singleton_append, splitChars_append_sep h1]
    simp only [List.map_cons, h2]

/-! ### What `newParameter` builds -/

theorem index_ok {tv : List String} {i : Nat} {x : String} (h : index tv i = .ok x) :
    tv.get? i = some x := by
  unfold index at h
  split at h
  · rename_i s hs
    cases h
    exact hs
  · cases h

theorem newParameterKey_frame {ret r : parameter} {tv : List String} {key : String}
    (h : newParameterKey ret tv key = .ok r) :
    r.name = ret.name ∧ r.paramtype = ret.paramtype ∧ r.value = ret.value := by
  unfold newParameterKey at h
  split at h
  · obtain ⟨x, -, hx⟩ := Res.bind_eq_ok h
    cases hx; exact ⟨rfl, rfl, rfl⟩
  split at h
  · obtain ⟨x, -, hx⟩ := Res.bind_eq_ok h
    cases hx; exact ⟨rfl, rfl, rfl⟩
  split at h
  · obtain ⟨x, -, hx⟩ := Res.bind_eq_ok h
    split at hx
    · cases hx
    · cases hx; exact ⟨rfl, rfl, rfl⟩
  split at h
  · obtain ⟨x, -, hx⟩ := Res.bind_eq_ok h
    split at hx
    · cases hx
    · cases hx; exact ⟨rfl, rfl, rfl⟩
  split at h
  · split at h
    · cases h
    · cases h; exact ⟨rfl, rfl, rfl⟩
  split at h
  · cases h; exact ⟨rfl, rfl, rfl⟩
  split at h
  · split at h
    · cases h
    · obtain ⟨x, -, hx⟩ := Res.bind_eq_ok h
      split at hx
      · cases hx
      · cases hx; exact ⟨rfl, rfl, rfl⟩
  · cases h

theorem newParameterAttr_frame {P : Platform} {ret r : parameter} {v : String}
    (h : newParameterAttr P ret v = .ok r) :
    r.name = ret.name ∧ r.paramtype = ret.paramtype ∧ r.value = ret.value := by
  unfold newParameterAttr at h
  split at h
  · cases h
  split at h
  · cases h; exact ⟨rfl, rfl, rfl⟩
  · exact newParameterKey_frame h

theorem newParameterLoop_frame {P : Platform} {ret r : parameter} {attribs : List String}
    (h : newParameterLoop P ret attribs = .ok r) :
    r.name = ret.name ∧ r.paramtype = ret.paramtype ∧ r.value = ret.value := by
  induction attribs generalizing ret with
  | nil =>
    unfold newParameterLoop at h
    cases h
    exact ⟨rfl, rfl, rfl⟩
  | cons v rest ih =>
    unfold newParameterLoop at h
    obtain ⟨r1, h1, h2⟩ := Res.bind_eq_ok h
    obtain ⟨a, b, c⟩ := newParameterAttr_frame h1
    obtain ⟨a2, b2, c2⟩ := ih h2
    exact ⟨a2.trans a, b2.trans b, c2.trans c⟩

theorem SetValueAsString_ok {P : Platform} {p q : parameter} {val : String} {u : Unit}
    (h : p.SetValueAsString P val = (q, .ok u)) :
    ∃ w, q = { p with value := w, isSet := true } ∧ toInternalType w = p.paramtype := by
  unfold parameter.SetValueAsString at h
  split at h
  · rename_i hk
    simp only [Prod.mk.injEq] at h
    exact ⟨_, h.1.symm, by rw [hk]; rfl⟩
  · rename_i hk
    split at h
    · split at h
      · simp at h
      · simp only [Prod.mk.injEq] at h
        exact ⟨_, h.1.symm, by rw [hk]; rfl⟩
    · simp at h
  · rename_i hk
    split at h
    · simp only [Prod.mk.injEq] at h
      exact ⟨_, h.1.symm, by rw [hk]; rfl⟩
    · simp at h
  · rename_i hk
    split at h
    · simp only [Prod.mk.injEq] at h
      exact ⟨_, h.1.symm, by rw [hk]; rfl⟩
    · simp at h
  · rename_i hk
    split at h
    · simp only [Prod.mk.injEq] at h
      exact ⟨_, h.1.symm, by rw [hk]; rfl⟩
    · simp at h
  · rename_i hk
    split at h
    · simp only [Prod.mk.injEq] at h
      exact ⟨_, h.1.symm, by rw [hk]; rfl⟩
    · simp at h
  · simp at h

theorem newParameterFinish_spec {P : Platform} {ret p : parameter}
    (h : newParameterFinish P ret = .ok (some p)) (hnil : ret.value = .nil) :
    p.name = ret.name ∧ p.paramtype = ret.paramtype ∧ p.isSet = false ∧
    (p.value = .nil ∨ toInternalType p.value = p.paramtype) := by
  unfold newParameterFinish at h
  split at h
  · cases h
  split at h
  · cases h
  split at h
  · split at h
    · rename_i r u heq
      obtain ⟨w, hq, hw⟩ := SetValueAsString_ok heq
      simp only [Res.ok.injEq, Option.some.injEq] at h
      subst h
      subst hq
      exact ⟨rfl, rfl, rfl, Or.inr hw⟩
    · cases h
    · cases h
  · simp only [Res.ok.injEq, Option.some.injEq] at h
    subst h
    exact ⟨rfl, rfl, rfl, Or.inl hnil⟩

theorem newParameter_spec {P : Platform} {pfx fieldName : String} {tag : Option String}
    {value : Value} {p : parameter} (h : newParameter P pfx fieldName tag value = .ok (some p)) :
    p.name = pfx ++ fieldName ∧ p.paramtype = toInternalType value ∧
    p.paramtype ≠ .invalidType ∧ p.isSet = false ∧
    (p.value = .nil ∨ toInternalType p.value = p.paramtype) := by
  unfold newParameter at h
  split at h
  · cases h
  · simp only at h
    split at h
    · cases h
    · rename_i hk
      obtain ⟨r, h1, h2⟩ := Res.bind_eq_ok h
      obtain ⟨a, b, c⟩ := newParameterLoop_frame h1
      obtain ⟨a2, b2, c2, d2⟩ := newParameterFinish_spec h2 (by rw [c])
      refine ⟨a2.trans a, b2.trans b, ?_, c2, d2⟩
      rw [b2, b]
      exact hk

theorem splitChars_ne_nil (sep : Char) (cs : List Char) : splitChars sep cs ≠ [] := by
  cases cs with
  | nil => simp [splitChars]
  | cons c rest =>
    unfold splitChars
    split
    · simp
    · split <;> simp

theorem splitChars_injective (sep : Char) (a b : List Char)
    (h : splitChars sep a = splitChars sep b) : a = b := by
  induction a generalizing b with
  | nil =>
    cases b with
    | nil => rfl
    | cons d bs =>
      exfalso
      unfold splitChars at h
      by_cases hd : d = sep
      · rw [if_pos hd] at h
        simp only [List.cons.injEq, true_and] at h
        exact splitChars_ne_nil sep bs h.symm
      · rw [if_neg hd] at h
        split at h <;> simp at h
  | cons c as ih =>
    cases b with
    | nil =>
      exfalso
      conv at h => lhs; unfold splitChars
      conv at h => rhs; unfold splitChars
      by_cases hc : c = sep
      · rw [if_pos hc] at h
        simp only [List.cons.injEq, true_and] at h
        exact splitChars_ne_nil sep as h
      · rw [if_neg hc] at h
        split at h <;> simp at h
    | cons d bs =>
      conv at h => lhs; unfold splitChars
      conv at h => rhs; unfold splitChars
      by_cases hc : c = sep
      · rw [if_pos hc] at h
        by_cases hd : d = sep
        · rw [if_pos hd] at h
          simp only [List.cons.injEq, true_and] at h
          rw [hc, hd, ih bs h]
        · rw [if_neg hd] at h
          split at h <;> simp at h
      · rw [if_neg hc] at h
        by_cases hd : d = sep
        · rw [if_pos hd] at h
          split at h <;> simp at h
        · rw [if_neg hd] at h
          cases ha : splitChars sep as with
          | nil => exact absurd ha (splitChars_ne_nil sep as)
          | cons h1 t1 =>
            cases hb : splitChars sep bs with
            | nil => exact absurd hb (splitChars_ne_nil sep bs)
            | cons h2 t2 =>
              rw [ha, hb] at h
              simp only [List.cons.injEq] at h
              obtain ⟨⟨hcd, hh⟩, ht⟩ := h
              have : splitChars sep as = splitChars sep bs := by rw [ha, hb, hh, ht]
              rw [hcd, ih bs this]

theorem strSplit_injective (sep : Char) (a b : String)
    (h : strSplit a sep = strSplit b sep) : a = b := by
  unfold strSplit at h
  have hinj : Function.Injective String.mk := fun x y hxy => by cases hxy; rfl
  have := List.map_injective_iff.mpr hinj h
  exact String.ext (splitChars_injective sep _ _ this)

theorem dotted_names_differ {pfx ha hb : String} {ra rb : List String}
    (hda : ∀ n ∈ ha :: ra, n.data.contains '.' = false)
    (hdb : ∀ n ∈ hb :: rb, n.data.contains '.' = false) (hne : ha ≠ hb) :
    pfx ++ dotted (ha :: ra) ≠ pfx ++ dotted (hb :: rb) := by
  intro h
  have h1 : dotted (ha :: ra) = dotted (hb :: rb) := by
    have := congrArg String.data h
    simp only [String.data_append] at this
    exact String.ext (List.append_cancel_left this)
  have h2 := congrArg (fun s => strSplit s '.') h1
  simp only [strSplit_dotted _ _ hda, strSplit_dotted _ _ hdb] at h2
  exact hne (List.cons.inj h2).1

/-! ### What `readParameters` collects -/

theorem Fields.fieldByName_of_not_mem {name : String} (fs : Fields) (h : name ∉ fs.names) :
    fs.fieldByName name = none := by
  match fs with
  | .nil => rfl
  | .cons n t c rest =>
    simp only [Fields.names, List.mem_cons, not_or] at h
    unfold Fields.fieldByName
    rw [if_neg (fun e => h.1 e.symm)]
    exact Fields.fieldByName_of_not_mem rest h.2

theorem DeclaredIn.lift_rest {P : Platform} {n : String} {t : Option String} {c : Config}
    {rest : Fields} {pfx : String} {p : parameter} (hn : n ∉ rest.names)
    (h : DeclaredIn P rest pfx p) : DeclaredIn P (.cons n t c rest) pfx p := by
  obtain ⟨name, more, v0, hmem, hdot, hname, hpath, hk, hinv, hval⟩ := h
  refine ⟨name, more, v0, ?_, hdot, hname, ?_, hk, hinv, hval⟩
  · simp [Fields.names, hmem]
  · have hne : n ≠ name := fun e => hn (e ▸ hmem)
    unfold Config.fieldByPath at hpath ⊢
    unfold Fields.fieldByName
    rw [if_neg hne]
    exact hpath

theorem DeclaredIn.lift_struct {P : Platform} {n : String} {t : Option String} {fs1 rest : Fields}
    {pfx : String} {p : parameter} (hexp : isExported P n = true)
    (hdot : n.data.contains '.' = false)
    (h : DeclaredIn P fs1 (pfx ++ n ++ ".") p) : DeclaredIn P (.cons n t (.struct fs1) rest) pfx p := by
  obtain ⟨name, more, v0, hmem, hdots, hname, hpath, hk, hinv, hval⟩ := h
  refine ⟨n, name :: more, v0, ?_, ?_, ?_, ?_, hk, hinv, hval⟩
  · simp [Fields.names]
  · intro x hx
    simp only [List.mem_cons] at hx
    rcases hx with rfl | hx
    · exact hdot
    · exact hdots x (by simpa using hx)
  · rw [hname]
    simp only [dotted, String.append_assoc]
  · unfold Config.fieldByPath
    unfold Fields.fieldByName
    simp only [if_true, hexp]
    exact hpath

theorem DeclaredIn.of_leaf {P : Platform} {n : String} {t : Option String} {v : Value}
    {rest : Fields} {pfx : String} {p : parameter} (hexp : isExported P n = true)
    (hdot : n.data.contains '.' = false)
    (hname : p.name = pfx ++ n) (hk : p.paramtype = toInternalType v)
    (hinv : p.paramtype ≠ .invalidType)
    (hval : p.value = .nil ∨ toInternalType p.value = p.paramtype) :
    DeclaredIn P (.cons n t (.leaf v) rest) pfx p := by
  refine ⟨n, [], v, ?_, ?_, ?_, ?_, hk.symm, hinv, hval⟩
  · simp [Fields.names]
  · intro x hx
    simp only [List.mem_singleton] at hx
    rw [hx]; exact hdot
  · rw [hname]; rfl
  · unfold Config.fieldByPath
    unfold Fields.fieldByName
    simp only [if_true, hexp]
    rfl

theorem DeclaredIn.name_eq {P : Platform} {fs : Fields} {pfx : String} {p : parameter}
    (h : DeclaredIn P fs pfx p) :
    ∃ name rest, name ∈ fs.names ∧ (∀ n ∈ name :: rest, n.data.contains '.' = false) ∧
      p.name = pfx ++ dotted (name :: rest) := by
  obtain ⟨name, rest, _, hmem, hdot, hname, _⟩ := h
  exact ⟨name, rest, hmem, hdot, hname⟩

theorem Fields.readParameters_spec (P : Platform) (fs : Fields) (pfx : String)
    (acc out : List parameter) (hwf : fs.wellFormed = true) (hnd : fs.names.Nodup)
    (h : fs.readParameters P pfx acc = .ok out) :
    ∃ new, out = acc ++ new ∧ (∀ p ∈ new, DeclaredIn P fs pfx p) ∧
      new.Pairwise (fun a b => a.name ≠ b.name) := by
  match fs with
  | .nil =>
    unfold Fields.readParameters at h
    cases h
    exact ⟨[], by simp, by simp, List.Pairwise.nil⟩
  | .cons n t c rest =>
    unfold Fields.wellFormed at hwf
    simp only [Bool.and_eq_true, Bool.not_eq_true'] at hwf
    obtain ⟨⟨hdot, hc⟩, hrest⟩ := hwf
    simp only [Fields.names, List.nodup_cons] at hnd
    obtain ⟨hn, hnd2⟩ := hnd
    unfold Fields.readParameters at h
    split at h
    · split at h
      · cases h
      · obtain ⟨new, h1, h2, h3⟩ := Fields.readParameters_spec P rest pfx acc out hrest hnd2 h
        exact ⟨new, h1, fun p hp => (h2 p hp).lift_rest hn, h3⟩
    · split at h
      · cases h
      · rename_i hexp
        simp only [Bool.not_eq_true, Bool.not_eq_false'] at hexp
        match c with
        | .struct fs1 =>
          simp only at h
          obtain ⟨ps1, h1, h2⟩ := Res.bind_eq_ok h
          unfold Config.wellFormed at hc
          simp only [Bool.and_eq_true, decide_eq_true_eq] at hc
          obtain ⟨new1, e1, d1, pw1⟩ :=
            Fields.readParameters_spec P fs1 (pfx ++ n ++ ".") acc ps1 hc.2 hc.1 h1
          obtain ⟨new2, e2, d2, pw2⟩ :=
            Fields.readParameters_spec P rest pfx ps1 out hrest hnd2 h2
          refine ⟨new1 ++ new2, by rw [e2, e1, List.append_assoc], ?_, ?_⟩
          · intro p hp
            rcases List.mem_append.mp hp with hp | hp
            · exact (d1 p hp).lift_struct hexp hdot
            · exact (d2 p hp).lift_rest hn
          · refine List.pairwise_append.mpr ⟨pw1, pw2, ?_⟩
            intro a ha b hb
            obtain ⟨na1, ra1, -, hda1, hna1⟩ := (d1 a ha).name_eq
            obtain ⟨nb, rb, hmb, hdb, hnb⟩ := (d2 b hb).name_eq
            have hda2 : ∀ x ∈ n :: na1 :: ra1, x.data.contains '.' = false := by
              intro x hx
              rcases List.mem_cons.mp hx with rfl | hx
              · exact hdot
              · exact hda1 x hx
            have hname : a.name = pfx ++ dotted (n :: na1 :: ra1) := by
              rw [hna1]
              simp only [dotted, String.append_assoc]
            rw [hname, hnb]
            exact dotted_names_differ hda2 hdb (fun e => hn (e ▸ hmb))
        | .leaf v =>
          simp only at h
          obtain ⟨param, h1, h2⟩ := Res.bind_eq_ok h
          cases param with
          | none =>
            simp only at h2
            obtain ⟨new, e1, d1, pw1⟩ :=
              Fields.readParameters_spec P rest pfx acc out hrest hnd2 h2
            exact ⟨new, e1, fun p hp => (d1 p hp).lift_rest hn, pw1⟩
          | some q =>
            simp only at h2
            obtain ⟨new, e1, d1, pw1⟩ :=
              Fields.readParameters_spec P rest pfx (acc ++ [q]) out hrest hnd2 h2
            obtain ⟨a, b, c1, -, d⟩ := newParameter_spec h1
            refine ⟨q :: new, by rw [e1]; simp, ?_, ?_⟩
            · intro p hp
              rcases List.mem_cons.mp hp with rfl | hp
              · exact DeclaredIn.of_leaf hexp hdot a b c1 d
              · exact (d1 p hp).lift_rest hn
            · refine List.pairwise_cons.mpr ⟨?_, pw1⟩
              intro r hr
              obtain ⟨nb, rb, hmb, hdb, hnb⟩ := (d1 r hr).name_eq
              have hq : q.name = pfx ++ dotted (n :: []) := by rw [a]; rfl
              rw [hq, hnb]
              refine dotted_names_differ ?_ hdb (fun e => hn (e ▸ hmb))
              intro x hx
              simp only [List.mem_singleton] at hx
              rw [hx]; exact hdot

/-! ### Reading and writing fields by path -/

theorem Fields.fieldByName_setPath (fs : Fields) (m : String) (rest : List String) (v : Value)
    (n : String) :
    (fs.setPath m rest v).fieldByName n =
      if n = m then (fs.fieldByName n).map (fun c => c.setPath rest v) else fs.fieldByName n := by
  match fs with
  | .nil =>
    unfold Fields.setPath Fields.fieldByName
    split <;> rfl
  | .cons k t c more =>
    have ih := Fields.fieldByName_setPath more m rest v n
    unfold Fields.setPath
    by_cases hkm : k = m
    · rw [if_pos hkm]
      unfold Fields.fieldByName
      by_cases hkn : k = n
      · have hnm : n = m := hkn ▸ hkm
        simp [hkn, hnm]
      · have hnm : ¬ n = m := fun e => hkn (hkm.trans e.symm)
        simp [hkn, hnm]
    · rw [if_neg hkm]
      unfold Fields.fieldByName
      by_cases hkn : k = n
      · have hnm : ¬ n = m := fun e => hkm (hkn.trans e)
        simp [hkn, hnm]
      · simp only [if_neg hkn]
        exact ih

theorem Config.fieldByPath_setPath_same (P : Platform) (path : List String) (c : Config)
    (v0 v : Value) (h : c.fieldByPath P path = some (.leaf v0)) :
    (c.setPath path v).fieldByPath P path = some (.leaf v) := by
  induction path generalizing c with
  | nil =>
    unfold Config.fieldByPath at h
    simp only [Option.some.injEq] at h
    subst h
    unfold Config.setPath Config.fieldByPath
    rfl
  | cons n rest ih =>
    cases c with
    | leaf w => simp [Config.fieldByPath] at h
    | struct fs =>
      unfold Config.fieldByPath at h
      unfold Config.setPath Config.fieldByPath
      rw [Fields.fieldByName_setPath, if_pos rfl]
      cases hf : fs.fieldByName n with
      | none => rw [hf] at h; simp at h
      | some c1 =>
        rw [hf] at h
        simp only [Option.map_some'] at h ⊢
        split at h
        · rename_i hexp
          rw [if_pos hexp]
          exact ih c1 h
        · cases h

theorem Config.fieldByPath_setPath_ne (P : Platform) (q : List String) (c : Config)
    (p : List String) (v w : Value) (hne : q ≠ p) (h : c.fieldByPath P q = some (.leaf w)) :
    (c.setPath p v).fieldByPath P q = some (.leaf w) := by
  induction q generalizing c p with
  | nil =>
    unfold Config.fieldByPath at h
    simp only [Option.some.injEq] at h
    subst h
    cases p with
    | nil => exact absurd rfl hne
    | cons m rest => unfold Config.setPath Config.fieldByPath; rfl
  | cons n rest ih =>
    cases c with
    | leaf u => simp [Config.fieldByPath] at h
    | struct fs =>
      cases p with
      | nil => unfold Config.setPath; exact h
      | cons m prest =>
        unfold Config.fieldByPath at h
        unfold Config.setPath Config.fieldByPath
        rw [Fields.fieldByName_setPath]
        cases hf : fs.fieldByName n with
        | none => rw [hf] at h; simp at h
        | some c1 =>
          rw [hf] at h
          simp only at h
          split at h
          · rename_i hexp
            by_cases hnm : n = m
            · rw [if_pos hnm]
              simp only [Option.map_some', if_pos hexp]
              exact ih c1 prest (fun e => hne (by rw [hnm, e])) h
            · rw [if_neg hnm]
              simp only [if_pos hexp]
              exact h
          · cases h

theorem Config.get_of_fieldByPath (P : Platform) (path : List String) (c : Config) (w : Value)
    (h : c.fieldByPath P path = some (.leaf w)) : c.get path = some w := by
  induction path generalizing c with
  | nil =>
    unfold Config.fieldByPath at h
    simp only [Option.some.injEq] at h
    subst h
    rfl
  | cons n rest ih =>
    cases c with
    | leaf u => simp [Config.fieldByPath] at h
    | struct fs =>
      unfold Config.fieldByPath at h
      unfold Config.get
      cases hf : fs.fieldByName n with
      | none => rw [hf] at h; simp at h
      | some c1 =>
        rw [hf] at h
        simp only at h ⊢
        split at h
        · exact ih c1 h
        · cases h

/-! ### `AssignValues` -/

theorem SameKinds.refl (P : Platform) (c : Config) : SameKinds P c c :=
  fun _ v0 h => ⟨v0, h, rfl⟩

theorem assignValue_spec {P : Platform} {c0 c : Config} {p : parameter}
    (hfit : Fits P c0 p) (hc : SameKinds P c0 c) :
    assignValue P c p =
      (if p.value = .nil ∨ p.paramtype = .invalidType then c
       else c.setPath (strSplit p.name '.') p.value, .ok ()) := by
  obtain ⟨v0, hpath, hk, hval⟩ := hfit
  obtain ⟨v1, hpath1, hk1⟩ := hc _ _ hpath
  unfold assignValue
  simp only [hpath1, Config.interface]
  rw [if_neg (by rw [hk1, hk]; simp)]
  by_cases hnil : p.value = .nil
  · simp [hnil]
  · rw [if_neg hnil]
    by_cases hinv : p.paramtype = .invalidType
    · simp [hinv]
    · rw [if_neg hinv]
      have : toInternalType p.value = p.paramtype := by
        rcases hval with h | h
        · exact absurd h hnil
        · exact h
      rw [if_neg (by simp [this])]
      simp [hnil, hinv]

theorem SameKinds.setPath {P : Platform} {c0 c : Config} {p : parameter}
    (hfit : Fits P c0 p) (hc : SameKinds P c0 c) (hnil : p.value ≠ .nil) :
    SameKinds P c0 (c.setPath (strSplit p.name '.') p.value) := by
  obtain ⟨v0, hpath, hk, hval⟩ := hfit
  have hkv : toInternalType p.value = p.paramtype := by
    rcases hval with h | h
    · exact absurd h hnil
    · exact h
  intro q w hq
  obtain ⟨w1, hq1, hkq⟩ := hc q w hq
  by_cases hqp : q = strSplit p.name '.'
  · subst hqp
    refine ⟨p.value, Config.fieldByPath_setPath_same P _ c w1 _ hq1, ?_⟩
    rw [hpath] at hq
    simp only [Option.some.injEq, Config.leaf.injEq] at hq
    rw [hkv, ← hk, hq]
  · exact ⟨w1, Config.fieldByPath_setPath_ne P q c _ _ w1 hqp hq1, hkq⟩

theorem assignAll_ok (P : Platform) (c0 : Config) (ps : List parameter)
    (hfit : ∀ p ∈ ps, Fits P c0 p) (c : Config) (hc : SameKinds P c0 c) :
    (assignAll P c ps).2 = .ok () ∧ SameKinds P c0 (assignAll P c ps).1 ∧
    (∀ q w, (∀ p ∈ ps, strSplit p.name '.' ≠ q) → c.fieldByPath P q = some (.leaf w) →
      (assignAll P c ps).1.fieldByPath P q = some (.leaf w)) := by
  induction ps generalizing c with
  | nil => exact ⟨rfl, hc, fun _ _ _ h => h⟩
  | cons p rest ih =>
    have hp := hfit p (by simp)
    have hrest : ∀ r ∈ rest, Fits P c0 r := fun r hr => hfit r (by simp [hr])
    unfold assignAll
    rw [assignValue_spec hp hc]
    simp only
    by_cases hskip : p.value = .nil ∨ p.paramtype = .invalidType
    · rw [if_pos hskip]
      obtain ⟨a, b, d⟩ := ih hrest c hc
      exact ⟨a, b, fun q w hq h => d q w (fun r hr => hq r (by simp [hr])) h⟩
    · rw [if_neg hskip]
      have hnil : p.value ≠ .nil := fun e => hskip (Or.inl e)
      obtain ⟨a, b, d⟩ := ih hrest _ (SameKinds.setPath hp hc hnil)
      refine ⟨a, b, fun q w hq h => d q w (fun r hr => hq r (by simp [hr])) ?_⟩
      exact Config.fieldByPath_setPath_ne P q c _ _ w (fun e => hq p (by simp) e.symm) h

theorem assignAll_effect (P : Platform) (c0 : Config) (ps : List parameter)
    (hfit : ∀ p ∈ ps, Fits P c0 p)
    (hdist : ps.Pairwise fun a b => strSplit a.name '.' ≠ strSplit b.name '.')
    (c : Config) (hc : SameKinds P c0 c) :
    ∀ p ∈ ps, p.value ≠ .nil → p.paramtype ≠ .invalidType →
      (assignAll P c ps).1.fieldByPath P (strSplit p.name '.') = some (.leaf p.value) := by
  induction ps generalizing c with
  | nil => intro p hp; cases hp
  | cons p0 rest ih =>
    have hp0 := hfit p0 (by simp)
    have hrest : ∀ r ∈ rest, Fits P c0 r := fun r hr => hfit r (by simp [hr])
    obtain ⟨hd0, hdrest⟩ := List.pairwise_cons.mp hdist
    intro p hp hnil hinv
    unfold assignAll
    rw [assignValue_spec hp0 hc]
    simp only
    rcases List.mem_cons.mp hp with rfl | hp
    · rw [if_neg (by simp [hnil, hinv])]
      have hsk := SameKinds.setPath hp0 hc hnil
      obtain ⟨v0, hpath, -, -⟩ := hp0
      obtain ⟨v1, hpath1, -⟩ := hc _ _ hpath
      have hset := Config.fieldByPath_setPath_same P _ c v1 p.value hpath1
      exact (assignAll_ok P c0 rest hrest _ hsk).2.2 _ _ (fun r hr => (hd0 r hr).symm) hset
    · by_cases hskip : p0.value = .nil ∨ p0.paramtype = .invalidType
      · rw [if_pos hskip]
        exact ih hrest hdrest c hc p hp hnil hinv
      · rw [if_neg hskip]
        have hnil0 : p0.value ≠ .nil := fun e => hskip (Or.inl e)
        exact ih hrest hdrest _ (SameKinds.setPath hp0 hc hnil0) p hp hnil hinv

/-! ### The parameters of a well-formed struct fit it -/

theorem newConfigParameters_fits {P : Platform} {c : Config} {params : configParameters}
    (hwf : c.wellFormed = true) (h : newConfigParameters P (.pointer c) = .ok params) :
    (∀ p ∈ params.params, Fits P c p ∧ p.paramtype ≠ .invalidType) ∧
    params.params.Pairwise (fun a b => a.name ≠ b.name) := by
  unfold newConfigParameters at h
  simp only at h
  obtain ⟨ps, h1, h2⟩ := Res.bind_eq_ok h
  cases h2
  cases c with
  | leaf v => unfold Config.readParameters at h1; cases h1
  | struct fs =>
    unfold Config.readParameters at h1
    unfold Config.wellFormed at hwf
    simp only [Bool.and_eq_true, decide_eq_true_eq] at hwf
    obtain ⟨new, e1, d1, pw⟩ := Fields.readParameters_spec P fs "" [] ps hwf.2 hwf.1 h1
    simp only [List.nil_append] at e1
    subst e1
    refine ⟨?_, pw⟩
    intro p hp
    obtain ⟨name, rest, v0, -, hdot, hname, hpath, hk, hinv, hval⟩ := d1 p hp
    have hn : p.name = dotted (name :: rest) := by
      rw [hname]
      exact String.empty_append _
    refine ⟨⟨v0, ?_, hk, hval⟩, hinv⟩
    rw [hn, strSplit_dotted name rest hdot]
    exact hpath

theorem findParameter_eq_none {P : Platform} {name : String} {params : List parameter}
    (h : ∀ p ∈ params, equalFold P p.name name = false) : findParameter P name params = none := by
  induction params with
  | nil => rfl
  | cons p rest ih =>
    unfold findParameter
    rw [if_neg (by simp [h p (by simp)])]
    rw [ih (fun q hq => h q (by simp [hq]))]
    rfl

theorem fileLoop_unmatched {P : Platform} {params : List parameter}
    (entries : List (String × Value))
    (h : ∀ kv ∈ entries, ∀ p ∈ params, equalFold P p.name kv.1 = false) :
    fileLoop P params entries = (params, .ok ()) := by
  induction entries with
  | nil => rfl
  | cons kv rest ih =>
    obtain ⟨k, v⟩ := kv
    unfold fileLoop
    rw [findParameter_eq_none (h (k, v) (by simp))]
    exact ih (fun e he => h e (by simp [he]))

/-- C9: in the file loader an entry whose key equals no parameter name under
`strings.EqualFold` is skipped: it raises no error and changes no parameter.
A document whose flattened keys all match no parameter (in particular the
empty object) leaves every parameter as schema construction built it, and
`NewFile` on a well-formed struct then returns what `Validate` returns on
those parameters, so it succeeds whenever the defaults pass validation. -/
theorem unmatched_keys_ignored (P : Platform) :
    (∀ (params : List parameter) (k : String) (v : Value) (rest : List (String × Value)),
      (∀ p ∈ params, equalFold P p.name k = false) →
      fileLoop P params ((k, v) :: rest) = fileLoop P params rest) ∧
    (∀ (c : Config) (params : configParameters) (data : String) (jsonMap : JsonMap),
      c.wellFormed = true →
      newConfigParameters P (.pointer c) = .ok params →
      P.jsonUnmarshal data = some jsonMap →
      (∀ kv ∈ jsonMap.flattenMap P "" [], ∀ p ∈ params.params, equalFold P p.name kv.1 = false) →
      fileLoop P params.params (P.rangeOrder (jsonMap.flattenMap P "" [])) = (params.params, .ok ()) ∧
      (params.AssignValues P c).2 = .ok () ∧
      NewFile P (.pointer c) (.bytes data) = (.pointer (params.AssignValues P c).1, params.Validate P) ∧
      (params.Validate P = .ok () → (NewFile P (.pointer c) (.bytes data)).2 = .ok ())) ∧
    (∀ (c : Config) (params : configParameters) (data : String),
      c.wellFormed = true →
      newConfigParameters P (.pointer c) = .ok params →
      P.jsonUnmarshal data = some .nil →
      NewFile P (.pointer c) (.bytes data) = (.pointer (params.AssignValues P c).1, params.Validate P) ∧
      (params.Validate P = .ok () → (NewFile P (.pointer c) (.bytes data)).2 = .ok ())) := by
  have hmain : ∀ (c : Config) (params : configParameters) (data : String) (jsonMap : JsonMap),
      c.wellFormed = true →
      newConfigParameters P (.pointer c) = .ok params →
      P.jsonUnmarshal data = some jsonMap →
      (∀ kv ∈ jsonMap.flattenMap P "" [], ∀ p ∈ params.params, equalFold P p.name kv.1 = false) →
      fileLoop P params.params (P.rangeOrder (jsonMap.flattenMap P "" [])) = (params.params, .ok ()) ∧
      (params.AssignValues P c).2 = .ok () ∧
      NewFile P (.pointer c) (.bytes data) = (.pointer (params.AssignValues P c).1, params.Validate P) ∧
      (params.Validate P = .ok () → (NewFile P (.pointer c) (.bytes data)).2 = .ok ()) := by
    intro c params data jsonMap hwf hp hj hun
    have hloop : fileLoop P params.params (P.rangeOrder (jsonMap.flattenMap P "" [])) =
        (params.params, .ok ()) :=
      fileLoop_unmatched _ (fun kv hkv => hun kv ((P.rangeOrder_perm _).mem_iff.mp hkv))
    have hfit := (newConfigParameters_fits hwf hp).1
    have hassign := (assignAll_ok P c params.params (fun p hp => (hfit p hp).1) c (SameKinds.refl P c)).1
    have hnew : NewFile P (.pointer c) (.bytes data) =
        (.pointer (params.AssignValues P c).1, params.Validate P) := by
      unfold NewFile
      rw [hp]
      simp only [hj, loadFile, hloop]
      unfold configParameters.AssignValues at hassign ⊢
      simp only
      cases ha : assignAll P c params.params with
      | mk c1 r1 =>
        rw [ha] at hassign
        simp only at hassign
        subst hassign
        rfl
    refine ⟨hloop, hassign, hnew, ?_⟩
    intro hv
    rw [hnew]
    exact hv
  refine ⟨?_, hmain, ?_⟩
  · intro params k v rest h
    conv_lhs => unfold fileLoop
    rw [findParameter_eq_none h]
  · intro c params data hwf hp hj
    have := hmain c params data .nil hwf hp hj (by
      intro kv hkv
      simp [JsonMap.flattenMap] at hkv)
    exact ⟨this.2.2.1, this.2.2.2⟩

/-- Witness of C9: the empty object loaded into `cfgEnv` leaves the default of
`F1` in place and succeeds. -/
theorem unmatched_keys_ignored_witness :
    (NewFile (docPlatform "\x7b\x7d" .nil) (.pointer cfgEnv) (.bytes "\x7b\x7d")).2 = .ok () ∧
    (NewFile (docPlatform "\x7b\x7d" .nil) (.pointer cfgEnv) (.bytes "\x7b\x7d")).1.get ["F1"] =
      some (.str "F1") := by
  have hp : newConfigParameters (docPlatform "\x7b\x7d" .nil) (.pointer cfgEnv) =
      .ok { params := cfgEnvParams } := by decide!
  have h := (unmatched_keys_ignored (docPlatform "\x7b\x7d" .nil)).2.2 cfgEnv _ "\x7b\x7d"
    (by decide) hp rfl
  refine ⟨h.2 (by decide!), ?_⟩
  rw [h.1]
  decide!

/-! ### The loop of the file loader -/

theorem fileValue_typed {P : Platform} {p : parameter} {v w : Value}
    (h : correctlyTyped P p.paramtype v = some w) :
    fileValue P p v = ({ p with value := w, isSet := true }, .ok ()) := by
  unfold correctlyTyped at h
  split at h
  · rename_i hk
    cases h
    simp [fileValue, hk, parameter.SetValue, toInternalType]
  · rename_i hk
    cases h
    simp [fileValue, hk, parameter.SetValue, toInternalType]
  · rename_i hk
    cases h
    simp [fileValue, hk, parameter.SetValue, toInternalType]
  · rename_i q hk
    split at h
    · rename_i hq
      cases h
      have : floatToInt P (.fin q) = q.num := by
        unfold floatToInt
        simp only [hq.1, Nat.cast_one, Int.tdiv_one]
        rw [if_pos ⟨hq.2.1, hq.2.2⟩]
      simp [fileValue, hk, parameter.SetValue, toInternalType, this]
    · cases h
  · rename_i q hk
    split at h
    · rename_i hq
      cases h
      have : floatToUint P (.fin q) = q.num.toNat := by
        unfold floatToUint
        simp only [hq.1, Nat.cast_one, Int.tdiv_one]
        rw [if_pos ⟨hq.2.1, hq.2.2⟩]
      simp [fileValue, hk, parameter.SetValue, toInternalType, this]
    · cases h
  · rename_i s hk
    cases hd : P.parseDuration s with
    | none => rw [hd] at h; cases h
    | some d =>
      rw [hd] at h
      cases h
      simp [fileValue, hk, hd, parameter.SetValue, toInternalType]
  · cases h

theorem correctlyTyped_kind {P : Platform} {kind : internalType} {v w : Value}
    (h : correctlyTyped P kind v = some w) : toInternalType w = kind ∧ w ≠ .nil ∧ kind ≠ .invalidType := by
  unfold correctlyTyped at h
  split at h
  · cases h; simp [toInternalType]
  · cases h; simp [toInternalType]
  · cases h; simp [toInternalType]
  · split at h
    · cases h; simp [toInternalType]
    · cases h
  · split at h
    · cases h; simp [toInternalType]
    · cases h
  · rename_i s
    cases hd : P.parseDuration s with
    | none => rw [hd] at h; cases h
    | some d => rw [hd] at h; cases h; simp [toInternalType]
  · cases h

theorem SetValue_frame {p q : parameter} {value : Value} {r : Res Unit}
    (h : p.SetValue value = (q, r)) :
    q.name = p.name ∧ q.paramtype = p.paramtype ∧
    (q.value = p.value ∨ toInternalType q.value = p.paramtype) := by
  unfold parameter.SetValue at h
  split at h
  · cases h; exact ⟨rfl, rfl, Or.inl rfl⟩
  · rename_i hk
    simp only [ne_eq, Decidable.not_not] at hk
    split at h
    · cases h; exact ⟨rfl, rfl, Or.inl rfl⟩
    · cases h; exact ⟨rfl, rfl, Or.inr hk⟩

theorem fileValue_frame {P : Platform} {p q : parameter} {v : Value} {r : Res Unit}
    (h : fileValue P p v = (q, r)) :
    q.name = p.name ∧ q.paramtype = p.paramtype ∧
    (q.value = p.value ∨ toInternalType q.value = p.paramtype) := by
  unfold fileValue at h
  split at h
  · split at h
    · exact SetValue_frame h
    · cases h; exact ⟨rfl, rfl, Or.inl rfl⟩
  split at h
  · split at h
    · exact SetValue_frame h
    · cases h; exact ⟨rfl, rfl, Or.inl rfl⟩
  split at h
  · split at h
    · split at h
      · cases h; exact ⟨rfl, rfl, Or.inl rfl⟩
      · rename_i d _
        simp only [Prod.mk.injEq] at h
        have := @SetValue_frame p (p.SetValue (.duration d)).1 (.duration d)
          (p.SetValue (.duration d)).2 rfl
        rw [h.1] at this
        exact this
    · cases h; exact ⟨rfl, rfl, Or.inl rfl⟩
  · exact SetValue_frame h

theorem findParameter_congr {P : Platform} {name : String} {ps qs : List parameter}
    (h : ps.map (·.name) = qs.map (·.name)) : findParameter P name ps = findParameter P name qs := by
  induction ps generalizing qs with
  | nil =>
    cases qs with
    | nil => rfl
    | cons q qs => simp at h
  | cons p ps ih =>
    cases qs with
    | nil => simp at h
    | cons q qs =>
      simp only [List.map_cons, List.cons.injEq] at h
      unfold findParameter
      rw [h.1, ih h.2]

theorem map_name_set {params : List parameter} {i : Nat} {p q : parameter}
    (hp : params[i]? = some p) (hq : q.name = p.name) :
    (params.set i q).map (·.name) = params.map (·.name) := by
  apply List.ext_getElem?
  intro j
  simp only [List.getElem?_map, List.getElem?_set]
  by_cases hij : i = j
  · subst hij
    rw [if_pos rfl]
    simp only [hp, Option.map_some', hq]
    have hlt : i < params.length := by
      rcases Nat.lt_or_ge i params.length with h | h
      · exact h
      · rw [List.getElem?_eq_none h] at hp; cases hp
    simp [hlt, hq]
  · rw [if_neg hij]

theorem findParameter_lt {P : Platform} {name : String} {params : List parameter} {i : Nat}
    (h : findParameter P name params = some i) : i < params.length := by
  induction params generalizing i with
  | nil => cases h
  | cons p rest ih =>
    unfold findParameter at h
    split at h
    · cases h; simp
    · cases hr : findParameter P name rest with
      | none => rw [hr] at h; cases h
      | some j =>
        rw [hr] at h
        simp only [Option.map_some', Option.some.injEq] at h
        subst h
        simpa using ih hr

theorem fileLoop_inv {P : Platform} {c : Config} (entries : List (String × Value))
    (params ps : List parameter) (r : Res Unit) (h : fileLoop P params entries = (ps, r))
    (hfit : ∀ p ∈ params, Fits P c p) :
    ps.map (·.name) = params.map (·.name) ∧ ∀ p ∈ ps, Fits P c p := by
  induction entries generalizing params with
  | nil =>
    unfold fileLoop at h
    cases h
    exact ⟨rfl, hfit⟩
  | cons kv rest ih =>
    obtain ⟨k, v⟩ := kv
    unfold fileLoop at h
    cases hf : findParameter P k params with
    | none =>
      rw [hf] at h
      exact ih params h hfit
    | some j =>
      rw [hf] at h
      simp only at h
      cases hg : params.get? j with
      | none =>
        rw [hg] at h
        exact ih params h hfit
      | some para =>
        rw [hg] at h
        simp only at h
        have hg2 : params[j]? = some para := by simpa using hg
        cases hv : fileValue P para v with
        | mk para1 r1 =>
          obtain ⟨hn, hk, hval⟩ := fileValue_frame hv
          have hnames := map_name_set hg2 hn
          have hpara : Fits P c para := hfit para (List.getElem?_mem hg2)
          have hfit1 : ∀ p ∈ params.set j para1, Fits P c p := by
            intro p hp
            rcases List.mem_or_eq_of_mem_set hp with hp | rfl
            · exact hfit p hp
            · obtain ⟨v0, h1, h2, h3⟩ := hpara
              refine ⟨v0, by rw [hn]; exact h1, by rw [hk]; exact h2, ?_⟩
              rcases hval with e | e
              · rw [e, hk]; exact h3
              · right; rw [hk]; exact e
          rw [hv] at h
          cases r1 with
          | ok u =>
            simp only at h
            obtain ⟨a, b⟩ := ih _ h hfit1
            exact ⟨a.trans hnames, b⟩
          | error e =>
            simp only [Prod.mk.injEq] at h
            rw [← h.1]
            exact ⟨hnames, hfit1⟩
          | panic w =>
            simp only [Prod.mk.injEq] at h
            rw [← h.1]
            exact ⟨hnames, hfit1⟩

theorem fileLoop_get {P : Platform} (entries : List (String × Value))
    (params ps : List parameter) (i : Nat) (p : parameter) (w : Value)
    (h : fileLoop P params entries = (ps, .ok ()))
    (hp : params[i]? = some p)
    (htyped : ∀ kv ∈ entries, findParameter P kv.1 params = some i →
      correctlyTyped P p.paramtype kv.2 = some w) :
    ps[i]? = some (if entries.any (fun kv => decide (findParameter P kv.1 params = some i))
      then { p with value := w, isSet := true } else p) := by
  induction entries generalizing params p with
  | nil =>
    unfold fileLoop at h
    cases h
    simpa using hp
  | cons kv rest ih =>
    obtain ⟨k, v⟩ := kv
    unfold fileLoop at h
    cases hf : findParameter P k params with
    | none =>
      rw [hf] at h
      have := ih params p h hp (fun kv hkv => htyped kv (by simp [hkv]))
      rw [this]
      have hne : ¬ ((none : Option Nat) = some i) := by simp
      simp only [List.any_cons, hf, hne, decide_False, Bool.false_or]
    | some j =>
      rw [hf] at h
      simp only at h
      cases hg : params.get? j with
      | none =>
        have hlt := findParameter_lt hf
        rw [List.get?_eq_getElem?, List.getElem?_eq_getElem hlt] at hg
        cases hg
      | some para =>
        rw [hg] at h
        simp only at h
        have hg2 : params[j]? = some para := by simpa using hg
        cases hv : fileValue P para v with
        | mk para1 r1 =>
          obtain ⟨hn, hk, -⟩ := fileValue_frame hv
          have hnames := map_name_set hg2 hn
          have hfind : ∀ name, findParameter P name (params.set j para1) = findParameter P name params :=
            fun name => findParameter_congr hnames
          rw [hv] at h
          cases r1 with
          | error e => simp at h
          | panic w => simp at h
          | ok u =>
            simp only at h
            by_cases hji : j = i
            · subst hji
              rw [hp] at hg2
              cases hg2
              have hw := htyped (k, v) (by simp) hf
              rw [fileValue_typed hw] at hv
              simp only [Prod.mk.injEq] at hv
              have hp1 : (params.set j para1)[j]? = some para1 := by
                have hlt := findParameter_lt hf
                simp [hlt]
              have := ih (params.set j para1) para1 h hp1 (fun kv hkv hh => by
                rw [← hv.1]
                exact htyped kv (by simp [hkv]) (by rw [← hfind]; exact hh))
              rw [this]
              simp only [List.any_cons, hf, decide_True, Bool.true_or, if_true]
              rw [← hv.1]
              split <;> rfl
            · have hp1 : (params.set j para1)[i]? = some p := by
                rw [List.getElem?_set_ne hji]
                exact hp
              have := ih (params.set j para1) p h hp1 (fun kv hkv hh => by
                exact htyped kv (by simp [hkv]) (by rw [← hfind]; exact hh))
              rw [this]
              have hne : ¬ (some j = some i) := fun e => hji (Option.some.inj e)
              simp only [List.any_cons, hf, hne, decide_False, Bool.false_or, hfind]

theorem NewFile_ok {P : Platform} {c : Config} {params : configParameters} {data : String}
    {jsonMap : JsonMap} {root1 : Root}
    (hp : newConfigParameters P (.pointer c) = .ok params)
    (hj : P.jsonUnmarshal data = some jsonMap)
    (hload : NewFile P (.pointer c) (.bytes data) = (root1, .ok ())) :
    ∃ ps, fileLoop P params.params (P.rangeOrder (jsonMap.flattenMap P "" [])) = (ps, .ok ()) ∧
      root1 = .pointer (assignAll P c ps).1 ∧ validateAll P ps = .ok () := by
  unfold NewFile at hload
  rw [hp] at hload
  simp only [hj, loadFile] at hload
  cases hloop : fileLoop P params.params (P.rangeOrder (jsonMap.flattenMap P "" [])) with
  | mk ps r =>
    rw [hloop] at hload
    cases r with
    | error e => simp at hload
    | panic w => simp at hload
    | ok u =>
      simp only [configParameters.AssignValues, configParameters.Validate] at hload
      refine ⟨ps, rfl, ?_⟩
      cases ha : assignAll P c ps with
      | mk c1 r1 =>
        rw [ha] at hload
        cases r1 with
        | error e => simp at hload
        | panic w => simp at hload
        | ok u1 =>
          simp only [Prod.mk.injEq] at hload
          exact ⟨hload.1.symm, hload.2⟩

/-- The file loader on decoded values.  Let `NewFile` succeed on a well-formed
struct and a decoded document.  If a flattened entry `(k, v)` of the document is located
by `getParameter` at the parameter `p`, every entry located there carries
`v`, and `v` is correctly typed for the kind of `p` with typed value `w`,
then after the call the field of the struct at the dotted path `p.name`,
nested groups included, holds `w`. -/
theorem NewFile_correctlyTyped (P : Platform) (c : Config) (params : configParameters) (data : String)
    (jsonMap : JsonMap) (root1 : Root) (i : Nat) (p : parameter) (k : String) (v w : Value)
    (hwf : c.wellFormed = true)
    (hp : newConfigParameters P (.pointer c) = .ok params)
    (hj : P.jsonUnmarshal data = some jsonMap)
    (hload : NewFile P (.pointer c) (.bytes data) = (root1, .ok ()))
    (hpi : params.params[i]? = some p)
    (hkv : (k, v) ∈ jsonMap.flattenMap P "" [])
    (hmatch : params.getParameter P k = some i)
    (honly : ∀ kv ∈ jsonMap.flattenMap P "" [], params.getParameter P kv.1 = some i → kv.2 = v)
    (htyped : correctlyTyped P p.paramtype v = some w) :
    root1.get (strSplit p.name '.') = some w := by
  obtain ⟨ps, hloop, hroot, -⟩ := NewFile_ok hp hj hload
  obtain ⟨hfit, hpw⟩ := newConfigParameters_fits hwf hp
  have hperm := P.rangeOrder_perm (jsonMap.flattenMap P "" [])
  obtain ⟨hnames, hfit1⟩ := fileLoop_inv _ _ _ _ hloop (fun q hq => (hfit q hq).1)
  have hget := fileLoop_get _ _ ps i p w hloop hpi (fun kv hkv hh => by
    rw [honly kv (hperm.mem_iff.mp hkv) hh]
    exact htyped)
  have hany : (P.rangeOrder (jsonMap.flattenMap P "" [])).any
      (fun kv => decide (findParameter P kv.1 params.params = some i)) = true := by
    rw [List.any_eq_true]
    exact ⟨(k, v), hperm.mem_iff.mpr hkv, by simpa using hmatch⟩
  rw [hany] at hget
  simp only [if_true] at hget
  have hmem := List.getElem?_mem hget
  have hdist : ps.Pairwise fun a b => strSplit a.name '.' ≠ strSplit b.name '.' := by
    have h1 : (params.params.map (·.name)).Pairwise (· ≠ ·) := List.pairwise_map.mpr hpw
    rw [← hnames] at h1
    have h2 := List.pairwise_map.mp h1
    exact h2.imp (fun hab e => hab (strSplit_injective '.' _ _ e))
  obtain ⟨hkind, hnil, hinv⟩ := correctlyTyped_kind htyped
  have heff := assignAll_effect P c ps hfit1 hdist c (SameKinds.refl P c) _ hmem hnil hinv
  rw [hroot]
  exact Config.get_of_fieldByPath P _ _ _ heff

theorem correctlyTyped_decode {P : Platform} {kind : internalType} {input : JsonInput} {w : Value}
    (hexp : input.expected P kind = some w)
    (hexact : ∀ n, input = .integer n → kind = .intType ∨ kind = .uintType → |n| ≤ 2 ^ 53) :
    correctlyTyped P kind input.decode = some w := by
  cases input with
  | str s =>
    cases kind <;> simp only [JsonInput.expected] at hexp <;> exact hexp
  | bool b =>
    cases kind <;> simp only [JsonInput.expected] at hexp <;> exact hexp
  | number f =>
    cases kind <;> simp only [JsonInput.expected] at hexp <;> first | exact hexp | cases hexp
  | integer n =>
    cases kind with
    | floatType =>
      simp only [JsonInput.expected] at hexp
      simp only [JsonInput.decode, correctlyTyped]
      exact hexp
    | intType =>
      have hn := hexact n rfl (Or.inl rfl)
      simp only [JsonInput.expected] at hexp
      simp only [JsonInput.decode, F64.ofInt_exact hn, correctlyTyped, Rat.intCast_den,
        Rat.intCast_num, true_and]
      exact hexp
    | uintType =>
      have hn := hexact n rfl (Or.inr rfl)
      simp only [JsonInput.expected] at hexp
      simp only [JsonInput.decode, F64.ofInt_exact hn, correctlyTyped, Rat.intCast_den,
        Rat.intCast_num, true_and]
      exact hexp
    | stringType => simp only [JsonInput.expected] at hexp; cases hexp
    | boolType => simp only [JsonInput.expected] at hexp; cases hexp
    | durationType => simp only [JsonInput.expected] at hexp; cases hexp
    | invalidType => simp only [JsonInput.expected] at hexp; cases hexp

/-- C8, amended: file round trip.  Let `NewFile` succeed on a well-formed
struct and a document.  Let an entry of the document, located by
`getParameter` at the parameter `p`, be the decoded form of a JSON input that
is correctly typed for the kind of `p` (JSON string for string, JSON boolean
for bool, JSON number for float, JSON integer within the range of the type for
int and uint, duration string for duration), and let every entry located
there carry it.  If the input, when it is a JSON integer for an int or uint
parameter, has magnitude at most `2^53`, then after the call the field of the
struct at the dotted path `p.name`, nested groups included, holds the JSON
input value (for a duration the parsed span). -/
theorem file_round_trip (P : Platform) (c : Config) (params : configParameters) (data : String)
    (jsonMap : JsonMap) (root1 : Root) (i : Nat) (p : parameter) (k : String)
    (input : JsonInput) (w : Value)
    (hwf : c.wellFormed = true)
    (hp : newConfigParameters P (.pointer c) = .ok params)
    (hj : P.jsonUnmarshal data = some jsonMap)
    (hload : NewFile P (.pointer c) (.bytes data) = (root1, .ok ()))
    (hpi : params.params[i]? = some p)
    (hkv : (k, input.decode) ∈ jsonMap.flattenMap P "" [])
    (hmatch : params.getParameter P k = some i)
    (honly : ∀ kv ∈ jsonMap.flattenMap P "" [],
      params.getParameter P kv.1 = some i → kv.2 = input.decode)
    (htyped : input.expected P p.paramtype = some w)
    (hexact : ∀ n, input = .integer n → p.paramtype = .intType ∨ p.paramtype = .uintType →
      |n| ≤ 2 ^ 53) :
    root1.get (strSplit p.name '.') = some w :=
  NewFile_correctlyTyped P c params data jsonMap root1 i p k input.decode w hwf hp hj hload hpi
    hkv hmatch honly (correctlyTyped_decode htyped hexact)

/-- C8, amended, at the document `allKindsText` loaded into `allKinds`: the
field of every kind, the nested ones included, holds its JSON input. -/
theorem file_round_trip_witness :
    (NewFile allKindsPlatform (.pointer allKinds) (.bytes allKindsText)).1.get
      (strSplit "Name" '.') = some (.str "x") ∧
    (NewFile allKindsPlatform (.pointer allKinds) (.bytes allKindsText)).1.get
      (strSplit "Count" '.') = some (.int (-3)) ∧
    (NewFile allKindsPlatform (.pointer allKinds) (.bytes allKindsText)).1.get
      (strSplit "Size" '.') = some (.uint 7) ∧
    (NewFile allKindsPlatform (.pointer allKinds) (.bytes allKindsText)).1.get
      (strSplit "On" '.') = some (.bool true) ∧
    (NewFile allKindsPlatform (.pointer allKinds) (.bytes allKindsText)).1.get
      (strSplit "Wait" '.') = some (.duration 12000000) ∧
    (NewFile allKindsPlatform (.pointer allKinds) (.bytes allKindsText)).1.get
      (strSplit "Ratio" '.') = some (.float (.fin (1 / 2))) ∧
    (NewFile allKindsPlatform (.pointer allKinds) (.bytes allKindsText)).1.get
      (strSplit "Group.Level" '.') = some (.int 2) ∧
    (NewFile allKindsPlatform (.pointer allKinds) (.bytes allKindsText)).1.get
      (strSplit "Group.Tag" '.') = some (.str "Green") ∧
    strSplit "Group.Tag" '.' = ["Group", "Tag"] := by
  have hp : newConfigParameters allKindsPlatform (.pointer allKinds) = .ok allKindsParams := by
    decide!
  have hload : NewFile allKindsPlatform (.pointer allKinds) (.bytes allKindsText) =
      ((NewFile allKindsPlatform (.pointer allKinds) (.bytes allKindsText)).1, .ok ()) :=
    Prod.ext rfl (by decide!)
  have hj : allKindsPlatform.jsonUnmarshal allKindsText = some allKindsDoc := by
    simp [allKindsPlatform, docPlatform]
  have hwf : allKinds.wellFormed = true := by decide!
  exact ⟨
    file_round_trip allKindsPlatform allKinds allKindsParams allKindsText allKindsDoc
      (NewFile allKindsPlatform (.pointer allKinds) (.bytes allKindsText)).1 0
      { name := "Name", description := "a string" } "name" (.str "x") (.str "x")
      hwf hp hj hload (by decide!) (by decide!) (by decide!) (by decide!) (by decide!)
      (by intro n h; cases h),
    file_round_trip allKindsPlatform allKinds allKindsParams allKindsText allKindsDoc
      (NewFile allKindsPlatform (.pointer allKinds) (.bytes allKindsText)).1 1
      { name := "Count", paramtype := .intType, description := "an int", minvalue := "-10" }
      "count" (.integer (-3)) (.int (-3))
      hwf hp hj hload (by decide!) (by decide!) (by decide!) (by decide!) (by decide!)
      (by intro n h _; cases h; decide),
    file_round_trip allKindsPlatform allKinds allKindsParams allKindsText allKindsDoc
      (NewFile allKindsPlatform (.pointer allKinds) (.bytes allKindsText)).1 2
      { name := "Size", paramtype := .uintType, description := "a uint", defaultValue := "2",
        value := .uint 2 }
      "size" (.integer 7) (.uint 7)
      hwf hp hj hload (by decide!) (by decide!) (by decide!) (by decide!) (by decide!)
      (by intro n h _; cases h; decide),
    file_round_trip allKindsPlatform allKinds allKindsParams allKindsText allKindsDoc
      (NewFile allKindsPlatform (.pointer allKinds) (.bytes allKindsText)).1 3
      { name := "On", paramtype := .boolType, description := "a bool" }
      "on" (.bool true) (.bool true)
      hwf hp hj hload (by decide!) (by decide!) (by decide!) (by decide!) (by decide!)
      (by intro n h; cases h),
    file_round_trip allKindsPlatform allKinds allKindsParams allKindsText allKindsDoc
      (NewFile allKindsPlatform (.pointer allKinds) (.bytes allKindsText)).1 4
      { name := "Wait", paramtype := .durationType, description := "a duration",
        defaultValue := "10ns", value := .duration 10 }
      "wait" (.str "12ms") (.duration 12000000)
      hwf hp hj hload (by decide!) (by decide!) (by decide!) (by decide!) (by decide!)
      (by intro n h; cases h),
    file_round_trip allKindsPlatform allKinds allKindsParams allKindsText allKindsDoc
      (NewFile allKindsPlatform (.pointer allKinds) (.bytes allKindsText)).1 5
      { name := "Ratio", paramtype := .floatType, description := "a float" }
      "ratio" (.number (.fin (1 / 2))) (.float (.fin (1 / 2)))
      hwf hp hj hload (by decide!) (by decide!) (by decide!) (by decide!) (by decide!)
      (by intro n h; cases h),
    file_round_trip allKindsPlatform allKinds allKindsParams allKindsText allKindsDoc
      (NewFile allKindsPlatform (.pointer allKinds) (.bytes allKindsText)).1 6
      { name := "Group.Level", paramtype := .intType, description := "nested int" }
      "group.level" (.integer 2) (.int 2)
      hwf hp hj hload (by decide!) (by decide!) (by decide!) (by decide!) (by decide!)
      (by intro n h _; cases h; decide),
    file_round_trip allKindsPlatform allKinds allKindsParams allKindsText allKindsDoc
      (NewFile allKindsPlatform (.pointer allKinds) (.bytes allKindsText)).1 7
      { name := "Group.Tag", description := "nested string", options := ["red", "green"] }
      "group.tag" (.str "Green") (.str "Green")
      hwf hp hj hload (by decide!) (by decide!) (by decide!) (by decide!) (by decide!)
      (by intro n h; cases h),
    by decide⟩


/-- C8, counterexample: the struct with one field `Val int` and the document
that gives `val` the JSON integer `9007199254740993` (`2^53 + 1`, within the
range of int).  `json.Unmarshal` decodes the literal to the nearest float64,
`2^53`; `NewFile` returns no error and the field holds `9007199254740992`,
not the JSON input.  For the JSON integer `9223372036854775807` (`2^63 - 1`)
the decoded float64 is `2^63` and the field holds `-9223372036854775808` on
the reference platform. -/
theorem file_round_trip_counterexample :
    JsonInput.expected refPlatform .intType (.integer 9007199254740993) =
      some (.int 9007199254740993) ∧
    JsonInput.decode (.integer 9007199254740993) = .float (.fin 9007199254740992) ∧
    (NewFile bigIntPlatform (.pointer (.struct cfgIntVal)) (.bytes bigIntText)).2 = .ok () ∧
    (NewFile bigIntPlatform (.pointer (.struct cfgIntVal)) (.bytes bigIntText)).1.get ["Val"] =
      some (.int 9007199254740992) ∧
    JsonInput.expected refPlatform .intType (.integer 9223372036854775807) =
      some (.int 9223372036854775807) ∧
    JsonInput.decode (.integer 9223372036854775807) = .float (.fin 9223372036854775808) ∧
    (NewFile maxIntPlatform (.pointer (.struct cfgIntVal)) (.bytes maxIntText)).2 = .ok () ∧
    (NewFile maxIntPlatform (.pointer (.struct cfgIntVal)) (.bytes maxIntText)).1.get ["Val"] =
      some (.int (-9223372036854775808)) := by
  decide!

/-! ### The flag loader -/

theorem equalFoldChars_refl (P : Platform) (cs : List Char) : equalFoldChars P cs cs = true := by
  induction cs with
  | nil => rfl
  | cons c rest ih => simp [equalFoldChars, ih]

theorem equalFold_refl (P : Platform) (s : String) : equalFold P s s = true :=
  equalFoldChars_refl P s.data

theorem findParameter_self {P : Platform} {params : List parameter}
    (hpw : params.Pairwise (fun a b => equalFold P a.name b.name = false)) {i : Nat} {p : parameter}
    (hp : params[i]? = some p) : findParameter P p.name params = some i := by
  induction params generalizing i with
  | nil => simp at hp
  | cons q rest ih =>
    obtain ⟨hq, hrest⟩ := List.pairwise_cons.mp hpw
    cases i with
    | zero =>
      simp only [List.getElem?_cons_zero, Option.some.injEq] at hp
      subst hp
      simp [findParameter, equalFold_refl]
    | succ j =>
      simp only [List.getElem?_cons_succ] at hp
      have hne := hq p (List.getElem?_mem hp)
      unfold findParameter
      rw [if_neg (by simp [hne]), ih hrest hp]
      rfl

theorem register_ok {regs regs1 : List FlagReg} {r : FlagReg} (h : register regs r = .ok regs1) :
    regs1 = regs ++ [r] ∧ r.name ∉ regs.map (·.name) := by
  unfold register at h
  split at h
  · cases h
  · rename_i hany
    cases h
    refine ⟨rfl, ?_⟩
    intro hmem
    apply hany
    rw [List.any_eq_true]
    obtain ⟨x, hx, hxn⟩ := List.mem_map.mp hmem
    exact ⟨x, hx, by simp [hxn]⟩

theorem makeFlag_ok {P : Platform} {regs regs1 : List FlagReg} {p : parameter} {d : flagDef}
    (h : makeFlag P regs p = .ok (regs1, d)) :
    p.hyphenName P = .ok d.flagName ∧ d.name = p.name ∧ d.paramtype = p.paramtype ∧
    regs1.map (·.name) = regs.map (·.name) ++ [d.flagName] ∧ d.flagName ∉ regs.map (·.name) := by
  unfold makeFlag at h
  obtain ⟨flagName, h1, h2⟩ := Res.bind_eq_ok h
  simp only at h2
  split at h2
  · cases h2
  · obtain ⟨regs2, h3, h4⟩ := Res.bind_eq_ok h2
    simp only [Res.ok.injEq, Prod.mk.injEq] at h4
    obtain ⟨e1, e2⟩ := h4
    subst e1 e2
    obtain ⟨e3, hnot⟩ := register_ok h3
    subst e3
    exact ⟨h1, rfl, rfl, by simp, hnot⟩

theorem makeFlags_spec {P : Platform} (params : List parameter) (regs regs1 : List FlagReg)
    (ds : List flagDef) (h : makeFlags P regs params = .ok (regs1, ds)) :
    (∀ (i : Nat) (p : parameter), params[i]? = some p →
      ∃ d : flagDef, ds[i]? = some d ∧ p.hyphenName P = .ok d.flagName ∧ d.name = p.name ∧
        d.paramtype = p.paramtype) ∧
    regs1.map (·.name) = regs.map (·.name) ++ ds.map (·.flagName) ∧
    ((regs.map (·.name)).Nodup → (regs1.map (·.name)).Nodup) := by
  induction params generalizing regs regs1 ds with
  | nil =>
    unfold makeFlags at h
    simp only [Res.ok.injEq, Prod.mk.injEq] at h
    obtain ⟨e1, e2⟩ := h
    subst e1 e2
    exact ⟨fun i p hp => by simp at hp, by simp, fun hn => hn⟩
  | cons p rest ih =>
    unfold makeFlags at h
    obtain ⟨⟨regs2, d⟩, h1, h2⟩ := Res.bind_eq_ok h
    simp only at h2
    obtain ⟨⟨regs3, ds1⟩, h3, h4⟩ := Res.bind_eq_ok h2
    simp only [Res.ok.injEq, Prod.mk.injEq] at h4
    obtain ⟨e1, e2⟩ := h4
    subst e1 e2
    obtain ⟨a, b, c, hn2, hnot⟩ := makeFlag_ok h1
    obtain ⟨ih1, ih2, ih3⟩ := ih regs2 regs3 ds1 h3
    refine ⟨?_, ?_, ?_⟩
    · intro i q hq
      cases i with
      | zero =>
        simp only [List.getElem?_cons_zero, Option.some.injEq] at hq
        subst hq
        exact ⟨d, by simp, a, b, c⟩
      | succ j =>
        simp only [List.getElem?_cons_succ] at hq ⊢
        exact ih1 j q hq
    · rw [ih2, hn2]
      simp
    · intro hnd
      apply ih3
      rw [hn2]
      exact List.nodup_append.mpr ⟨hnd, by simp, by
        intro x hx hx2
        simp only [List.mem_singleton] at hx2
        subst hx2
        exact hnot hx⟩

theorem SetValueAsString_name (P : Platform) (p : parameter) (val : String) :
    (p.SetValueAsString P val).1.name = p.name := by
  unfold parameter.SetValueAsString
  split <;> try rfl
  all_goals (split <;> try rfl)
  split <;> rfl

theorem envLoop_spec {P : Platform} (params qs : List parameter) (h : envLoop P params = .ok qs) :
    ∀ (i : Nat) (p : parameter), params[i]? = some p →
      ∃ key, p.envName P = .ok key ∧
        qs[i]? = some (match P.lookupEnv key with
          | some val => (p.SetValueAsString P val).1
          | none => p) := by
  induction params generalizing qs with
  | nil => intro i p hp; simp at hp
  | cons p0 rest ih =>
    unfold envLoop at h
    obtain ⟨key, h1, h2⟩ := Res.bind_eq_ok h
    cases hl : P.lookupEnv key with
    | none =>
      rw [hl] at h2
      simp only at h2
      obtain ⟨qs1, h3, h4⟩ := Res.bind_eq_ok h2
      cases h4
      intro i p hp
      cases i with
      | zero =>
        simp only [List.getElem?_cons_zero, Option.some.injEq] at hp
        subst hp
        exact ⟨key, h1, by simp [hl]⟩
      | succ j =>
        simp only [List.getElem?_cons_succ] at hp ⊢
        exact ih qs1 h3 j p hp
    | some val =>
      rw [hl] at h2
      simp only at h2
      cases hs : p0.SetValueAsString P val with
      | mk p1 r1 =>
        rw [hs] at h2
        cases r1 with
        | error e => cases h2
        | panic w => cases h2
        | ok u =>
          simp only at h2
          obtain ⟨qs1, h3, h4⟩ := Res.bind_eq_ok h2
          cases h4
          intro i p hp
          cases i with
          | zero =>
            simp only [List.getElem?_cons_zero, Option.some.injEq] at hp
            subst hp
            exact ⟨key, h1, by simp [hl, hs]⟩
          | succ j =>
            simp only [List.getElem?_cons_succ] at hp ⊢
            exact ih qs1 h3 j p hp

theorem envLoop_length {P : Platform} (params qs : List parameter) (h : envLoop P params = .ok qs) :
    qs.length = params.length := by
  induction params generalizing qs with
  | nil =>
    unfold envLoop at h
    cases h
    rfl
  | cons p0 rest ih =>
    unfold envLoop at h
    obtain ⟨key, -, h2⟩ := Res.bind_eq_ok h
    split at h2
    · split at h2
      · obtain ⟨qs1, h3, h4⟩ := Res.bind_eq_ok h2
        cases h4
        simp [ih qs1 h3]
      · cases h2
      · cases h2
    · obtain ⟨qs1, h3, h4⟩ := Res.bind_eq_ok h2
      cases h4
      simp [ih qs1 h3]

theorem envLoop_names {P : Platform} (params qs : List parameter) (h : envLoop P params = .ok qs) :
    qs.map (·.name) = params.map (·.name) := by
  apply List.ext_getElem?
  intro i
  simp only [List.getElem?_map]
  cases hp : params[i]? with
  | none =>
    have : qs[i]? = none := by
      rw [List.getElem?_eq_none_iff] at hp ⊢
      rw [envLoop_length params qs h]
      exact hp
    rw [this]
  | some p =>
    obtain ⟨key, -, hq⟩ := envLoop_spec params qs h i p hp
    rw [hq]
    simp only [Option.map_some', Option.some.injEq]
    split
    · exact SetValueAsString_name P p _
    · rfl

theorem flagValue_ok {d : flagDef} {fs : FlagSet} {v : Value} (h : d.flagValue fs = .ok v) :
    v = fs.current d.flagName := by
  unfold flagDef.flagValue at h
  split at h
  · cases h
  · split at h
    · cases h; rfl
    · cases h

theorem flagLoop_get {P : Platform} {fs : FlagSet} (ds : List flagDef)
    (qs ps : List parameter) (i : Nat) (q : parameter) (x : Value)
    (h : flagLoop P fs qs ds = .ok ps)
    (hq : qs[i]? = some q)
    (hval : ∀ d ∈ ds, findParameter P d.name qs = some i → fs.current d.flagName = x) :
    ps[i]? = some (if ds.any (fun d => decide (findParameter P d.name qs = some i))
      then { q with value := x, isSet := true } else q) := by
  induction ds generalizing qs q with
  | nil =>
    unfold flagLoop at h
    cases h
    simpa using hq
  | cons d rest ih =>
    unfold flagLoop at h
    cases hf : findParameter P d.name qs with
    | none =>
      rw [hf] at h
      have := ih qs q h hq (fun d' hd' => hval d' (by simp [hd']))
      rw [this]
      have hne : ¬ ((none : Option Nat) = some i) := by simp
      simp only [List.any_cons, hf, hne, decide_False, Bool.false_or]
    | some j =>
      rw [hf] at h
      simp only at h
      cases hg : qs.get? j with
      | none =>
        have hlt := findParameter_lt hf
        rw [List.get?_eq_getElem?, List.getElem?_eq_getElem hlt] at hg
        cases hg
      | some p1 =>
        rw [hg] at h
        simp only at h
        have hg2 : qs[j]? = some p1 := by simpa using hg
        obtain ⟨v, hv1, hv2⟩ := Res.bind_eq_ok h
        have hv := flagValue_ok hv1
        cases hs : p1.SetValue v with
        | mk p2 r2 =>
          rw [hs] at hv2
          cases r2 with
          | error e => cases hv2
          | panic w => cases hv2
          | ok u =>
            simp only at hv2
            have hp2 : p2 = { p1 with value := v, isSet := true } := by
              have := @SetValue_ok p1 v (by rw [hs])
              rw [hs] at this
              exact this
            have hnames := @map_name_set qs j p1 p2 hg2 (by rw [hp2])
            have hfind : ∀ name, findParameter P name (qs.set j p2) = findParameter P name qs :=
              fun name => findParameter_congr hnames
            by_cases hji : j = i
            · subst hji
              rw [hq] at hg2
              cases hg2
              have hx := hval d (by simp) hf
              have hp1 : (qs.set j p2)[j]? = some p2 := by
                have hlt := findParameter_lt hf
                simp [hlt]
              have := ih (qs.set j p2) p2 hv2 hp1 (fun d' hd' hh =>
                hval d' (by simp [hd']) (by rw [← hfind]; exact hh))
              rw [this]
              simp only [List.any_cons, hf, decide_True, Bool.true_or, if_true]
              rw [hp2, hv, hx]
              split <;> rfl
            · have hp1 : (qs.set j p2)[i]? = some q := by
                rw [List.getElem?_set_ne hji]
                exact hq
              have := ih (qs.set j p2) q hv2 hp1 (fun d' hd' hh =>
                hval d' (by simp [hd']) (by rw [← hfind]; exact hh))
              rw [this]
              have hne : ¬ (some j = some i) := fun e => hji (Option.some.inj e)
              simp only [List.any_cons, hf, hne, decide_False, Bool.false_or, hfind]

theorem mem_flagsToSet {flagVars : List flagDef} {actual : List String} {d : flagDef} :
    d ∈ flagsToSet flagVars actual ↔
      ∃ f ∈ actual, flagVars.find? (fun x => x.flagName == f) = some d := by
  induction actual with
  | nil => simp [flagsToSet]
  | cons f rest ih =>
    unfold flagsToSet
    cases hf : flagVars.find? (fun x => x.flagName == f) with
    | none =>
      simp only [ih, List.mem_cons, exists_eq_or_imp, hf]
      simp
    | some d1 =>
      simp only [List.mem_cons, ih, exists_eq_or_imp, hf, Option.some.injEq]
      constructor
      · rintro (h | h)
        · exact Or.inl h.symm
        · exact Or.inr h
      · rintro (h | h)
        · exact Or.inl h.symm
        · exact Or.inr h

theorem find_flag_of_nodup {ds : List flagDef} (hnd : (ds.map (·.flagName)).Nodup) {i : Nat}
    {d : flagDef} (hd : ds[i]? = some d) :
    ds.find? (fun x => x.flagName == d.flagName) = some d := by
  induction ds generalizing i with
  | nil => simp at hd
  | cons d0 rest ih =>
    simp only [List.map_cons, List.nodup_cons] at hnd
    cases i with
    | zero =>
      simp only [List.getElem?_cons_zero, Option.some.injEq] at hd
      subst hd
      simp [List.find?]
    | succ j =>
      simp only [List.getElem?_cons_succ] at hd
      have hne : d0.flagName ≠ d.flagName := by
        intro e
        apply hnd.1
        rw [e]
        exact List.mem_map.mpr ⟨d, List.getElem?_mem hd, rfl⟩
      simp only [List.find?, beq_iff_eq, hne]
      have hb : (d0.flagName == d.flagName) = false := by simp [hne]
      rw [hb]
      exact ih hnd.2 hd

theorem makeFlags_length {P : Platform} (params : List parameter) (regs regs1 : List FlagReg)
    (ds : List flagDef) (h : makeFlags P regs params = .ok (regs1, ds)) :
    ds.length = params.length := by
  induction params generalizing regs regs1 ds with
  | nil =>
    unfold makeFlags at h
    simp only [Res.ok.injEq, Prod.mk.injEq] at h
    rw [← h.2]
    rfl
  | cons p rest ih =>
    unfold makeFlags at h
    obtain ⟨⟨regs2, d⟩, -, h2⟩ := Res.bind_eq_ok h
    simp only at h2
    obtain ⟨⟨regs3, ds1⟩, h3, h4⟩ := Res.bind_eq_ok h2
    simp only [Res.ok.injEq, Prod.mk.injEq] at h4
    rw [← h4.2]
    simp [ih regs2 regs3 ds1 h3]

theorem SetValueAsString_with (P : Platform) (p : parameter) (val : String) (x : Value) :
    { (p.SetValueAsString P val).1 with value := x, isSet := true } =
      { p with value := x, isSet := true } := by
  unfold parameter.SetValueAsString
  split <;> try rfl
  all_goals (split <;> try rfl)
  split <;> rfl

theorem SetValueAsString_fst (P : Platform) (p : parameter) (val : String) :
    (p.SetValueAsString P val).1 = p ∨
    ∃ w, (p.SetValueAsString P val).1 = { p with value := w, isSet := true } ∧
      toInternalType w = p.paramtype := by
  unfold parameter.SetValueAsString
  split
  · rename_i hk
    exact Or.inr ⟨_, rfl, by rw [hk]; rfl⟩
  · rename_i hk
    split
    · split
      · exact Or.inl rfl
      · exact Or.inr ⟨_, rfl, by rw [hk]; rfl⟩
    · exact Or.inl rfl
  · rename_i hk
    split
    · exact Or.inr ⟨_, rfl, by rw [hk]; rfl⟩
    · exact Or.inl rfl
  · rename_i hk
    split
    · exact Or.inr ⟨_, rfl, by rw [hk]; rfl⟩
    · exact Or.inl rfl
  · rename_i hk
    split
    · exact Or.inr ⟨_, rfl, by rw [hk]; rfl⟩
    · exact Or.inl rfl
  · rename_i hk
    split
    · exact Or.inr ⟨_, rfl, by rw [hk]; rfl⟩
    · exact Or.inl rfl
  · exact Or.inl rfl

theorem SetValueAsString_fits {P : Platform} {c : Config} {p : parameter} (val : String)
    (h : Fits P c p) : Fits P c (p.SetValueAsString P val).1 := by
  rcases SetValueAsString_fst P p val with e | ⟨w, e, hw⟩
  · rw [e]; exact h
  · rw [e]
    obtain ⟨v0, h1, h2, -⟩ := h
    exact ⟨v0, h1, h2, Or.inr hw⟩

theorem envLoop_fits {P : Platform} {c : Config} (params qs : List parameter)
    (h : envLoop P params = .ok qs) (hfit : ∀ p ∈ params, Fits P c p) :
    ∀ q ∈ qs, Fits P c q := by
  intro q hq
  obtain ⟨i, hi⟩ := List.getElem?_of_mem hq
  have hlt : i < params.length := by
    rw [← envLoop_length params qs h]
    by_contra hge
    rw [List.getElem?_eq_none (by omega)] at hi
    cases hi
  have hpi : params[i]? = some params[i] := List.getElem?_eq_getElem hlt
  obtain ⟨key, -, hqq⟩ := envLoop_spec params qs h i _ hpi
  rw [hi] at hqq
  have hp := hfit _ (List.getElem?_mem hpi)
  cases hl : P.lookupEnv key with
  | none =>
    rw [hl] at hqq
    simp only [Option.some.injEq] at hqq
    rw [hqq]
    exact hp
  | some val =>
    rw [hl] at hqq
    simp only [Option.some.injEq] at hqq
    rw [hqq]
    exact SetValueAsString_fits val hp

theorem flagLoop_inv {P : Platform} {c : Config} {fs : FlagSet} (ds : List flagDef)
    (qs ps : List parameter) (h : flagLoop P fs qs ds = .ok ps)
    (hfit : ∀ q ∈ qs, Fits P c q) :
    ps.map (·.name) = qs.map (·.name) ∧ ∀ p ∈ ps, Fits P c p := by
  induction ds generalizing qs with
  | nil =>
    unfold flagLoop at h
    cases h
    exact ⟨rfl, hfit⟩
  | cons d rest ih =>
    unfold flagLoop at h
    cases hf : findParameter P d.name qs with
    | none =>
      rw [hf] at h
      exact ih qs h hfit
    | some j =>
      rw [hf] at h
      simp only at h
      cases hg : qs.get? j with
      | none =>
        rw [hg] at h
        exact ih qs h hfit
      | some p1 =>
        rw [hg] at h
        simp only at h
        have hg2 : qs[j]? = some p1 := by simpa using hg
        obtain ⟨v, -, hv2⟩ := Res.bind_eq_ok h
        cases hs : p1.SetValue v with
        | mk p2 r2 =>
          rw [hs] at hv2
          cases r2 with
          | error e => cases hv2
          | panic w => cases hv2
          | ok u =>
            simp only at hv2
            obtain ⟨hn, hk, hval⟩ := SetValue_frame hs
            have hnames := map_name_set hg2 hn
            have hp1 : Fits P c p1 := hfit p1 (List.getElem?_mem hg2)
            have hfit1 : ∀ p ∈ qs.set j p2, Fits P c p := by
              intro p hp
              rcases List.mem_or_eq_of_mem_set hp with hp | rfl
              · exact hfit p hp
              · obtain ⟨v0, h1, h2, h3⟩ := hp1
                refine ⟨v0, by rw [hn]; exact h1, by rw [hk]; exact h2, ?_⟩
                rcases hval with e | e
                · rw [e, hk]; exact h3
                · right; rw [hk]; exact e
            obtain ⟨a, b⟩ := ih _ hv2 hfit1
            exact ⟨a.trans hnames, b⟩

/-- C3, amended: precedence law of the flag loader.  Let the parameter names
be pairwise different under `strings.EqualFold` and let the flags be made,
the command line parsed and the parameters resolved without error.  Then every
parameter finally holds: the content of its flag variable if its flag was
set on the command line; otherwise, in environment-override mode, the result
of textual assignment of its environment variable if that variable exists;
otherwise what schema construction gave it (the parsed default, or no
value).  A flag that was not set changes nothing.  When the parameters are
those of a well-formed struct, the loader leaves every value so held in the
field of the struct at the dotted path of the parameter. -/
theorem flag_precedence (P : Platform) (params : List parameter) (args : List String)
    (opt : ErrorHandling) (envOverride : Bool) (regs : List FlagReg) (flagVars : List flagDef)
    (fs : FlagSet) (ps : List parameter)
    (hnames : params.Pairwise (fun a b => equalFold P a.name b.name = false))
    (hmk : makeFlags P [] params = .ok (regs, flagVars))
    (hparse : P.flagParse opt regs args = some fs)
    (hres : resolveFlags P params args opt envOverride = .ok ps) :
    (∀ (i : Nat) (p : parameter), params[i]? = some p →
      ∃ flagName envKey, p.hyphenName P = .ok flagName ∧ p.envName P = .ok envKey ∧
        ps[i]? = some (
          if flagName ∈ fs.actual then { p with value := fs.current flagName, isSet := true }
          else if envOverride = true then
            (match P.lookupEnv envKey with
              | some val => (p.SetValueAsString P val).1
              | none => p)
          else p)) ∧
    (∀ (c : Config), c.wellFormed = true →
      newConfigParameters P (.pointer c) = .ok { params := params } →
      ∀ q ∈ ps, q.value ≠ .nil →
        (newFlagWithErrorHandling P (.pointer c) args opt envOverride).1.get
          (strSplit q.name '.') = some q.value) := by
  refine ⟨?_, ?_⟩
  rotate_left
  · intro c hwf hp q hq hnil
    obtain ⟨hfit, hpw⟩ := newConfigParameters_fits hwf hp
    simp only at hfit hpw
    -- the parameters before assignment fit the struct
    have hres2 := hres
    unfold resolveFlags at hres2
    rw [hmk] at hres2
    simp only [Res.bind, hparse] at hres2
    cases hq1 : (if envOverride = true then envLoop P params else Res.ok params) with
    | error e => rw [hq1] at hres2; cases hres2
    | panic w => rw [hq1] at hres2; cases hres2
    | ok qs =>
      rw [hq1] at hres2
      simp only at hres2
      have hqs : qs.map (·.name) = params.map (·.name) ∧ ∀ x ∈ qs, Fits P c x := by
        cases envOverride with
        | true =>
          exact ⟨envLoop_names params qs (by simpa using hq1),
            envLoop_fits params qs (by simpa using hq1) (fun x hx => (hfit x hx).1)⟩
        | false =>
          simp only [Bool.false_eq_true, if_false, Res.ok.injEq] at hq1
          rw [← hq1]
          exact ⟨rfl, fun x hx => (hfit x hx).1⟩
      obtain ⟨hpsn, hpsfit⟩ := flagLoop_inv _ qs ps hres2 hqs.2
      have hdist : ps.Pairwise fun a b => strSplit a.name '.' ≠ strSplit b.name '.' := by
        have h1 : (params.map (·.name)).Pairwise (· ≠ ·) := List.pairwise_map.mpr hpw
        rw [← hqs.1, ← hpsn] at h1
        have h2 := List.pairwise_map.mp h1
        exact h2.imp (fun hab e => hab (strSplit_injective '.' _ _ e))
      have hinv : q.paramtype ≠ .invalidType := by
        obtain ⟨v0, -, hk, hv⟩ := hpsfit q hq
        rcases hv with hv | hv
        · exact absurd hv hnil
        · intro hbad
          rw [hbad] at hv
          rw [hbad] at hk
          obtain ⟨hfit0, -⟩ := (newConfigParameters_fits hwf hp)
          have hmemn : q.name ∈ params.map (·.name) := by
            rw [← hqs.1, ← hpsn]
            exact List.mem_map.mpr ⟨q, hq, rfl⟩
          obtain ⟨p0, hp0, hp0n⟩ := List.mem_map.mp hmemn
          obtain ⟨⟨v1, hpath1, hk1, -⟩, hinv1⟩ := hfit0 p0 hp0
          obtain ⟨v0, hpath0, hk0, -⟩ := hpsfit q hq
          rw [← hp0n, hpath1] at hpath0
          simp only [Option.some.injEq, Config.leaf.injEq] at hpath0
          rw [hpath0] at hk1
          rw [hk0, hbad] at hk1
          exact hinv1 hk1.symm
      have heff := assignAll_effect P c ps hpsfit hdist c (SameKinds.refl P c) q hq hnil hinv
      have hok := (assignAll_ok P c ps hpsfit c (SameKinds.refl P c)).1
      unfold newFlagWithErrorHandling
      rw [hp]
      simp only [hres, configParameters.AssignValues]
      cases ha : assignAll P c ps with
      | mk c1 r1 =>
        rw [ha] at hok heff
        simp only at hok heff
        subst hok
        simp only [Root.get]
        exact Config.get_of_fieldByPath P _ _ _ heff
  intro i p hp
  obtain ⟨hflags, hregs, hnd⟩ := makeFlags_spec params [] regs flagVars hmk
  have hndf : (flagVars.map (·.flagName)).Nodup := by
    have := hnd (by simp)
    rw [hregs] at this
    simpa using this
  obtain ⟨d, hd, hhy, hdn, -⟩ := hflags i p hp
  have henv : p.envName P = .ok (replaceChar '-' '_' (strToUpper P d.flagName)) := by
    simp [parameter.envName, hhy]
  refine ⟨d.flagName, _, hhy, henv, ?_⟩
  -- unfold the loader
  unfold resolveFlags at hres
  rw [hmk] at hres
  simp only [Res.bind, hparse] at hres
  -- the parameters after the environment pass
  cases hq : (if envOverride = true then envLoop P params else Res.ok params) with
  | error e => rw [hq] at hres; cases hres
  | panic w => rw [hq] at hres; cases hres
  | ok qs =>
    rw [hq] at hres
    simp only at hres
    have hqnames : qs.map (·.name) = params.map (·.name) := by
      cases envOverride with
      | true => exact envLoop_names params qs (by simpa using hq)
      | false =>
        simp only [Bool.false_eq_true, if_false, Res.ok.injEq] at hq
        rw [hq]
    have hfind : ∀ name, findParameter P name qs = findParameter P name params :=
      fun name => findParameter_congr hqnames
    have hqi : qs[i]? = some (if envOverride = true then
        (match P.lookupEnv (replaceChar '-' '_' (strToUpper P d.flagName)) with
          | some val => (p.SetValueAsString P val).1
          | none => p) else p) := by
      cases envOverride with
      | true =>
        obtain ⟨key, hk, hqq⟩ := envLoop_spec params qs (by simpa using hq) i p hp
        rw [henv] at hk
        cases hk
        simpa using hqq
      | false =>
        simp only [Bool.false_eq_true, if_false, Res.ok.injEq] at hq
        rw [← hq]
        simpa using hp
    -- which flags hit the parameter at position i
    have hhit : ∀ d1 ∈ flagsToSet flagVars fs.actual,
        findParameter P d1.name qs = some i → d1 = d := by
      intro d1 hd1 hh
      obtain ⟨f, -, hf⟩ := mem_flagsToSet.mp hd1
      have hmem := List.mem_of_find?_eq_some hf
      obtain ⟨j, hj⟩ := List.getElem?_of_mem hmem
      have hjlt : j < params.length := by
        rw [← makeFlags_length params [] regs flagVars hmk]
        by_contra hge
        rw [List.getElem?_eq_none (by omega)] at hj
        cases hj
      obtain ⟨pj, hpj⟩ : ∃ pj, params[j]? = some pj := ⟨params[j], List.getElem?_eq_getElem hjlt⟩
      obtain ⟨dj, hdj, -, hdjn, -⟩ := hflags j pj hpj
      rw [hj] at hdj
      cases hdj
      rw [hfind, hdjn, findParameter_self hnames hpj] at hh
      have hji : j = i := Option.some.inj hh
      subst hji
      rw [hd] at hj
      exact (Option.some.inj hj).symm
    have hget := flagLoop_get (flagsToSet flagVars fs.actual) qs ps i _ (fs.current d.flagName)
      hres hqi (fun d1 hd1 hh => by rw [hhit d1 hd1 hh])
    rw [hget]
    have hself : findParameter P d.name qs = some i := by
      rw [hfind, hdn]
      exact findParameter_self hnames hp
    have hany : (flagsToSet flagVars fs.actual).any
        (fun d1 => decide (findParameter P d1.name qs = some i)) = decide (d.flagName ∈ fs.actual) := by
      by_cases hact : d.flagName ∈ fs.actual
      · rw [decide_eq_true hact, List.any_eq_true]
        exact ⟨d, mem_flagsToSet.mpr ⟨d.flagName, hact, find_flag_of_nodup hndf hd⟩,
          by simpa using hself⟩
      · rw [decide_eq_false hact]
        rw [Bool.eq_false_iff]
        intro hex
        rw [List.any_eq_true] at hex
        obtain ⟨d1, hd1, hh⟩ := hex
        have hh2 : findParameter P d1.name qs = some i := by simpa using hh
        have := hhit d1 hd1 hh2
        subst this
        obtain ⟨f, hfa, hf⟩ := mem_flagsToSet.mp hd1
        have := List.find?_some hf
        simp only [beq_iff_eq] at this
        exact hact (this ▸ hfa)
    rw [hany]
    by_cases hact : d.flagName ∈ fs.actual
    · simp only [decide_eq_true hact, if_true, if_pos hact]
      cases envOverride with
      | false => simp
      | true =>
        simp only [if_true]
        cases hl : P.lookupEnv (replaceChar '-' '_' (strToUpper P d.flagName)) with
        | none => rfl
        | some val => simp only [SetValueAsString_with]
    · simp only [decide_eq_false hact, if_neg hact, Bool.false_eq_true, if_false]

/-- C3, counterexample: the struct `cfgFold` has the string fields `ABc` and
`Abc`, with the flag names `a-bc` and `abc`.  On the command line `--abc=x`
only the flag of `Abc` is given.  The loader, in either mode, returns no
error; the parameter `Abc`, whose flag was given, stays unset and its field
stays empty, while `ABc`, whose flag was not given, holds "x": the lookup by
name under `strings.EqualFold` finds `ABc` first. -/
theorem flag_precedence_counterexample :
    newConfigParameters foldFlagPlatform (.pointer cfgFold) =
      .ok { params := [{ name := "ABc", description := "first" },
                       { name := "Abc", description := "second" }] } ∧
    parameter.hyphenName foldFlagPlatform { name := "ABc", description := "first" } = .ok "a-bc" ∧
    parameter.hyphenName foldFlagPlatform { name := "Abc", description := "second" } = .ok "abc" ∧
    equalFold foldFlagPlatform "ABc" "Abc" = true ∧
    resolveFlags foldFlagPlatform
      [{ name := "ABc", description := "first" }, { name := "Abc", description := "second" }]
      ["--abc=x"] .ExitOnError true =
      .ok [{ name := "ABc", description := "first", value := .str "x", isSet := true },
           { name := "Abc", description := "second" }] ∧
    (NewEnvFlag foldFlagPlatform (.pointer cfgFold) ["--abc=x"]).2 = .ok () ∧
    (NewEnvFlag foldFlagPlatform (.pointer cfgFold) ["--abc=x"]).1.get ["ABc"] = some (.str "x") ∧
    (NewEnvFlag foldFlagPlatform (.pointer cfgFold) ["--abc=x"]).1.get ["Abc"] = some (.str "") ∧
    (NewFlag foldFlagPlatform (.pointer cfgFold) ["--abc=x"]).1.get ["ABc"] = some (.str "x") ∧
    (NewFlag foldFlagPlatform (.pointer cfgFold) ["--abc=x"]).1.get ["Abc"] = some (.str "") := by
  decide!

/-- C3, amended, at the defaults `F1`, `F2`, the environment `F2=env2`,
`F3=env3` and the command line `--f3=flag3`: the parameter `F1` keeps its
default, `F2` takes the environment value and `F3` takes the flag value. -/
theorem flag_precedence_witness :
    (newFlagWithErrorHandling envFlagPlatform (.pointer cfgEnv) ["--f3=flag3"] .ExitOnError true).1.get
      (strSplit "F3" '.') = some (.str "flag3") ∧
    (newFlagWithErrorHandling envFlagPlatform (.pointer cfgEnv) ["--f3=flag3"] .ExitOnError true).1.get
      (strSplit "F2" '.') = some (.str "env2") ∧
    (newFlagWithErrorHandling envFlagPlatform (.pointer cfgEnv) ["--f3=flag3"] .ExitOnError true).1.get
      (strSplit "F1" '.') = some (.str "F1") := by
  have hnames : cfgEnvParams.Pairwise (fun a b => equalFold envFlagPlatform a.name b.name = false) := by
    decide!
  have hmk : makeFlags envFlagPlatform [] cfgEnvParams = .ok (
      [{ name := "f1", kind := .stringType, dflt := .str "F1", usage := "" },
       { name := "f2", kind := .stringType, dflt := .str "F2", usage := "" },
       { name := "f3", kind := .stringType, dflt := .str "", usage := "" }],
      [{ flagName := "f1", name := "F1", paramtype := .stringType },
       { flagName := "f2", name := "F2", paramtype := .stringType },
       { flagName := "f3", name := "F3", paramtype := .stringType }]) := by decide!
  have hres : resolveFlags envFlagPlatform cfgEnvParams ["--f3=flag3"] .ExitOnError true = .ok
      [{ name := "F1", defaultValue := "F1", value := .str "F1" },
       { name := "F2", defaultValue := "F2", value := .str "env2", isSet := true },
       { name := "F3", value := .str "flag3", isSet := true }] := by decide!
  have hp : newConfigParameters envFlagPlatform (.pointer cfgEnv) = .ok { params := cfgEnvParams } := by
    decide!
  have h := flag_precedence envFlagPlatform cfgEnvParams ["--f3=flag3"] .ExitOnError true _ _
    { actual := ["f3"],
      current := fun n => if n = "f3" then .str "flag3" else if n = "f2" then .str "F2" else .str "F1" }
    _ hnames hmk rfl hres
  exact ⟨
    h.2 cfgEnv (by decide!) hp { name := "F3", value := .str "flag3", isSet := true } (by simp) (by simp),
    h.2 cfgEnv (by decide!) hp
      { name := "F2", defaultValue := "F2", value := .str "env2", isSet := true } (by simp) (by simp),
    h.2 cfgEnv (by decide!) hp
      { name := "F1", defaultValue := "F1", value := .str "F1" } (by simp) (by simp)⟩

/-- Textual assignment is the textual parse of the specification for the
kind of the parameter, followed by the store of the parsed value. -/
theorem SetValueAsString_textualParse (P : Platform) (p : parameter) (val : String)
    (hk : p.paramtype ≠ .invalidType) :
    p.SetValueAsString P val =
      match textualParse P p.paramtype val with
      | some w => ({ p with value := w, isSet := true }, .ok ())
      | none => (p, .error (.invalidValue p.name val)) := by
  unfold parameter.SetValueAsString textualParse
  cases hp : p.paramtype
  · simp
  · cases parseInt val <;> simp
  · cases hv : parseInt val
    · simp
    · rename_i v
      by_cases h0 : v < 0
      · have h1 : ¬ (0 ≤ v) := by omega
        simp [h0, h1]
      · have h1 : 0 ≤ v := by omega
        simp [h0, h1]
  · cases parseBool val <;> simp
  · cases P.parseDuration val <;> simp
  · cases P.parseFloat val <;> simp
  · exact absurd hp hk

/-- C11: textual assignment parses the text according to the kind of the
parameter.  For the string kind the text is stored verbatim and the call
succeeds.  For every kind, when the parse fails the call returns the error
"invalid value for field <name>: <text>" and the parameter is unchanged (so
`value` and `isSet` are); when the parse succeeds with `w` the call succeeds
and the parameter is the old one with `value = w` and `isSet = true`. -/
theorem SetValueAsString_spec (P : Platform) (p : parameter) (val : String)
    (hk : p.paramtype ≠ .invalidType) :
    (p.paramtype = .stringType →
      p.SetValueAsString P val = ({ p with value := .str val, isSet := true }, .ok ())) ∧
    (textualParse P p.paramtype val = none →
      p.SetValueAsString P val = (p, .error (.invalidValue p.name val))) ∧
    (∀ w, textualParse P p.paramtype val = some w →
      p.SetValueAsString P val = ({ p with value := w, isSet := true }, .ok ())) ∧
    (∀ q e, p.SetValueAsString P val = (q, .error e) →
      e = .invalidValue p.name val ∧ q = p ∧ textualParse P p.paramtype val = none) ∧
    (∀ q, p.SetValueAsString P val = (q, .ok ()) →
      q.isSet = true ∧ textualParse P p.paramtype val = some q.value) ∧
    (p.SetValueAsString P val).2.isPanic = false := by
  have h := SetValueAsString_textualParse P p val hk
  refine ⟨?_, ?_, ?_, ?_, ?_, ?_⟩
  · intro hs
    rw [h, hs]
    rfl
  · intro hn
    rw [h, hn]
  · intro w hw
    rw [h, hw]
  · intro q e hq
    rw [h] at hq
    cases hw : textualParse P p.paramtype val
    · rw [hw] at hq
      simp only [Prod.mk.injEq, Res.error.injEq] at hq
      exact ⟨hq.2.symm, hq.1.symm, rfl⟩
    · rw [hw] at hq
      simp at hq
  · intro q hq
    rw [h] at hq
    cases hw : textualParse P p.paramtype val
    · rw [hw] at hq
      simp at hq
    · rw [hw] at hq
      simp only [Prod.mk.injEq, and_true] at hq
      subst hq
      exact ⟨rfl, rfl⟩
  · rw [h]
    cases textualParse P p.paramtype val <;> rfl

/-- C11 at the field `F0 int` of `TestEnvironmentInvalidValue`: the text
`foo` is rejected with the error naming `F0` and `foo`. -/
theorem SetValueAsString_spec_witness :
    ({ name := "F0", paramtype := .intType } : parameter).paramtype ≠ .invalidType ∧
    (textualParse refPlatform .intType "foo" = none →
      parameter.SetValueAsString refPlatform { name := "F0", paramtype := .intType } "foo" =
        ({ name := "F0", paramtype := .intType }, .error (.invalidValue "F0" "foo"))) ∧
    textualParse refPlatform .intType "foo" = none ∧
    textualParse refPlatform .intType "12" = some (.int 12) ∧
    textualParse refPlatform .uintType "-1" = none :=
  ⟨by decide,
   (SetValueAsString_spec refPlatform { name := "F0", paramtype := .intType } "foo"
      (by decide)).2.1,
   by decide!, by decide!, by decide!⟩

/-- Once the attributes of a tag have been read, `newParameter` is the final
part of the function. -/
theorem newParameter_of_loop {P : Platform} {pfx fieldName tag : String} {v : Value}
    {r : Res parameter} (hk : toInternalType v ≠ .invalidType)
    (hloop : newParameterLoop P { name := pfx ++ fieldName, paramtype := toInternalType v }
      (strSplit tag ';') = r) :
    newParameter P pfx fieldName (some tag) v = r.bind (newParameterFinish P) := by
  unfold newParameter
  simp only [hk, if_false, hloop]

/-- The final part of `newParameter` for a parameter whose bounds are empty
or numbers and whose default is not empty. -/
theorem newParameterFinish_default {P : Platform} {r : parameter}
    (hk : r.paramtype ≠ .invalidType)
    (hmin : r.minvalue = "" ∨ P.parseFloat r.minvalue ≠ none)
    (hmax : r.maxvalue = "" ∨ P.parseFloat r.maxvalue ≠ none)
    (hd : r.defaultValue ≠ "") :
    newParameterFinish P r =
      match textualParse P r.paramtype r.defaultValue with
      | some w => .ok (some { r with value := w, isSet := false })
      | none => .error (.invalidValue r.name r.defaultValue) := by
  have h1 : ¬ (r.minvalue ≠ "" ∧ P.parseFloat r.minvalue = none) := by
    rintro ⟨a, b⟩
    rcases hmin with h | h
    · exact a h
    · exact h b
  have h2 : ¬ (r.maxvalue ≠ "" ∧ P.parseFloat r.maxvalue = none) := by
    rintro ⟨a, b⟩
    rcases hmax with h | h
    · exact a h
    · exact h b
  unfold newParameterFinish
  rw [if_neg h1, if_neg h2, if_pos hd, SetValueAsString_textualParse P r r.defaultValue hk]
  cases textualParse P r.paramtype r.defaultValue <;> rfl

/-- C12: for a field of a valid kind whose attributes are read without error
to the parameter `r`, whose bounds are empty or numbers and whose default
`d = r.defaultValue` is not empty: `newParameter` succeeds if and only if
textual assignment of `d` succeeds for the kind of the field; on success the
value of the parameter is exactly the textual parse of `d` (and the other
attributes are those read); when `d` does not parse, `newParameter` itself
returns the error "invalid value for field <name>: <d>". -/
theorem default_applied (P : Platform) (pfx fieldName tag : String) (v : Value)
    (r : parameter) (hk : toInternalType v ≠ .invalidType)
    (hloop : newParameterLoop P { name := pfx ++ fieldName, paramtype := toInternalType v }
      (strSplit tag ';') = .ok r)
    (hmin : r.minvalue = "" ∨ P.parseFloat r.minvalue ≠ none)
    (hmax : r.maxvalue = "" ∨ P.parseFloat r.maxvalue ≠ none)
    (hd : r.defaultValue ≠ "") :
    ((∃ p, newParameter P pfx fieldName (some tag) v = .ok (some p)) ↔
      (r.SetValueAsString P r.defaultValue).2 = .ok ()) ∧
    (∀ p, newParameter P pfx fieldName (some tag) v = .ok (some p) →
      textualParse P (toInternalType v) r.defaultValue = some p.value ∧
      p = { r with value := p.value, isSet := false }) ∧
    (textualParse P (toInternalType v) r.defaultValue = none →
      newParameter P pfx fieldName (some tag) v =
        .error (.invalidValue (pfx ++ fieldName) r.defaultValue)) := by
  obtain ⟨hn, hp, _⟩ := newParameterLoop_frame hloop
  simp only at hn hp
  have hk2 : r.paramtype ≠ .invalidType := by rw [hp]; exact hk
  have hnew : newParameter P pfx fieldName (some tag) v =
      match textualParse P (toInternalType v) r.defaultValue with
      | some w => .ok (some { r with value := w, isSet := false })
      | none => .error (.invalidValue (pfx ++ fieldName) r.defaultValue) := by
    rw [newParameter_of_loop hk hloop]
    show newParameterFinish P r = _
    rw [newParameterFinish_default hk2 hmin hmax hd, hp, hn]
  have hset := SetValueAsString_textualParse P r r.defaultValue hk2
  rw [hp] at hset
  refine ⟨?_, ?_, ?_⟩
  · rw [hnew, hset]
    cases textualParse P (toInternalType v) r.defaultValue <;> simp
  · intro p h
    rw [hnew] at h
    cases hw : textualParse P (toInternalType v) r.defaultValue
    · rw [hw] at h
      cases h
    · rw [hw] at h
      simp only [Res.ok.injEq, Option.some.injEq] at h
      subst h
      exact ⟨rfl, rfl⟩
  · intro hnone
    rw [hnew, hnone]

/-- C12 at the field `F0 int` tagged `desc=Foo;default=Bar` of
`TestInvalidDefault`: the default `Bar` is no integer, and schema construction
itself returns the error; with the default `12` it succeeds with the value
12. -/
theorem default_applied_witness :
    (textualParse refPlatform (toInternalType (.int 0)) "Bar" = none →
      newParameter refPlatform "" "F0" (some "desc=Foo;default=Bar") (.int 0) =
        .error (.invalidValue ("" ++ "F0") "Bar")) ∧
    textualParse refPlatform (toInternalType (.int 0)) "Bar" = none ∧
    newConfigParameters refPlatform
      (.pointer (.struct (.cons "F0" (some "desc=Foo;default=Bar") (.leaf (.int 0)) .nil))) =
        .error (.invalidValue "F0" "Bar") ∧
    newParameter refPlatform "" "F0" (some "desc=Foo;default=12") (.int 0) =
      .ok (some { name := "F0", paramtype := .intType, description := "Foo",
                  defaultValue := "12", value := .int 12 }) :=
  ⟨(default_applied refPlatform "" "F0" "desc=Foo;default=Bar" (.int 0)
      { name := "F0", paramtype := .intType, description := "Foo", defaultValue := "Bar" }
      (by decide) (by decide!) (Or.inl rfl) (Or.inl rfl) (by decide)).2.2,
   by decide!, by decide!, by decide!⟩

theorem newParameterFinish_ne_none {P : Platform} {r : parameter} :
    newParameterFinish P r ≠ .ok none := by
  unfold newParameterFinish
  intro h
  split at h
  · cases h
  split at h
  · cases h
  split at h
  · split at h
    · cases h
    · cases h
    · cases h
  · cases h

theorem newParameter_ne_none {P : Platform} {pfx fieldName tag : String} {v : Value} :
    newParameter P pfx fieldName (some tag) v ≠ .ok none := by
  unfold newParameter
  intro h
  simp only at h
  split at h
  · cases h
  · obtain ⟨r, -, h2⟩ := Res.bind_eq_ok h
    exact newParameterFinish_ne_none h2

theorem Built.lift {P : Platform} {pfx n : String} {p : parameter} {l : Leaf}
    (h : Built P (pfx ++ n ++ ".") p l) :
    Built P pfx p { l with groups := n :: l.groups } := by
  unfold Built at h ⊢
  simp only [groupPfx]
  rw [← h]
  simp only [String.append_assoc]

/-- The parameters that the traversal of a struct adds are, in order, what
`newParameter` builds for the tagged leaves of the struct. -/
theorem Fields.readParameters_leaves (P : Platform) (fs : Fields) (pfx : String)
    (acc out : List parameter) (h : fs.readParameters P pfx acc = .ok out) :
    ∃ new, out = acc ++ new ∧ List.Forall₂ (Built P pfx) new (fs.taggedLeaves P) := by
  match fs with
  | .nil =>
    unfold Fields.readParameters at h
    cases h
    exact ⟨[], by simp, by simp [Fields.taggedLeaves]⟩
  | .cons n t c rest =>
    unfold Fields.readParameters at h
    unfold Fields.taggedLeaves
    split at h
    · rename_i hlow
      simp only [hlow, if_true]
      split at h
      · cases h
      · exact Fields.readParameters_leaves P rest pfx acc out h
    · rename_i hlow
      simp only [hlow]
      split at h
      · cases h
      · match c with
        | .struct fs1 =>
          simp only at h
          obtain ⟨ps1, h1, h2⟩ := Res.bind_eq_ok h
          obtain ⟨new1, e1, f1⟩ :=
            Fields.readParameters_leaves P fs1 (pfx ++ n ++ ".") acc ps1 h1
          obtain ⟨new2, e2, f2⟩ := Fields.readParameters_leaves P rest pfx ps1 out h2
          refine ⟨new1 ++ new2, by rw [e2, e1, List.append_assoc], ?_⟩
          simp only [if_false]
          refine List.rel_append ?_ f2
          rw [List.forall₂_map_right_iff]
          exact f1.imp (fun _ _ h => Built.lift h)
        | .leaf v =>
          simp only at h
          obtain ⟨param, h1, h2⟩ := Res.bind_eq_ok h
          cases t with
          | none =>
            have hnone : param = none := by
              unfold newParameter at h1
              simp only [Res.ok.injEq] at h1
              exact h1.symm
            subst hnone
            simp only at h2
            simpa using Fields.readParameters_leaves P rest pfx acc out h2
          | some tg =>
            cases param with
            | none => exact absurd h1 newParameter_ne_none
            | some q =>
              simp only at h2
              obtain ⟨new, e1, f1⟩ :=
                Fields.readParameters_leaves P rest pfx (acc ++ [q]) out h2
              refine ⟨q :: new, by rw [e1]; simp, ?_⟩
              simp only [if_false]
              refine List.Forall₂.cons ?_ f1
              unfold Built
              simpa [groupPfx] using h1

theorem forall₂_exists_right {α β : Type} {R : α → β → Prop} {l1 : List α} {l2 : List β}
    (h : List.Forall₂ R l1 l2) : ∀ a ∈ l1, ∃ b ∈ l2, R a b := by
  induction h with
  | nil => intro a ha; cases ha
  | cons hab _ ih =>
    intro a ha
    rcases List.mem_cons.mp ha with rfl | ha
    · exact ⟨_, List.mem_cons_self _ _, hab⟩
    · obtain ⟨b, hb, hr⟩ := ih a ha
      exact ⟨b, List.mem_cons_of_mem _ hb, hr⟩

theorem forall₂_exists_left {α β : Type} {R : α → β → Prop} {l1 : List α} {l2 : List β}
    (h : List.Forall₂ R l1 l2) : ∀ b ∈ l2, ∃ a ∈ l1, R a b := by
  induction h with
  | nil => intro b hb; cases hb
  | cons hab _ ih =>
    intro b hb
    rcases List.mem_cons.mp hb with rfl | hb
    · exact ⟨_, List.mem_cons_self _ _, hab⟩
    · obtain ⟨a, ha, hr⟩ := ih b hb
      exact ⟨a, List.mem_cons_of_mem _ ha, hr⟩

/-- Schema construction succeeds only on a pointer to a struct, and its
parameters are, in order, what `newParameter` builds for the tagged leaves. -/
theorem newConfigParameters_ok {P : Platform} {config : Root} {params : configParameters}
    (h : newConfigParameters P config = .ok params) :
    ∃ fs, config = .pointer (.struct fs) ∧
      List.Forall₂ (Built P "") params.params (fs.taggedLeaves P) := by
  unfold newConfigParameters at h
  split at h
  · cases h
  · cases h
  · rename_i c
    obtain ⟨ps, h1, h2⟩ := Res.bind_eq_ok h
    cases h2
    cases c with
    | leaf v =>
      unfold Config.readParameters at h1
      cases h1
    | struct fs =>
      unfold Config.readParameters at h1
      obtain ⟨new, e, f⟩ := Fields.readParameters_leaves P fs "" [] ps h1
      simp only [List.nil_append] at e
      subst e
      exact ⟨fs, rfl, f⟩

/-- What a successful `newParameter` has done: the attributes were read
without error to a parameter `r` without value, the bounds of `r` are empty or
numbers, and the result is `r` with the parsed default, if there is one. -/
theorem newParameter_ok_inv {P : Platform} {pfx fieldName tag : String} {v : Value}
    {p : parameter} (h : newParameter P pfx fieldName (some tag) v = .ok (some p)) :
    toInternalType v ≠ .invalidType ∧
    ∃ r, newParameterLoop P { name := pfx ++ fieldName, paramtype := toInternalType v }
        (strSplit tag ';') = .ok r ∧
      r.value = .nil ∧
      (r.minvalue = "" ∨ P.parseFloat r.minvalue ≠ none) ∧
      (r.maxvalue = "" ∨ P.parseFloat r.maxvalue ≠ none) ∧
      ((r.defaultValue = "" ∧ p = { r with isSet := false }) ∨
       (r.defaultValue ≠ "" ∧ ∃ w, textualParse P r.paramtype r.defaultValue = some w ∧
          p = { r with value := w, isSet := false })) := by
  have hk : toInternalType v ≠ .invalidType := by
    intro hk
    unfold newParameter at h
    simp only [hk, if_true] at h
    cases h
  refine ⟨hk, ?_⟩
  rw [newParameter_of_loop hk rfl] at h
  obtain ⟨r, h1, h2⟩ := Res.bind_eq_ok h
  obtain ⟨-, hp, hv⟩ := newParameterLoop_frame h1
  simp only at hp hv
  have hk2 : r.paramtype ≠ .invalidType := by rw [hp]; exact hk
  refine ⟨r, h1, hv, ?_⟩
  by_cases hmin : r.minvalue ≠ "" ∧ P.parseFloat r.minvalue = none
  · unfold newParameterFinish at h2
    rw [if_pos hmin] at h2
    cases h2
  by_cases hmax : r.maxvalue ≠ "" ∧ P.parseFloat r.maxvalue = none
  · unfold newParameterFinish at h2
    rw [if_neg hmin, if_pos hmax] at h2
    cases h2
  have hmin2 : r.minvalue = "" ∨ P.parseFloat r.minvalue ≠ none := by
    by_cases a : r.minvalue = ""
    · exact Or.inl a
    · exact Or.inr (fun b => hmin ⟨a, b⟩)
  have hmax2 : r.maxvalue = "" ∨ P.parseFloat r.maxvalue ≠ none := by
    by_cases a : r.maxvalue = ""
    · exact Or.inl a
    · exact Or.inr (fun b => hmax ⟨a, b⟩)
  refine ⟨hmin2, hmax2, ?_⟩
  by_cases hd : r.defaultValue = ""
  · left
    unfold newParameterFinish at h2
    rw [if_neg hmin, if_neg hmax] at h2
    rw [if_neg (fun a : r.defaultValue ≠ "" => a hd)] at h2
    simp only [Res.ok.injEq, Option.some.injEq] at h2
    exact ⟨hd, h2.symm⟩
  · right
    rw [newParameterFinish_default hk2 hmin2 hmax2 hd] at h2
    cases hw : textualParse P r.paramtype r.defaultValue
    · rw [hw] at h2
      cases h2
    · rename_i w
      rw [hw] at h2
      simp only [Res.ok.injEq, Option.some.injEq] at h2
      exact ⟨hd, w, rfl, h2.symm⟩

/-- C13, counterexample: for the struct `reqDefault` (one field `Val int`
tagged `required;default=5`) schema construction builds a parameter with the
value 5 of the default and `isSet = false`; its required check fails, and
each loader given no flag, no environment variable and no file entry returns
the error "missing required parameter: Val". -/
theorem default_sets_isSet_counterexample :
    newConfigParameters refPlatform (.pointer reqDefault) =
      .ok { params := [{ name := "Val", paramtype := .intType, defaultValue := "5",
                         value := .int 5, required := true, isSet := false }] } ∧
    parameter.validate refPlatform
      { name := "Val", paramtype := .intType, defaultValue := "5",
        value := .int 5, required := true, isSet := false } =
      .error (.missingRequired "Val") ∧
    (NewFlag noSourcePlatform (.pointer reqDefault) []).2 = .error (.missingRequired "Val") ∧
    (NewEnvFlag noSourcePlatform (.pointer reqDefault) []).2 =
      .error (.missingRequired "Val") ∧
    (NewFile noSourcePlatform (.pointer reqDefault) (.bytes "\x7b\x7d")).2 =
      .error (.missingRequired "Val") := by
  refine ⟨by decide!, by decide!, by decide!, by decide!, by decide!⟩

/-- C13, amended: after schema construction every parameter has
`isSet = false`, also one declared with a well-formed default, whose value is
the textual parse of that default; so a required parameter fails the required
check as long as no source has assigned it, whether or not it declares a
default. -/
theorem isSet_false_after_construction (P : Platform) (config : Root)
    (params : configParameters) (h : newConfigParameters P config = .ok params)
    (p : parameter) (hp : p ∈ params.params) :
    p.isSet = false ∧
    (p.defaultValue ≠ "" → textualParse P p.paramtype p.defaultValue = some p.value) ∧
    (p.defaultValue = "" → p.value = .nil) ∧
    (p.required = true → p.validate P = .error (.missingRequired p.name)) := by
  obtain ⟨fs, -, hall⟩ := newConfigParameters_ok h
  obtain ⟨l, -, hb⟩ := forall₂_exists_right hall p hp
  unfold Built at hb
  obtain ⟨-, r, -, hv, -, -, hcase⟩ := newParameter_ok_inv hb
  have hset : p.isSet = false := by
    rcases hcase with ⟨-, e⟩ | ⟨-, w, -, e⟩ <;> rw [e]
  refine ⟨hset, ?_, ?_, ?_⟩
  · intro hd
    rcases hcase with ⟨hd0, e⟩ | ⟨-, w, hw, e⟩
    · rw [e] at hd
      exact absurd hd0 hd
    · rw [e]
      exact hw
  · intro hd
    rcases hcase with ⟨-, e⟩ | ⟨hd0, w, -, e⟩
    · rw [e]
      exact hv
    · rw [e] at hd
      exact absurd hd hd0
  · intro hr
    unfold parameter.validate
    simp [hr, hset]

/-- C13, amended, at the struct `reqDefault`: the parameter of `Val` has
`isSet = false`, the value 5 of its default, and fails the required check. -/
theorem isSet_false_after_construction_witness :
    parameter.isSet
      { name := "Val", paramtype := .intType, defaultValue := "5",
        value := .int 5, required := true, isSet := false } = false ∧
    (("5" : String) ≠ "" → textualParse refPlatform .intType "5" = some (.int 5)) ∧
    (("5" : String) = "" → Value.int 5 = .nil) ∧
    (true = true → parameter.validate refPlatform
      { name := "Val", paramtype := .intType, defaultValue := "5",
        value := .int 5, required := true, isSet := false } =
      .error (.missingRequired "Val")) :=
  isSet_false_after_construction refPlatform (.pointer reqDefault)
    { params := [{ name := "Val", paramtype := .intType, defaultValue := "5",
                   value := .int 5, required := true, isSet := false }] }
    (by decide!)
    { name := "Val", paramtype := .intType, defaultValue := "5",
      value := .int 5, required := true, isSet := false }
    (List.mem_singleton.mpr rfl)

theorem numeric_of_not {k : internalType}
    (h : ¬ (k ≠ .intType ∧ k ≠ .uintType ∧ k ≠ .floatType)) : k.numeric = true := by
  cases k <;> first | rfl | exact (h (by decide)).elim

/-- What a successful step of the attribute switch tells of the key, of the
kind of the field and of the token. -/
theorem newParameterKey_ok_inv {ret r : parameter} {tv : List String} {key : String}
    (h : newParameterKey ret tv key = .ok r) :
    key ∈ knownKeys ∧
    (key = "min" ∨ key = "max" → ret.paramtype.numeric = true) ∧
    (key = "file" ∨ key = "options" → ret.paramtype = .stringType) ∧
    (key ∈ valueKeys → ∃ x, tv.get? 1 = some x ∧
      (key = "options" → strSplit x ',' ≠ [""] ∧ r.options = strSplit x ',')) := by
  unfold newParameterKey at h
  split at h
  · rename_i hk
    subst hk
    obtain ⟨x, hx, -⟩ := Res.bind_eq_ok h
    exact ⟨by decide, (fun a => absurd a (by decide)), (fun a => absurd a (by decide)), fun _ => ⟨x, index_ok hx, (fun a => absurd a (by decide))⟩⟩
  split at h
  · rename_i hk
    subst hk
    obtain ⟨x, hx, -⟩ := Res.bind_eq_ok h
    exact ⟨by decide, (fun a => absurd a (by decide)), (fun a => absurd a (by decide)), fun _ => ⟨x, index_ok hx, (fun a => absurd a (by decide))⟩⟩
  split at h
  · rename_i hk
    subst hk
    obtain ⟨x, hx, h2⟩ := Res.bind_eq_ok h
    split at h2
    · cases h2
    · rename_i hnum
      exact ⟨by decide, fun _ => numeric_of_not hnum, (fun a => absurd a (by decide)),
        fun _ => ⟨x, index_ok hx, (fun a => absurd a (by decide))⟩⟩
  split at h
  · rename_i hk
    subst hk
    obtain ⟨x, hx, h2⟩ := Res.bind_eq_ok h
    split at h2
    · cases h2
    · rename_i hnum
      exact ⟨by decide, fun _ => numeric_of_not hnum, (fun a => absurd a (by decide)),
        fun _ => ⟨x, index_ok hx, (fun a => absurd a (by decide))⟩⟩
  split at h
  · rename_i hk
    subst hk
    split at h
    · cases h
    · rename_i hs
      exact ⟨by decide, (fun a => absurd a (by decide)), fun _ => not_not.mp hs, (fun a => absurd a (by decide))⟩
  split at h
  · rename_i hk
    subst hk
    exact ⟨by decide, (fun a => absurd a (by decide)), (fun a => absurd a (by decide)), (fun a => absurd a (by decide))⟩
  split at h
  · rename_i hk
    subst hk
    split at h
    · cases h
    · rename_i hs
      obtain ⟨x, hx, h2⟩ := Res.bind_eq_ok h
      split at h2
      · cases h2
      · rename_i hne
        cases h2
        exact ⟨by decide, (fun a => absurd a (by decide)), fun _ => not_not.mp hs,
          fun _ => ⟨x, index_ok hx, fun _ => ⟨hne, rfl⟩⟩⟩
  · cases h

theorem tokenKey_of_head_empty {P : Platform} {t : String}
    (h : (strSplit t '=').head? = some "") : tokenKey P t = "" := by
  unfold tokenKey
  cases hs : strSplit t '=' with
  | nil => rw [hs] at h; cases h
  | cons a rest =>
    rw [hs] at h
    simp only [List.head?_cons, Option.some.injEq] at h
    subst h
    rfl

/-- What a successful step of the attribute loop tells of the token: at most
one `=`, and either no text before the `=` or a known key that the kind of
the field admits, with a value where the key carries one. -/
theorem newParameterAttr_ok_inv {P : Platform} {ret r : parameter} {t : String}
    (h : newParameterAttr P ret t = .ok r) :
    (strSplit t '=').length ≤ 2 ∧
    ((strSplit t '=').head? = some "" ∨
      (tokenKey P t ∈ knownKeys ∧
       (tokenKey P t = "min" ∨ tokenKey P t = "max" → ret.paramtype.numeric = true) ∧
       (tokenKey P t = "file" ∨ tokenKey P t = "options" → ret.paramtype = .stringType) ∧
       (tokenKey P t ∈ valueKeys → ∃ x, (strSplit t '=').get? 1 = some x ∧
         (tokenKey P t = "options" → strSplit x ',' ≠ [""] ∧ r.options = strSplit x ',')))) := by
  unfold newParameterAttr at h
  split at h
  · cases h
  rename_i hlen
  refine ⟨by omega, ?_⟩
  split at h
  · rename_i hh
    exact Or.inl hh
  · exact Or.inr (newParameterKey_ok_inv h)

/-- Every token of a tag whose attributes are read without error was read
without error, for a parameter of the name and kind of the field. -/
theorem newParameterLoop_ok_mem {P : Platform} {ret r : parameter} {attribs : List String}
    (h : newParameterLoop P ret attribs = .ok r) :
    ∀ t ∈ attribs, ∃ r0 r1, newParameterAttr P r0 t = .ok r1 ∧
      r0.name = ret.name ∧ r0.paramtype = ret.paramtype := by
  induction attribs generalizing ret with
  | nil => intro t ht; cases ht
  | cons v rest ih =>
    unfold newParameterLoop at h
    obtain ⟨r1, h1, h2⟩ := Res.bind_eq_ok h
    obtain ⟨a, b, -⟩ := newParameterAttr_frame h1
    intro t ht
    rcases List.mem_cons.mp ht with rfl | ht
    · exact ⟨ret, r1, h1, rfl, rfl⟩
    · obtain ⟨r0, r2, h3, a2, b2⟩ := ih h2 t ht
      exact ⟨r0, r2, h3, a2.trans a, b2.trans b⟩

theorem Res.bind_eq_panic {α β : Type} {r : Res α} {f : α → Res β} {w : String}
    (h : r.bind f = .panic w) : r = .panic w ∨ ∃ a, r = .ok a ∧ f a = .panic w := by
  cases r with
  | ok a => exact Or.inr ⟨a, rfl, h⟩
  | error e1 => simp [Res.bind] at h
  | panic w1 => left; simpa [Res.bind] using h

theorem index_of_get {tv : List String} {i : Nat} {x : String} (h : tv.get? i = some x) :
    index tv i = .ok x := by
  unfold index
  rw [h]

theorem strSplit_length_pos (s : String) (sep : Char) : 0 < (strSplit s sep).length := by
  unfold strSplit
  rw [List.length_map]
  exact List.length_pos.mpr (splitChars_ne_nil sep s.data)

/-- The attribute switch does not panic on a token that has a second piece
when the key carries a value. -/
theorem newParameterKey_no_panic {ret : parameter} {tv : List String} {key : String}
    (hv : key ∈ valueKeys → ∃ x, tv.get? 1 = some x) (w : String) :
    newParameterKey ret tv key ≠ .panic w := by
  intro h
  unfold newParameterKey at h
  split at h
  · rename_i hk
    obtain ⟨x, hx⟩ := hv (by rw [hk]; decide)
    rw [index_of_get hx] at h
    cases h
  split at h
  · rename_i hk
    obtain ⟨x, hx⟩ := hv (by rw [hk]; decide)
    rw [index_of_get hx] at h
    cases h
  split at h
  · rename_i hk
    obtain ⟨x, hx⟩ := hv (by rw [hk]; decide)
    rw [index_of_get hx] at h
    simp only [Res.bind] at h
    split at h <;> cases h
  split at h
  · rename_i hk
    obtain ⟨x, hx⟩ := hv (by rw [hk]; decide)
    rw [index_of_get hx] at h
    simp only [Res.bind] at h
    split at h <;> cases h
  split at h
  · split at h <;> cases h
  split at h
  · cases h
  split at h
  · rename_i hk
    obtain ⟨x, hx⟩ := hv (by rw [hk]; decide)
    rw [index_of_get hx] at h
    simp only [Res.bind] at h
    split at h
    · cases h
    · split at h <;> cases h
  · cases h

/-- One step of the attribute loop does not panic on a written token. -/
theorem newParameterAttr_no_panic {P : Platform} {ret : parameter} {t : String}
    (ht : tokenWritten P t = true) (w : String) : newParameterAttr P ret t ≠ .panic w := by
  intro h
  unfold newParameterAttr at h
  split at h
  · cases h
  rename_i hlen
  split at h
  · cases h
  · refine newParameterKey_no_panic ?_ w h
    intro hkey
    have hkey1 : tokenKey P t ∈ valueKeys := hkey
    have hkey2 : valueKeys.contains (tokenKey P t) = true := by
      exact List.elem_eq_true_of_mem hkey1
    unfold tokenWritten at ht
    simp only [hkey2, Bool.not_true, Bool.or_false, decide_eq_true_eq] at ht
    have hpos := strSplit_length_pos t '='
    have h2 : (strSplit t '=').length = 2 := by omega
    match hs : strSplit t '=' with
    | [] => rw [hs] at h2; cases h2
    | [_] => rw [hs] at h2; cases h2
    | a :: b :: _ => exact ⟨b, rfl⟩

theorem newParameterLoop_no_panic {P : Platform} {ret : parameter} {attribs : List String}
    (ht : ∀ t ∈ attribs, tokenWritten P t = true) (w : String) :
    newParameterLoop P ret attribs ≠ .panic w := by
  induction attribs generalizing ret with
  | nil =>
    unfold newParameterLoop
    intro h
    cases h
  | cons v rest ih =>
    unfold newParameterLoop
    intro h
    rcases Res.bind_eq_panic h with h1 | ⟨r, -, h2⟩
    · exact newParameterAttr_no_panic (ht v (List.mem_cons_self _ _)) w h1
    · exact ih (fun t h => ht t (List.mem_cons_of_mem _ h)) h2

theorem SetValueAsString_no_panic (P : Platform) (p : parameter) (val w : String) :
    (p.SetValueAsString P val).2 ≠ .panic w := by
  unfold parameter.SetValueAsString
  intro h
  split at h
  · cases h
  · split at h
    · split at h <;> cases h
    · cases h
  · split at h <;> cases h
  · split at h <;> cases h
  · split at h <;> cases h
  · split at h <;> cases h
  · cases h

theorem newParameterFinish_no_panic (P : Platform) (r : parameter) (w : String) :
    newParameterFinish P r ≠ .panic w := by
  unfold newParameterFinish
  intro h
  split at h
  · cases h
  split at h
  · cases h
  split at h
  · split at h
    · cases h
    · cases h
    · rename_i heq
      cases h
      have := SetValueAsString_no_panic P r r.defaultValue w
      rw [heq] at this
      exact this rfl
  · cases h

/-- Function `newParameter` does not panic on a tag in which every attribute
that carries a value is written `key=value`. -/
theorem newParameter_no_panic {P : Platform} {pfx fieldName : String} {tag : String}
    {v : Value} (ht : tagWritten P tag = true) (w : String) :
    newParameter P pfx fieldName (some tag) v ≠ .panic w := by
  unfold newParameter
  intro h
  simp only at h
  split at h
  · cases h
  · unfold tagWritten at ht
    rw [List.all_eq_true] at ht
    rcases Res.bind_eq_panic h with h1 | ⟨r, -, h2⟩
    · exact newParameterLoop_no_panic ht w h1
    · exact newParameterFinish_no_panic P r w h2

/-- The traversal of a struct does not panic when every tag it meets is
written with `key=value` for the keys that carry a value. -/
theorem Fields.readParameters_no_panic (P : Platform) (fs : Fields) (pfx : String)
    (acc : List parameter) (ht : ∀ l ∈ fs.taggedLeaves P, tagWritten P l.tag = true)
    (w : String) : fs.readParameters P pfx acc ≠ .panic w := by
  match fs with
  | .nil =>
    unfold Fields.readParameters
    intro h
    cases h
  | .cons n t c rest =>
    unfold Fields.taggedLeaves at ht
    unfold Fields.readParameters
    intro h
    split at h
    · rename_i hlow
      simp only [hlow, if_true] at ht
      split at h
      · cases h
      · exact Fields.readParameters_no_panic P rest pfx acc ht w h
    · rename_i hlow
      simp only [hlow, Bool.false_eq_true, if_false] at ht
      split at h
      · cases h
      · match c with
        | .struct fs1 =>
          simp only at h
          rcases Res.bind_eq_panic h with h1 | ⟨ps, -, h2⟩
          · refine Fields.readParameters_no_panic P fs1 (pfx ++ n ++ ".") acc ?_ w h1
            intro l hl
            exact ht { l with groups := n :: l.groups }
              (List.mem_append.mpr (Or.inl (List.mem_map.mpr ⟨l, hl, rfl⟩)))
          · exact Fields.readParameters_no_panic P rest pfx ps
              (fun l hl => ht l (List.mem_append.mpr (Or.inr hl))) w h2
        | .leaf v =>
          simp only at h
          cases t with
          | none =>
            rcases Res.bind_eq_panic h with h1 | ⟨param, -, h2⟩
            · unfold newParameter at h1
              cases h1
            · cases param with
              | none => exact Fields.readParameters_no_panic P rest pfx acc ht w h2
              | some q => exact Fields.readParameters_no_panic P rest pfx (acc ++ [q]) ht w h2
          | some tg =>
            have hrest : ∀ l ∈ rest.taggedLeaves P, tagWritten P l.tag = true :=
              fun l hl => ht l (List.mem_cons_of_mem _ hl)
            rcases Res.bind_eq_panic h with h1 | ⟨param, -, h2⟩
            · exact newParameter_no_panic (ht ⟨[], n, tg, v⟩ (List.mem_cons_self _ _)) w h1
            · cases param with
              | none => exact Fields.readParameters_no_panic P rest pfx acc hrest w h2
              | some q =>
                exact Fields.readParameters_no_panic P rest pfx (acc ++ [q]) hrest w h2

/-- Schema construction does not panic when every tag it meets is written
with `key=value` for the keys that carry a value. -/
theorem newConfigParameters_no_panic (P : Platform) (config : Root)
    (ht : ∀ l ∈ config.taggedLeaves P, tagWritten P l.tag = true) (w : String) :
    newConfigParameters P config ≠ .panic w := by
  unfold newConfigParameters
  intro h
  split at h
  · cases h
  · cases h
  · rename_i c
    rcases Res.bind_eq_panic h with h1 | ⟨ps, -, h2⟩
    · cases c with
      | leaf v =>
        unfold Config.readParameters at h1
        cases h1
      | struct fs =>
        unfold Config.readParameters at h1
        exact Fields.readParameters_no_panic P fs "" [] ht w h1
    · cases h2

/-- An outcome that is neither a success nor a panic is an error. -/
theorem Res.error_of_not {α : Type} {r : Res α} (hok : ∀ a, r ≠ .ok a)
    (hpanic : ∀ w, r ≠ .panic w) : ∃ e, r = .error e := by
  cases r with
  | ok a => exact absurd rfl (hok a)
  | error e => exact ⟨e, rfl⟩
  | panic w => exact absurd rfl (hpanic w)

/-- An error of schema construction is what every loader returns, whatever
the reader, the command line and the environment are, and the struct behind
`config` is unchanged. -/
theorem loaders_schema_error {P : Platform} {config : Root} {e : Err}
    (h : newConfigParameters P config = .error e) :
    (∀ reader, NewFile P config reader = (config, .error e)) ∧
    (∀ args opt env, newFlagWithErrorHandling P config args opt env = (config, .error e)) ∧
    (∀ args, NewFlag P config args = (config, .error e)) ∧
    (∀ args, NewEnvFlag P config args = (config, .error e)) := by
  have h2 : ∀ args opt env,
      newFlagWithErrorHandling P config args opt env = (config, .error e) := by
    intro args opt env
    unfold newFlagWithErrorHandling
    rw [h]
  refine ⟨?_, h2, fun args => h2 args _ _, fun args => h2 args _ _⟩
  intro reader
  unfold NewFile
  rw [h]

/-- When schema construction succeeds, every attribute token of every tagged
leaf was read without error for a parameter of the kind of the leaf. -/
theorem leaf_token_ok {P : Platform} {config : Root} {params : configParameters}
    (h : newConfigParameters P config = .ok params) {l : Leaf}
    (hl : l ∈ config.taggedLeaves P) {t : String} (ht : t ∈ strSplit l.tag ';') :
    ∃ r0 r1, newParameterAttr P r0 t = .ok r1 ∧ r0.paramtype = toInternalType l.value ∧
      r0.name = groupPfx l.groups ++ l.name := by
  obtain ⟨fs, hc, hall⟩ := newConfigParameters_ok h
  subst hc
  obtain ⟨p, -, hb⟩ := forall₂_exists_left hall l hl
  unfold Built at hb
  obtain ⟨-, r, hloop, -⟩ := newParameter_ok_inv hb
  obtain ⟨r0, r1, h1, hn, hp⟩ := newParameterLoop_ok_mem hloop t ht
  refine ⟨r0, r1, h1, hp, ?_⟩
  rw [hn]
  simp

theorem tokenKey_head_ne {P : Platform} {t : String} (h : tokenKey P t ≠ "") :
    (strSplit t '=').head? ≠ some "" :=
  fun hh => h (tokenKey_of_head_empty hh)

/-- The attribute loop stores the text after `=` of a `min` or `max` token
of a numeric field. -/
theorem newParameterAttr_bound (P : Platform) (ret : parameter) (t k x : String)
    (hs : strSplit t '=' = [k, x]) (hnum : ret.paramtype.numeric = true) :
    (tokenKey P t = "min" → newParameterAttr P ret t = .ok { ret with minvalue := x }) ∧
    (tokenKey P t = "max" → newParameterAttr P ret t = .ok { ret with maxvalue := x }) := by
  have hlen2 : ¬ (2 < (strSplit t '=').length) := by rw [hs]; simp
  have hx : index (strSplit t '=') 1 = .ok x := by rw [hs]; rfl
  have hkey : tokenKey P t = strToLower P (trimSpace P ((strSplit t '=').headD "")) := rfl
  have hn : ¬ (ret.paramtype ≠ .intType ∧ ret.paramtype ≠ .uintType ∧
      ret.paramtype ≠ .floatType) := by
    cases hp : ret.paramtype <;> rw [hp] at hnum <;> first | decide | cases hnum
  refine ⟨?_, ?_⟩
  · intro hk
    have hne := tokenKey_head_ne (P := P) (t := t) (by rw [hk]; decide)
    unfold newParameterAttr
    rw [if_neg hlen2, if_neg hne, ← hkey, hk]
    unfold newParameterKey
    rw [if_neg (show ("min" : String) ≠ "desc" by decide),
      if_neg (show ("min" : String) ≠ "default" by decide), if_pos rfl, hx]
    simp only [Res.bind]
    rw [if_neg hn]
  · intro hk
    have hne := tokenKey_head_ne (P := P) (t := t) (by rw [hk]; decide)
    unfold newParameterAttr
    rw [if_neg hlen2, if_neg hne, ← hkey, hk]
    unfold newParameterKey
    rw [if_neg (show ("max" : String) ≠ "desc" by decide),
      if_neg (show ("max" : String) ≠ "default" by decide),
      if_neg (show ("max" : String) ≠ "min" by decide), if_pos rfl, hx]
    simp only [Res.bind]
    rw [if_neg hn]

/-- C15, counterexample: an int field tagged `desc=foo;min=` (a `min`
attribute written with an empty value) is accepted by schema construction,
with no minimum, and the file loader succeeds on it; a first `min=zero` that
a later `min=5` overrides is accepted too. -/
theorem empty_bound_counterexample :
    newParameter refPlatform "" "Val" (some "desc=foo;min=") (.int 0) =
      .ok (some { name := "Val", paramtype := .intType, description := "foo" }) ∧
    newConfigParameters refPlatform
      (.pointer (.struct (.cons "Val" (some "desc=foo;min=") (.leaf (.int 0)) .nil))) =
      .ok { params := [{ name := "Val", paramtype := .intType, description := "foo" }] } ∧
    (NewFile noSourcePlatform
      (.pointer (.struct (.cons "Val" (some "desc=foo;min=") (.leaf (.int 0)) .nil)))
      (.bytes "\x7b\x7d")).2 = .ok () ∧
    refPlatform.parseFloat "" = none ∧
    newParameter refPlatform "" "Val" (some "min=zero;min=5") (.int 0) =
      .ok (some { name := "Val", paramtype := .intType, minvalue := "5" }) := by
  refine ⟨by decide!, by decide!, by decide!, by decide!, by decide!⟩

/-- C15, amended: the attribute loop stores the text after `=` of a `min` or
`max` token of a numeric field, a later token replacing an earlier one.  For
a field whose attributes are read without error to the parameter `r`: if the
minimum text of `r` is not empty and is no number, `newParameter` returns the
error "invalid min value for field <name>"; otherwise, if the maximum text is
not empty and is no number, it returns "invalid max value for field <name>".
An empty text is no bound and is accepted.  So every parameter that schema
construction builds has a minimum text and a maximum text that are empty or
numbers. -/
theorem bounds_parse (P : Platform) :
    (∀ (ret : parameter) (t k x : String), strSplit t '=' = [k, x] →
      ret.paramtype.numeric = true →
      (tokenKey P t = "min" → newParameterAttr P ret t = .ok { ret with minvalue := x }) ∧
      (tokenKey P t = "max" → newParameterAttr P ret t = .ok { ret with maxvalue := x })) ∧
    (∀ (pfx fieldName tag : String) (v : Value) (r : parameter),
      toInternalType v ≠ .invalidType →
      newParameterLoop P { name := pfx ++ fieldName, paramtype := toInternalType v }
        (strSplit tag ';') = .ok r →
      (r.minvalue ≠ "" → P.parseFloat r.minvalue = none →
        newParameter P pfx fieldName (some tag) v = .error (.invalidMin (pfx ++ fieldName))) ∧
      ((r.minvalue = "" ∨ P.parseFloat r.minvalue ≠ none) →
        r.maxvalue ≠ "" → P.parseFloat r.maxvalue = none →
        newParameter P pfx fieldName (some tag) v =
          .error (.invalidMax (pfx ++ fieldName)))) ∧
    (∀ (config : Root) (params : configParameters),
      newConfigParameters P config = .ok params →
      ∀ p ∈ params.params,
        (p.minvalue = "" ∨ P.parseFloat p.minvalue ≠ none) ∧
        (p.maxvalue = "" ∨ P.parseFloat p.maxvalue ≠ none)) := by
  refine ⟨?_, ?_, ?_⟩
  · intro ret t k x hs hnum
    exact newParameterAttr_bound P ret t k x hs hnum
  · intro pfx fieldName tag v r hk hloop
    obtain ⟨hn, -, -⟩ := newParameterLoop_frame hloop
    simp only at hn
    refine ⟨?_, ?_⟩
    · intro h1 h2
      rw [newParameter_of_loop hk hloop]
      show newParameterFinish P r = _
      unfold newParameterFinish
      rw [if_pos ⟨h1, h2⟩, hn]
    · intro h0 h1 h2
      have hmin : ¬ (r.minvalue ≠ "" ∧ P.parseFloat r.minvalue = none) := by
        rintro ⟨a, b⟩
        rcases h0 with h | h
        · exact a h
        · exact h b
      rw [newParameter_of_loop hk hloop]
      show newParameterFinish P r = _
      unfold newParameterFinish
      rw [if_neg hmin, if_pos ⟨h1, h2⟩, hn]
  · intro config params h p hp
    obtain ⟨fs, -, hall⟩ := newConfigParameters_ok h
    obtain ⟨l, -, hb⟩ := forall₂_exists_right hall p hp
    unfold Built at hb
    obtain ⟨-, r, -, -, hmin, hmax, hcase⟩ := newParameter_ok_inv hb
    rcases hcase with ⟨-, e⟩ | ⟨-, w, -, e⟩ <;> rw [e] <;> exact ⟨hmin, hmax⟩

/-- C15, amended, at the fields of `TestInvalidMinMax`: `min=zero` on an int
field gives the min error and `max=one` the max error. -/
theorem bounds_parse_witness :
    (("zero" : String) ≠ "" → refPlatform.parseFloat "zero" = none →
      newParameter refPlatform "" "Val" (some "desc=foo;min=zero") (.int 0) =
        .error (.invalidMin ("" ++ "Val"))) ∧
    refPlatform.parseFloat "zero" = none ∧
    newParameter refPlatform "" "Val" (some "desc=foo;max=one") (.int 0) =
      .error (.invalidMax "Val") ∧
    newParameter refPlatform "" "Val" (some "desc=foo;min=1;max=9") (.int 0) =
      .ok (some { name := "Val", paramtype := .intType, description := "foo",
                  minvalue := "1", maxvalue := "9" }) :=
  ⟨((bounds_parse refPlatform).2.1 "" "Val" "desc=foo;min=zero" (.int 0)
      { name := "Val", paramtype := .intType, description := "foo", minvalue := "zero" }
      (by decide) (by decide!)).1,
   by decide!, by decide!, by decide!⟩

theorem strSplit_eq_empty_iff (x : String) (sep : Char) : strSplit x sep = [""] ↔ x = "" := by
  constructor
  · intro h
    exact strSplit_injective sep x "" (h.trans rfl)
  · intro h
    subst h
    rfl

/-- The attribute switch leaves the option list alone or sets it to a list
that is not the single empty entry. -/
theorem newParameterKey_options {ret r : parameter} {tv : List String} {key : String}
    (h : newParameterKey ret tv key = .ok r) (h0 : ret.options ≠ [""]) :
    r.options ≠ [""] := by
  unfold newParameterKey at h
  split at h
  · obtain ⟨x, -, h2⟩ := Res.bind_eq_ok h
    cases h2
    exact h0
  split at h
  · obtain ⟨x, -, h2⟩ := Res.bind_eq_ok h
    cases h2
    exact h0
  split at h
  · obtain ⟨x, -, h2⟩ := Res.bind_eq_ok h
    split at h2
    · cases h2
    · cases h2
      exact h0
  split at h
  · obtain ⟨x, -, h2⟩ := Res.bind_eq_ok h
    split at h2
    · cases h2
    · cases h2
      exact h0
  split at h
  · split at h
    · cases h
    · cases h
      exact h0
  split at h
  · cases h
    exact h0
  split at h
  · split at h
    · cases h
    · obtain ⟨x, -, h2⟩ := Res.bind_eq_ok h
      split at h2
      · cases h2
      · rename_i hne
        cases h2
        exact hne
  · cases h

theorem newParameterLoop_options {P : Platform} {ret r : parameter} {attribs : List String}
    (h : newParameterLoop P ret attribs = .ok r) (h0 : ret.options ≠ [""]) :
    r.options ≠ [""] := by
  induction attribs generalizing ret with
  | nil =>
    unfold newParameterLoop at h
    cases h
    exact h0
  | cons v rest ih =>
    unfold newParameterLoop at h
    obtain ⟨r1, h1, h2⟩ := Res.bind_eq_ok h
    refine ih h2 ?_
    unfold newParameterAttr at h1
    split at h1
    · cases h1
    split at h1
    · cases h1
      exact h0
    · exact newParameterKey_options h1 h0

/-- C16, counterexample: a string field tagged `desc=foo;options=,` is
accepted by schema construction, with the two empty options that the split of
the text `,` gives, none of which is a non-empty entry. -/
theorem empty_options_counterexample :
    newParameter refPlatform "" "Val" (some "desc=foo;options=,") (.str "") =
      .ok (some { name := "Val", paramtype := .stringType, description := "foo",
                  options := ["", ""] }) ∧
    newConfigParameters refPlatform
      (.pointer (.struct (.cons "Val" (some "desc=foo;options=,") (.leaf (.str "")) .nil))) =
      .ok { params := [{ name := "Val", paramtype := .stringType, description := "foo",
                         options := ["", ""] }] } ∧
    strSplit "," ',' = ["", ""] ∧
    (∀ o ∈ strSplit "," ',', o = "") := by
  refine ⟨by decide!, by decide!, by decide!, by decide!⟩

/-- C16, amended: for a string field, an `options` token written `options=x`
is rejected with the error "field <name> does not contain any options"
exactly when the text `x` is empty; for every other text the option list
becomes the comma-split of `x`, empty entries included.  So no parameter that
schema construction builds has the single empty entry as its option list. -/
theorem options_text_nonempty (P : Platform) :
    (∀ (ret : parameter) (t k x : String), strSplit t '=' = [k, x] →
      tokenKey P t = "options" → ret.paramtype = .stringType →
      (x = "" → newParameterAttr P ret t = .error (.noOptions ret.name)) ∧
      (x ≠ "" → newParameterAttr P ret t = .ok { ret with options := strSplit x ',' })) ∧
    (∀ (config : Root) (params : configParameters),
      newConfigParameters P config = .ok params →
      ∀ p ∈ params.params, p.options ≠ [""]) := by
  refine ⟨?_, ?_⟩
  · intro ret t k x hs hk hstr
    have hlen2 : ¬ (2 < (strSplit t '=').length) := by rw [hs]; simp
    have hx : index (strSplit t '=') 1 = .ok x := by rw [hs]; rfl
    have hkey : tokenKey P t = strToLower P (trimSpace P ((strSplit t '=').headD "")) := rfl
    have hne := tokenKey_head_ne (P := P) (t := t) (by rw [hk]; decide)
    have hstr2 : ¬ (ret.paramtype ≠ .stringType) := not_not.mpr hstr
    have hnew : newParameterAttr P ret t =
        if strSplit x ',' = [""] then .error (.noOptions ret.name)
        else .ok { ret with options := strSplit x ',' } := by
      unfold newParameterAttr
      rw [if_neg hlen2, if_neg hne, ← hkey, hk]
      unfold newParameterKey
      rw [if_neg (show ("options" : String) ≠ "desc" by decide),
        if_neg (show ("options" : String) ≠ "default" by decide),
        if_neg (show ("options" : String) ≠ "min" by decide),
        if_neg (show ("options" : String) ≠ "max" by decide),
        if_neg (show ("options" : String) ≠ "file" by decide),
        if_neg (show ("options" : String) ≠ "required" by decide),
        if_pos rfl, if_neg hstr2, hx]
      rfl
    refine ⟨?_, ?_⟩
    · intro h
      rw [hnew, if_pos ((strSplit_eq_empty_iff x ',').mpr h)]
    · intro h
      rw [hnew, if_neg (fun a => h ((strSplit_eq_empty_iff x ',').mp a))]
  · intro config params h p hp
    obtain ⟨fs, -, hall⟩ := newConfigParameters_ok h
    obtain ⟨l, -, hb⟩ := forall₂_exists_right hall p hp
    unfold Built at hb
    obtain ⟨-, r, hloop, -, -, -, hcase⟩ := newParameter_ok_inv hb
    have hr : r.options ≠ [""] := newParameterLoop_options hloop (by simp)
    rcases hcase with ⟨-, e⟩ | ⟨-, w, -, e⟩ <;> rw [e] <;> exact hr

/-- C16, amended, at the field `Val string` of `TestInvalidOptions`:
`options=` is rejected, `options=a,B,C,d` gives the four options. -/
theorem options_text_nonempty_witness :
    ((("" : String) = "" →
      newParameterAttr refPlatform { name := "Val" } "options=" =
        .error (.noOptions "Val")) ∧
     (("" : String) ≠ "" →
      newParameterAttr refPlatform { name := "Val" } "options=" =
        .ok { name := "Val", options := strSplit "" ',' })) ∧
    newConfigParameters refPlatform
      (.pointer (.struct (.cons "Val" (some "desc=foo;options=") (.leaf (.str "")) .nil))) =
      .error (.noOptions "Val") ∧
    newParameter refPlatform "" "Val" (some "desc=foo;options=a,B,C,d") (.str "") =
      .ok (some { name := "Val", description := "foo", options := ["a", "B", "C", "d"] }) :=
  ⟨(options_text_nonempty refPlatform).1 { name := "Val" } "options=" "options" ""
      (by decide!) (by decide!) rfl,
   by decide!, by decide!⟩

/-- Every error of the attribute switch names the field. -/
theorem newParameterKey_error_field {ret : parameter} {tv : List String} {key : String}
    {e : Err} (h : newParameterKey ret tv key = .error e) : e.field = some ret.name := by
  unfold newParameterKey at h
  have hidx : ∀ e1, index tv 1 ≠ .error e1 := by
    intro e1 h1
    unfold index at h1
    split at h1 <;> cases h1
  split at h
  · rcases Res.bind_eq_error h with h1 | ⟨x, -, h2⟩
    · exact absurd h1 (hidx e)
    · cases h2
  split at h
  · rcases Res.bind_eq_error h with h1 | ⟨x, -, h2⟩
    · exact absurd h1 (hidx e)
    · cases h2
  split at h
  · rcases Res.bind_eq_error h with h1 | ⟨x, -, h2⟩
    · exact absurd h1 (hidx e)
    · split at h2
      · cases h2
        rfl
      · cases h2
  split at h
  · rcases Res.bind_eq_error h with h1 | ⟨x, -, h2⟩
    · exact absurd h1 (hidx e)
    · split at h2
      · cases h2
        rfl
      · cases h2
  split at h
  · split at h
    · cases h
      rfl
    · cases h
  split at h
  · cases h
  split at h
  · split at h
    · cases h
      rfl
    · rcases Res.bind_eq_error h with h1 | ⟨x, -, h2⟩
      · exact absurd h1 (hidx e)
      · split at h2
        · cases h2
          rfl
        · cases h2
  · cases h
    rfl

theorem newParameterAttr_error_field {P : Platform} {ret : parameter} {t : String} {e : Err}
    (h : newParameterAttr P ret t = .error e) : e.field = some ret.name := by
  unfold newParameterAttr at h
  split at h
  · cases h
    rfl
  split at h
  · cases h
  · exact newParameterKey_error_field h

theorem newParameterLoop_error_field {P : Platform} {ret : parameter}
    {attribs : List String} {e : Err} (h : newParameterLoop P ret attribs = .error e) :
    e.field = some ret.name := by
  induction attribs generalizing ret with
  | nil =>
    unfold newParameterLoop at h
    cases h
  | cons v rest ih =>
    unfold newParameterLoop at h
    rcases Res.bind_eq_error h with h1 | ⟨r1, h1, h2⟩
    · exact newParameterAttr_error_field h1
    · obtain ⟨a, -, -⟩ := newParameterAttr_frame h1
      rw [ih h2, a]

/-- Every error of `newParameter` names the field: its message carries the
name `pfx ++ fieldName`. -/
theorem newParameter_error_field {P : Platform} {pfx fieldName tag : String} {v : Value}
    {e : Err} (h : newParameter P pfx fieldName (some tag) v = .error e) :
    e.field = some (pfx ++ fieldName) := by
  by_cases hk : toInternalType v = .invalidType
  · unfold newParameter at h
    simp only [hk, if_true] at h
    cases h
    rfl
  rw [newParameter_of_loop hk rfl] at h
  rcases Res.bind_eq_error h with h1 | ⟨r, h1, h2⟩
  · exact newParameterLoop_error_field h1
  · obtain ⟨hn, hp, -⟩ := newParameterLoop_frame h1
    simp only at hn hp
    have hk2 : r.paramtype ≠ .invalidType := by rw [hp]; exact hk
    unfold newParameterFinish at h2
    split at h2
    · cases h2
      exact congrArg some hn
    split at h2
    · cases h2
      exact congrArg some hn
    split at h2
    · rw [SetValueAsString_textualParse P r r.defaultValue hk2] at h2
      cases hw : textualParse P r.paramtype r.defaultValue
      · rw [hw] at h2
        simp only at h2
        cases h2
        exact congrArg some hn
      · rw [hw] at h2
        simp only at h2
        cases h2
    · cases h2

/-- The errors of the attribute loop for a token with more than one `=` and
for a token with an unknown key. -/
theorem newParameterAttr_offending (P : Platform) (ret : parameter) (t : String) :
    (2 < (strSplit t '=').length →
      newParameterAttr P ret t = .error (.invalidFormat ret.name t)) ∧
    ((strSplit t '=').length ≤ 2 → (strSplit t '=').head? ≠ some "" →
      tokenKey P t ∉ knownKeys →
      newParameterAttr P ret t = .error (.invalidTags ret.name)) := by
  refine ⟨?_, ?_⟩
  · intro h
    unfold newParameterAttr
    rw [if_pos h]
  · intro hlen hne hk
    have hlen2 : ¬ (2 < (strSplit t '=').length) := by omega
    have hkey : tokenKey P t = strToLower P (trimSpace P ((strSplit t '=').headD "")) := rfl
    have k1 : tokenKey P t ≠ "desc" := fun a => hk (by rw [a]; decide)
    have k2 : tokenKey P t ≠ "default" := fun a => hk (by rw [a]; decide)
    have k3 : tokenKey P t ≠ "min" := fun a => hk (by rw [a]; decide)
    have k4 : tokenKey P t ≠ "max" := fun a => hk (by rw [a]; decide)
    have k5 : tokenKey P t ≠ "file" := fun a => hk (by rw [a]; decide)
    have k6 : tokenKey P t ≠ "required" := fun a => hk (by rw [a]; decide)
    have k7 : tokenKey P t ≠ "options" := fun a => hk (by rw [a]; decide)
    unfold newParameterAttr
    rw [if_neg hlen2, if_neg hne, ← hkey]
    unfold newParameterKey
    rw [if_neg k1, if_neg k2, if_neg k3, if_neg k4, if_neg k5, if_neg k6, if_neg k7]

/-- C17, counterexample: the token `=1` has the empty key, which is none of
desc, default, min, max, file, required and options, and exactly one `=`;
the tag `=1` is accepted by `newParameter` and by schema construction, the
token being skipped, and so is the empty token that a trailing `;` leaves. -/
theorem empty_key_counterexample :
    tokenKey refPlatform "=1" = "" ∧
    tokenKey refPlatform "=1" ∉ knownKeys ∧
    (strSplit "=1" '=').length = 2 ∧
    newParameter refPlatform "" "F1" (some "=1") (.str "") = .ok (some { name := "F1" }) ∧
    newConfigParameters refPlatform
      (.pointer (.struct (.cons "F1" (some "=1") (.leaf (.str "")) .nil))) =
      .ok { params := [{ name := "F1" }] } ∧
    newParameter refPlatform "" "F1" (some "desc=a;=1;") (.str "") =
      .ok (some { name := "F1", description := "a" }) := by
  refine ⟨by decide!, by decide!, by decide!, by decide!, by decide!, by decide!⟩

/-- C17, amended: in the attribute loop a token with more than one `=` gives
the error "invalid format for parameter <name>: <token>"; a token with at
most one `=` and no text before it (the empty token, or one that starts with
`=`) is skipped; a token with at most one `=`, a non-empty text before it
and a key other than desc, default, min, max, file, required and options
gives the error "field <name> has invalid tags".  A tag with a token of the
first or the third sort is never accepted by `newParameter` nor by schema
construction; when every attribute of the tag that carries a value is written
`key=value`, `newParameter` returns an error, and every error of
`newParameter` names the field. -/
theorem unknown_attribute_rejected (P : Platform) (pfx fieldName tag : String)
    (v : Value) :
    (∀ (ret : parameter) (t : String),
      (2 < (strSplit t '=').length →
        newParameterAttr P ret t = .error (.invalidFormat ret.name t)) ∧
      ((strSplit t '=').length ≤ 2 → (strSplit t '=').head? ≠ some "" →
        tokenKey P t ∉ knownKeys →
        newParameterAttr P ret t = .error (.invalidTags ret.name)) ∧
      ((strSplit t '=').length ≤ 2 → (strSplit t '=').head? = some "" →
        newParameterAttr P ret t = .ok ret)) ∧
    ((∃ t ∈ strSplit tag ';', 2 < (strSplit t '=').length ∨
        ((strSplit t '=').head? ≠ some "" ∧ tokenKey P t ∉ knownKeys)) →
      (∀ r, newParameter P pfx fieldName (some tag) v ≠ .ok r) ∧
      (tagWritten P tag = true →
        ∃ e, newParameter P pfx fieldName (some tag) v = .error e ∧
          e.field = some (pfx ++ fieldName))) ∧
    (∀ e, newParameter P pfx fieldName (some tag) v = .error e →
      e.field = some (pfx ++ fieldName)) ∧
    (∀ (config : Root) (params : configParameters),
      newConfigParameters P config = .ok params →
      ∀ l ∈ config.taggedLeaves P, ∀ t ∈ strSplit l.tag ';',
        (strSplit t '=').length ≤ 2 ∧
        ((strSplit t '=').head? = some "" ∨ tokenKey P t ∈ knownKeys)) := by
  refine ⟨fun ret t => ⟨(newParameterAttr_offending P ret t).1,
    (newParameterAttr_offending P ret t).2, ?_⟩, ?_,
    fun e h => newParameter_error_field h, ?_⟩
  · intro hlen hh
    unfold newParameterAttr
    rw [if_neg (by omega), if_pos hh]
  · rintro ⟨t, ht, hoff⟩
    have hnok : ∀ r, newParameter P pfx fieldName (some tag) v ≠ .ok r := by
      intro r h
      cases r with
      | none => exact newParameter_ne_none h
      | some p =>
        obtain ⟨-, r1, hloop, -⟩ := newParameter_ok_inv h
        obtain ⟨r0, r2, h1, -, -⟩ := newParameterLoop_ok_mem hloop t ht
        obtain ⟨hlen, hcase⟩ := newParameterAttr_ok_inv h1
        rcases hoff with h3 | ⟨h3, h4⟩
        · omega
        · rcases hcase with h5 | ⟨h5, -⟩
          · exact h3 h5
          · exact h4 h5
    refine ⟨hnok, ?_⟩
    intro hw
    obtain ⟨e, he⟩ := Res.error_of_not hnok (newParameter_no_panic hw)
    exact ⟨e, he, newParameter_error_field he⟩
  · intro config params h l hl t ht
    obtain ⟨r0, r1, h1, -, -⟩ := leaf_token_ok h hl ht
    obtain ⟨hlen, hcase⟩ := newParameterAttr_ok_inv h1
    refine ⟨hlen, ?_⟩
    rcases hcase with h5 | ⟨h5, -⟩
    · exact Or.inl h5
    · exact Or.inr h5

/-- C17, amended, at the field `F1 string` tagged `invalid;tags;for;field=1`
of `TestInvalidParameters`: the token `invalid` has an unknown key, and
`newParameter` returns the error "field F1 has invalid tags"; schema
construction for the struct of the test returns that error; a token with two
`=` gives the invalid format error naming field and token. -/
theorem unknown_attribute_rejected_witness :
    ((∀ r, newParameter refPlatform "" "F1" (some "invalid;tags;for;field=1") (.str "") ≠
        .ok r) ∧
      (tagWritten refPlatform "invalid;tags;for;field=1" = true →
        ∃ e, newParameter refPlatform "" "F1" (some "invalid;tags;for;field=1") (.str "") =
            .error e ∧
          e.field = some ("" ++ "F1"))) ∧
    tagWritten refPlatform "invalid;tags;for;field=1" = true ∧
    newParameter refPlatform "" "F1" (some "invalid;tags;for;field=1") (.str "") =
      .error (.invalidTags "F1") ∧
    newConfigParameters refPlatform
      (.pointer (.struct (.cons "f" none (.leaf (.uint 0))
        (.cons "F1" (some "invalid;tags;for;field=1") (.leaf (.str "")) .nil)))) =
      .error (.invalidTags "F1") ∧
    newParameter refPlatform "" "F1" (some "desc=a=b") (.str "") =
      .error (.invalidFormat "F1" "desc=a=b") :=
  ⟨(unknown_attribute_rejected refPlatform "" "F1" "invalid;tags;for;field=1" (.str "")).2.1
      ⟨"invalid", by decide!, Or.inr ⟨by decide!, by decide!⟩⟩,
   by decide!, by decide!, by decide!, by decide!⟩

theorem refPlatform_lower_not_upper (c : Char) :
    refPlatform.isLower c = true → refPlatform.isUpper c = false := by
  intro h
  have h1 : refIsLower c = true := h
  show refIsUpper c = false
  unfold refIsLower at h1
  unfold refIsUpper
  simp only [Bool.or_eq_true, Bool.and_eq_true, decide_eq_true_eq, beq_iff_eq, bne_iff_ne,
    ne_eq] at h1
  simp only [Bool.or_eq_false_iff, Bool.and_eq_false_iff, decide_eq_false_iff_not,
    bne_eq_false_iff_eq, not_le]
  omega

/-- The traversal of a struct that has a tagged member with a lower-case
initial where the traversal comes by never succeeds. -/
theorem Fields.readParameters_lower (P : Platform)
    (hcase : ∀ c, P.isLower c = true → P.isUpper c = false) (fs : Fields) (pfx : String)
    (acc : List parameter) (h : fs.hasLowerTagged P = true) (out : List parameter) :
    fs.readParameters P pfx acc ≠ .ok out := by
  match fs with
  | .nil =>
    unfold Fields.hasLowerTagged at h
    cases h
  | .cons n t c rest =>
    unfold Fields.hasLowerTagged at h
    unfold Fields.readParameters
    intro hr
    have hexp : beginsLower P n = true → isExported P n = false := by
      unfold beginsLower isExported
      cases n.data with
      | nil => intro a; cases a
      | cons c0 _ => exact hcase c0
    split at hr
    · rename_i hlow
      split at hr
      · cases hr
      · rename_i htag
        simp only [hlow, htag, Bool.and_false, Bool.not_true, Bool.false_and, Bool.false_or,
          Bool.or_true, Bool.and_true] at h
        have h2 : rest.hasLowerTagged P = true := by
          cases c <;> simpa using h
        exact Fields.readParameters_lower P hcase rest pfx acc h2 out hr
    · rename_i hlow
      have hlow2 : startsLower P n = false := by simpa using hlow
      split at hr
      · cases hr
      · rename_i hnexp
        have hexp2 : isExported P n = true := by simpa using hnexp
        have hb : beginsLower P n = false := by
          cases hbl : beginsLower P n
          · rfl
          · rw [hexp hbl] at hexp2
            cases hexp2
        simp only [hb, hlow2, Bool.or_self, Bool.false_and, Bool.false_or, Bool.not_false,
          Bool.true_and, Bool.or_eq_true] at h
        match c with
        | .struct fs1 =>
          simp only at hr h
          obtain ⟨ps, h1, h2⟩ := Res.bind_eq_ok hr
          rcases h with h | h
          · exact Fields.readParameters_lower P hcase fs1 (pfx ++ n ++ ".") acc h ps h1
          · exact Fields.readParameters_lower P hcase rest pfx ps h out h2
        | .leaf v =>
          simp only at hr h
          obtain ⟨param, -, h2⟩ := Res.bind_eq_ok hr
          have h3 : rest.hasLowerTagged P = true := by simpa using h
          cases param with
          | none => exact Fields.readParameters_lower P hcase rest pfx acc h3 out h2
          | some q => exact Fields.readParameters_lower P hcase rest pfx (acc ++ [q]) h3 out h2

/-- On a platform where no lower-case letter is an upper-case letter, for
every struct in which a direct member of the root, or of a nested struct that
the traversal descends into, has a name beginning with a lower-case letter
and carries a tag: schema construction never succeeds; when every tag of the
struct is written with `key=value` for the keys that carry a value, schema
construction returns an error, and the file loader and the flag loader
return that error whatever the reader, the command line and the environment
are, leaving the struct unchanged.  The traversal that comes to such a member
whose first byte is a lower-case letter returns the error "field <name> is
unexported but has tag". -/
theorem lower_tagged_never_accepted (P : Platform)
    (hcase : ∀ c, P.isLower c = true → P.isUpper c = false) (fs : Fields)
    (h : fs.hasLowerTagged P = true) :
    (∀ params, newConfigParameters P (.pointer (.struct fs)) ≠ .ok params) ∧
    ((∀ l ∈ fs.taggedLeaves P, tagWritten P l.tag = true) →
      ∃ e, newConfigParameters P (.pointer (.struct fs)) = .error e ∧
        (∀ reader, NewFile P (.pointer (.struct fs)) reader =
          (.pointer (.struct fs), .error e)) ∧
        (∀ args opt env, newFlagWithErrorHandling P (.pointer (.struct fs)) args opt env =
          (.pointer (.struct fs), .error e))) ∧
    (∀ (name tag : String) (c : Config) (rest : Fields) (pfx : String)
      (acc : List parameter), startsLower P name = true →
      Fields.readParameters P pfx (.cons name (some tag) c rest) acc =
        .error (.unexportedWithTag name)) := by
  have hnok : ∀ params, newConfigParameters P (.pointer (.struct fs)) ≠ .ok params := by
    intro params hp
    unfold newConfigParameters at hp
    obtain ⟨ps, h1, -⟩ := Res.bind_eq_ok hp
    unfold Config.readParameters at h1
    exact Fields.readParameters_lower P hcase fs "" [] h ps h1
  refine ⟨hnok, ?_, ?_⟩
  · intro hw
    obtain ⟨e, he⟩ := Res.error_of_not hnok
      (newConfigParameters_no_panic P (.pointer (.struct fs)) hw)
    obtain ⟨a, b, -, -⟩ := loaders_schema_error he
    exact ⟨e, he, a, b⟩
  · intro name tag c rest pfx acc hlow
    unfold Fields.readParameters
    rw [if_pos hlow]
    rfl

theorem groupPfx_dotted (gs : List String) (name : String) :
    groupPfx gs ++ name = dotted (gs ++ [name]) := by
  induction gs with
  | nil => simp [groupPfx, dotted]
  | cons g rest ih =>
    cases rest with
    | nil => simp [groupPfx, dotted, String.append_assoc]
    | cons b more =>
      have : dotted (g :: b :: more ++ [name]) = g ++ "." ++ dotted (b :: more ++ [name]) := by
        simp [dotted]
      rw [this, ← ih]
      simp [groupPfx, String.append_assoc]

theorem built_names {P : Platform} {ps : List parameter} {ls : List Leaf}
    (hall : List.Forall₂ (Built P "") ps ls) :
    ps.map (fun p => p.name) = ls.map (fun l => dotted (l.groups ++ [l.name])) ∧
    ps.map (fun p => p.paramtype) = ls.map (fun l => toInternalType l.value) := by
  induction hall with
  | nil => exact ⟨rfl, rfl⟩
  | cons hb _ ih =>
    unfold Built at hb
    obtain ⟨hn, hp, -⟩ := newParameter_spec hb
    refine ⟨?_, ?_⟩
    · simp only [List.map_cons, ih.1, hn, String.empty_append, groupPfx_dotted]
    · simp only [List.map_cons, ih.2, hp]

/-- When schema construction succeeds, `config` points to a struct and the
parameter list corresponds, element by element and in order, to the tagged
leaves that the traversal comes by: each parameter is what `newParameter`
builds for its leaf, its name is the dot-joined chain of the field names from
the root to the leaf, case preserved, and its kind is the kind of the leaf;
the list has as many parameters as there are such leaves; and in a struct
whose field names are distinct within each struct and free of dots no two
parameters have the same name. -/
theorem parameter_list_traversal (P : Platform) (config : Root) (params : configParameters)
    (h : newConfigParameters P config = .ok params) :
    ∃ fs, config = .pointer (.struct fs) ∧
      List.Forall₂ (Built P "") params.params (fs.taggedLeaves P) ∧
      params.params.map (fun p => p.name) =
        (fs.taggedLeaves P).map (fun l => dotted (l.groups ++ [l.name])) ∧
      params.params.map (fun p => p.paramtype) =
        (fs.taggedLeaves P).map (fun l => toInternalType l.value) ∧
      params.params.length = (fs.taggedLeaves P).length ∧
      ((Config.struct fs).wellFormed = true →
        params.params.Pairwise (fun a b => a.name ≠ b.name)) := by
  obtain ⟨fs, hc, hall⟩ := newConfigParameters_ok h
  refine ⟨fs, hc, hall, (built_names hall).1, (built_names hall).2, hall.length_eq, ?_⟩
  · intro hwf
    subst hc
    unfold Config.wellFormed at hwf
    simp only [Bool.and_eq_true, decide_eq_true_eq] at hwf
    unfold newConfigParameters at h
    obtain ⟨ps, h1, h2⟩ := Res.bind_eq_ok h
    cases h2
    unfold Config.readParameters at h1
    obtain ⟨new, e, -, pw⟩ := Fields.readParameters_spec P fs "" [] ps hwf.2 hwf.1 h1
    simp only [List.nil_append] at e
    subst e
    exact pw

/-- Method `toFloat` panics on a numeric parameter without value. -/
theorem toFloat_nil_panics {p : parameter} (hnum : p.paramtype.numeric = true)
    (hv : p.value = .nil) : p.toFloat.isPanic = true := by
  unfold parameter.toFloat
  cases hp : p.paramtype <;> rw [hp] at hnum <;> first | (simp only [hv]; rfl) | cases hnum

/-- C20, failing input: for the struct `pc4` of `TestMinMaxParameter` (one
field `ValOne uint` tagged `desc=description;min=1`) schema construction
builds a parameter without value; when no source assigns it, `validate`
panics in `toFloat`, and so do the flag loader on the empty command line and
the file loader on the document without members.  In general `validate`
panics on every numeric parameter without value that declares a minimum or a
maximum and passes the required check. -/
theorem validate_panics_without_value :
    newConfigParameters refPlatform (.pointer (.struct pc4)) =
      .ok { params := [{ name := "ValOne", paramtype := .uintType,
                         description := "description", minvalue := "1" }] } ∧
    parameter.validate refPlatform
      { name := "ValOne", paramtype := .uintType, description := "description",
        minvalue := "1" } = .panic "interface conversion: not uint" ∧
    (NewFlag noSourcePlatform (.pointer (.struct pc4)) []).2 =
      .panic "interface conversion: not uint" ∧
    (NewEnvFlag noSourcePlatform (.pointer (.struct pc4)) []).2 =
      .panic "interface conversion: not uint" ∧
    (NewFile noSourcePlatform (.pointer (.struct pc4)) (.bytes "\x7b\x7d")).2 =
      .panic "interface conversion: not uint" ∧
    (∀ (P : Platform) (p : parameter), p.paramtype.numeric = true → p.value = .nil →
      (p.minvalue ≠ "" ∨ p.maxvalue ≠ "") → ¬ (p.required = true ∧ p.isSet = false) →
      (p.validate P).isPanic = true) := by
  refine ⟨by decide!, by decide!, by decide!, by decide!, by decide!, ?_⟩
  intro P p hnum hv hb hreq
  rw [validate_eq_checks hreq]
  have ht := toFloat_nil_panics hnum hv
  unfold parameter.checks parameter.checkMin parameter.checkMax
  cases hf : p.toFloat with
  | ok f => rw [hf] at ht; cases ht
  | error e => rw [hf] at ht; cases ht
  | panic w =>
    by_cases hmin : p.minvalue ≠ ""
    · rw [if_pos hmin]
      rfl
    · have hmax : p.maxvalue ≠ "" := by
        rcases hb with h | h
        · exact absurd h hmin
        · exact h
      rw [if_neg hmin, if_pos hmax]
      rfl

/-- On a name that begins with an ASCII character the test of the source on
the first byte is the test on the first rune. -/
theorem startsLower_ascii (P : Platform) (name : String) (c : Char) (rest : List Char)
    (h : name.data = c :: rest) (hc : c.toNat < 128) :
    startsLower P name = beginsLower P name := by
  unfold startsLower beginsLower
  rw [h]
  simp only
  have : firstByte c = c.toNat := by
    unfold firstByte
    rw [if_pos hc]
  rw [this, Char.ofNat_toNat]

/-- Where the two tests agree, the leaves that the traversal comes by are
the visible tagged leaves of the specification. -/
theorem Fields.taggedLeaves_eq_visibleLeaves (P : Platform) (fs : Fields)
    (h : fs.byteTestAgrees P = true) : fs.taggedLeaves P = fs.visibleLeaves P := by
  match fs with
  | .nil => rfl
  | .cons n t c rest =>
    unfold Fields.byteTestAgrees at h
    simp only [Bool.and_eq_true, beq_iff_eq] at h
    obtain ⟨⟨h1, h2⟩, h3⟩ := h
    have ihr := Fields.taggedLeaves_eq_visibleLeaves P rest h3
    unfold Fields.taggedLeaves Fields.visibleLeaves
    rw [h1, ihr]
    match c with
    | .struct fs1 =>
      simp only at h2
      simp only [Fields.taggedLeaves_eq_visibleLeaves P fs1 h2]
    | .leaf v => rfl

/-- Where the two tests agree, a tagged lower-case member of the struct or
of a visible nested struct is one that the traversal comes by. -/
theorem Fields.hasLowerTagged_of_visible (P : Platform) (fs : Fields)
    (h : fs.byteTestAgrees P = true) (hl : fs.lowerTaggedVisible P = true) :
    fs.hasLowerTagged P = true := by
  match fs with
  | .nil =>
    unfold Fields.lowerTaggedVisible at hl
    cases hl
  | .cons n t c rest =>
    unfold Fields.byteTestAgrees at h
    simp only [Bool.and_eq_true, beq_iff_eq] at h
    obtain ⟨⟨h1, h2⟩, h3⟩ := h
    unfold Fields.lowerTaggedVisible at hl
    unfold Fields.hasLowerTagged
    rw [h1, Bool.or_self]
    simp only [Bool.or_eq_true] at hl ⊢
    rcases hl with (hl | hl) | hl
    · exact Or.inl (Or.inl hl)
    · match c with
      | .struct fs1 =>
        simp only [Bool.and_eq_true] at hl ⊢
        simp only at h2
        exact Or.inl (Or.inr ⟨hl.1, Fields.hasLowerTagged_of_visible P fs1 h2 hl.2⟩)
      | .leaf v =>
        simp only at hl
        cases hl
    · exact Or.inr (Fields.hasLowerTagged_of_visible P rest h3 hl)

/-- C18, failing input: on a platform that knows U+1EA4 as an upper-case
letter, the struct `cfgExportedLower` has a visible nested struct (its name
begins with that upper-case letter and is exported) with the direct member
`name`, which begins with a lower-case letter and carries a tag; the test of
the source on the first byte of the name of the nested struct (0xE1, read as
the rune of a lower-case letter) makes the traversal skip the nested struct,
so schema construction and every loader succeed.  What holds: where the test
on the first byte agrees with the test on the first rune for every field
name of the struct, as it does for names that begin with an ASCII character,
such a member makes schema construction fail on a platform where no
lower-case letter is an upper-case letter, with an error returned by every
loader when the tags write each value-carrying key as `key=value`; so it is
for the struct of `TestUnexportedFields`. -/
theorem unexported_tagged_rejected :
    (cfgExportedLower.lowerTaggedVisible upperExtPlatform = true ∧
     beginsLower upperExtPlatform "Ấ" = false ∧
     isExported upperExtPlatform "Ấ" = true ∧
     startsLower upperExtPlatform "Ấ" = true ∧
     beginsLower upperExtPlatform "name" = true ∧
     newConfigParameters upperExtPlatform (.pointer (.struct cfgExportedLower)) =
       .ok { params := [] } ∧
     (NewFile upperExtPlatform (.pointer (.struct cfgExportedLower)) (.bytes "\x7b\x7d")).2 =
       .ok () ∧
     (NewFlag upperExtPlatform (.pointer (.struct cfgExportedLower)) []).2 = .ok () ∧
     (NewEnvFlag upperExtPlatform (.pointer (.struct cfgExportedLower)) []).2 = .ok ()) ∧
    (∀ (P : Platform), (∀ c, P.isLower c = true → P.isUpper c = false) →
      ∀ (fs : Fields), fs.byteTestAgrees P = true → fs.lowerTaggedVisible P = true →
      (∀ params, newConfigParameters P (.pointer (.struct fs)) ≠ .ok params) ∧
      ((∀ l ∈ fs.taggedLeaves P, tagWritten P l.tag = true) →
        ∃ e, newConfigParameters P (.pointer (.struct fs)) = .error e ∧
          (∀ reader, NewFile P (.pointer (.struct fs)) reader =
            (.pointer (.struct fs), .error e)) ∧
          (∀ args opt env, newFlagWithErrorHandling P (.pointer (.struct fs)) args opt env =
            (.pointer (.struct fs), .error e)))) ∧
    (∀ (P : Platform) (name : String) (c : Char) (rest : List Char),
      name.data = c :: rest → c.toNat < 128 → startsLower P name = beginsLower P name) ∧
    (cfgUnexported.byteTestAgrees refPlatform = true ∧
     cfgUnexported.lowerTaggedVisible refPlatform = true ∧
     newConfigParameters refPlatform (.pointer (.struct cfgUnexported)) =
       .error (.unexportedWithTag "f1") ∧
     (NewFile noSourcePlatform (.pointer (.struct cfgUnexported)) (.bytes "\x7b\x7d")).2 =
       .error (.unexportedWithTag "f1") ∧
     (NewFlag noSourcePlatform (.pointer (.struct cfgUnexported)) []).2 =
       .error (.unexportedWithTag "f1") ∧
     (NewEnvFlag noSourcePlatform (.pointer (.struct cfgUnexported)) []).2 =
       .error (.unexportedWithTag "f1")) := by
  refine ⟨⟨by decide!, by decide!, by decide!, by decide!, by decide!, by decide!,
    by decide!, by decide!, by decide!⟩, ?_, startsLower_ascii,
    ⟨by decide!, by decide!, by decide!, by decide!, by decide!, by decide!⟩⟩
  intro P hcase fs hagree hl
  have h := lower_tagged_never_accepted P hcase fs
    (Fields.hasLowerTagged_of_visible P fs hagree hl)
  exact ⟨h.1, h.2.1⟩

/-- C19, failing input: on a platform that knows U+1EA4 as an upper-case
letter, the struct `cfgExported` has one visible tagged leaf, the field
`Name` of the nested struct whose name begins with that upper-case letter and
is exported; the test of the source on the first byte of that name (0xE1,
read as the rune of a lower-case letter) makes the traversal skip the nested
struct, so schema construction succeeds with an empty parameter list.  What
holds: on success the parameter list corresponds, element by element and in
order, to the tagged leaves that the traversal comes by, with the dot-joined
names and the kinds of the leaves and no name twice in a well-formed struct;
where the test on the first byte agrees with the test on the first rune for
every field name, these leaves are the visible tagged leaves of the
specification, as for the struct `cfgNested`. -/
theorem parameter_list_shape :
    (cfgExported.visibleLeaves upperExtPlatform = [⟨["Ấ"], "Name", "desc=n", .str ""⟩] ∧
     beginsLower upperExtPlatform "Ấ" = false ∧
     isExported upperExtPlatform "Ấ" = true ∧
     startsLower upperExtPlatform "Ấ" = true ∧
     newConfigParameters upperExtPlatform (.pointer (.struct cfgExported)) =
       .ok { params := [] }) ∧
    (∀ (P : Platform) (config : Root) (params : configParameters),
      newConfigParameters P config = .ok params →
      ∃ fs, config = .pointer (.struct fs) ∧
        List.Forall₂ (Built P "") params.params (fs.taggedLeaves P) ∧
        params.params.map (fun p => p.name) =
          (fs.taggedLeaves P).map (fun l => dotted (l.groups ++ [l.name])) ∧
        params.params.map (fun p => p.paramtype) =
          (fs.taggedLeaves P).map (fun l => toInternalType l.value) ∧
        params.params.length = (fs.taggedLeaves P).length ∧
        ((Config.struct fs).wellFormed = true →
          params.params.Pairwise (fun a b => a.name ≠ b.name)) ∧
        (fs.byteTestAgrees P = true → fs.taggedLeaves P = fs.visibleLeaves P)) ∧
    (cfgNested.byteTestAgrees refPlatform = true ∧
     cfgNested.visibleLeaves refPlatform =
       [⟨[], "Name", "desc=n", .str ""⟩, ⟨["HTTP"], "Endpoint", "desc=e", .str ""⟩,
        ⟨[], "Port", "default=80", .int 0⟩] ∧
     newConfigParameters refPlatform (.pointer (.struct cfgNested)) =
       .ok { params := [{ name := "Name", description := "n" },
                        { name := "HTTP.Endpoint", description := "e" },
                        { name := "Port", paramtype := .intType, defaultValue := "80",
                          value := .int 80 }] }) := by
  refine ⟨⟨by decide!, by decide!, by decide!, by decide!, by decide!⟩, ?_,
    ⟨by decide!, by decide!, by decide!⟩⟩
  intro P config params h
  obtain ⟨fs, hc, hall, hn, hk, hlen, hpw⟩ := parameter_list_traversal P config params h
  exact ⟨fs, hc, hall, hn, hk, hlen, hpw, Fields.taggedLeaves_eq_visibleLeaves P fs⟩

theorem utf8Size_ascii {c : Char} (h : c.toNat < 128) : c.utf8Size = 1 := by
  unfold Char.utf8Size
  have h0 : c.val.toNat = c.toNat := rfl
  have h1 : c.val ≤ UInt32.ofNatCore 127 (by decide) := by
    show c.val.toNat ≤ 127
    omega
  simp only [h1, if_true]

/-- The loop of `hyphenName` on ASCII characters, from the third character
on: the slice grows by the remaining characters with the hyphens of the
reference definition. -/
theorem hyphenLoop_ascii (P : Platform) (rest : List Char) :
    ∀ (R : List Char) (pp p : Char) (i changes : Nat),
      (∀ c ∈ rest, c.toNat < 128) → 2 ≤ i → R.length + 1 = i + changes →
      ∃ st, hyphenLoop P ⟨R ++ [p], p, pp, changes⟩ i rest = .ok st ∧
        st.ret = R ++ insertHyphens P (some pp) (p :: rest) := by
  induction rest with
  | nil =>
    intro R pp p i changes _ _ _
    exact ⟨_, rfl, by simp [insertHyphens]⟩
  | cons c rest ih =>
    intro R pp p i changes hasc hi hlen
    have hc : c.toNat < 128 := hasc c (List.mem_cons_self _ _)
    have hrest : ∀ x ∈ rest, x.toNat < 128 := fun x hx => hasc x (List.mem_cons_of_mem _ hx)
    have hi2 : ¬ (i < 2) := by omega
    unfold hyphenLoop hyphenStep
    simp only [hi2, if_false, utf8Size_ascii hc]
    by_cases hct : caseTransition P pp p c = true
    · have hct2 : ((P.isUpper pp && P.isUpper p && P.isLower c) ||
          (P.isLower pp && P.isUpper p && P.isLower c) ||
          (P.isLower pp && P.isUpper p && P.isUpper c)) = true := hct
      have hidx : i - 1 + changes < (R ++ [p]).length := by
        simp only [List.length_append, List.length_singleton]
        omega
      simp only [hct2, if_true, hidx]
      have hset : (R ++ [p]).set (i - 1 + changes) '-' = R ++ ['-'] := by
        have : i - 1 + changes = R.length := by omega
        rw [this]
        simp
      rw [hset]
      have hR : R ++ ['-'] ++ [p] ++ [c] = (R ++ ['-', p]) ++ [c] := by simp
      rw [hR]
      obtain ⟨st, h1, h2⟩ := ih (R ++ ['-', p]) p c (i + 1) (changes + 1) hrest (by omega)
        (by simp only [List.length_append, List.length_cons, List.length_nil]; omega)
      refine ⟨st, h1, ?_⟩
      rw [h2]
      simp [insertHyphens, hct]
    · have hct3 : ((P.isUpper pp && P.isUpper p && P.isLower c) ||
          (P.isLower pp && P.isUpper p && P.isLower c) ||
          (P.isLower pp && P.isUpper p && P.isUpper c)) = false := by
        simpa [caseTransition] using hct
      simp only [hct3, Bool.false_eq_true, if_false]
      obtain ⟨st, h1, h2⟩ := ih (R ++ [p]) p c (i + 1) changes hrest (by omega)
        (by simp only [List.length_append, List.length_singleton]; omega)
      refine ⟨st, h1, ?_⟩
      rw [h2]
      have hf : caseTransition P pp p c = false := by simpa using hct
      simp [insertHyphens, hf]

/-- On a name of ASCII characters `hyphenName` returns the flag name of the
reference definition. -/
theorem hyphenName_ascii (P : Platform) (p : parameter) (h : asciiName p.name = true) :
    p.hyphenName P = .ok (hyphenRef P p.name) := by
  have hasc : ∀ c ∈ (replaceChar '.' '-' p.name).data, c.toNat < 128 := by
    intro c hc
    unfold asciiName at h
    rw [List.all_eq_true] at h
    unfold replaceChar at hc
    simp only [List.mem_map] at hc
    obtain ⟨d, hd, rfl⟩ := hc
    have hd2 := h d hd
    simp only [decide_eq_true_eq] at hd2
    split
    · decide
    · exact hd2
  unfold parameter.hyphenName hyphenRef
  cases hs : (replaceChar '.' '-' p.name).data with
  | nil => rfl
  | cons a rest =>
    cases rest with
    | nil => rfl
    | cons b rest =>
      rw [hs] at hasc
      have ha : a.toNat < 128 := hasc a (by simp)
      have hrest : ∀ c ∈ rest, c.toNat < 128 := fun c hc => hasc c (by simp [hc])
      obtain ⟨st, h1, h2⟩ := hyphenLoop_ascii P rest [a] a b 2 0 hrest (by omega) rfl
      have hloop : hyphenLoop P ⟨[], 'X', 'X', 0⟩ 0 (a :: b :: rest) = .ok st := by
        unfold hyphenLoop hyphenStep
        simp only [Nat.lt_succ_self, Nat.zero_lt_succ, if_true, utf8Size_ascii ha, Nat.zero_add]
        unfold hyphenLoop hyphenStep
        simp only [Nat.lt_succ_self, if_true, utf8Size_ascii (hasc b (by simp))]
        exact h1
      rw [hloop]
      simp only [h2]
      simp [insertHyphens]

theorem getD_append_cons (pre : List Char) (x : Char) (rest : List Char) (d : Char) :
    (pre ++ x :: rest).getD pre.length d = x := by
  induction pre with
  | nil => rfl
  | cons h t ih => simpa using ih

theorem hyphenAt_first (P : Platform) (b : Char) (rest : List Char) :
    hyphenAt P (b :: rest) 0 = [b] := by
  unfold hyphenAt
  simp

theorem hyphenAt_last (P : Platform) (pre : List Char) (b : Char) :
    hyphenAt P (pre ++ [b]) pre.length = [b] := by
  unfold hyphenAt
  have hb := getD_append_cons pre b [] 'X'
  rw [hb]
  simp

theorem hyphenAt_middle (P : Platform) (init : List Char) (a b c : Char) (more : List Char) :
    hyphenAt P (init ++ a :: b :: c :: more) (init.length + 1) =
      if caseTransition P a b c = true then ['-', b] else [b] := by
  unfold hyphenAt
  have h1 : (init ++ a :: b :: c :: more).getD (init.length + 1 - 1) 'X' = a := by
    rw [Nat.add_sub_cancel]
    exact getD_append_cons init a _ 'X'
  have h2 : (init ++ a :: b :: c :: more).getD (init.length + 1) 'X' = b := by
    have := getD_append_cons (init ++ [a]) b (c :: more) 'X'
    simpa using this
  have h3 : (init ++ a :: b :: c :: more).getD (init.length + 1 + 1) 'X' = c := by
    have e : init ++ a :: b :: c :: more = (init ++ [a, b]) ++ c :: more := by simp
    have l : init.length + 1 + 1 = (init ++ [a, b]).length := by simp
    rw [l, e]
    exact getD_append_cons (init ++ [a, b]) c more 'X'
  rw [h1, h2, h3]
  have hlen : init.length + 1 + 1 < (init ++ a :: b :: c :: more).length := by
    simp only [List.length_append, List.length_cons]
    omega
  simp only [Nat.le_add_left, hlen, true_and]

theorem insertHyphens_positions_aux (P : Platform) (suf : List Char) :
    ∀ pre : List Char, insertHyphens P pre.getLast? suf =
      (List.range suf.length).flatMap (fun k => hyphenAt P (pre ++ suf) (pre.length + k)) := by
  induction suf with
  | nil => intro pre; simp [insertHyphens]
  | cons b rest ih =>
    intro pre
    have ih2 := ih (pre ++ [b])
    have hl : (pre ++ [b]).getLast? = some b := by simp
    rw [hl] at ih2
    simp only [List.append_assoc, List.singleton_append, List.length_append,
      List.length_singleton] at ih2
    rw [List.length_cons, List.range_succ_eq_map, List.flatMap_cons, List.flatMap_map]
    unfold insertHyphens
    rw [ih2]
    congr 1
    · rw [Nat.add_zero]
      rcases List.eq_nil_or_concat pre with hpre | ⟨init, a, hpre⟩
      · subst hpre
        rw [List.nil_append, List.length_nil, hyphenAt_first]
        rfl
      · subst hpre
        rw [List.concat_eq_append]
        cases rest with
        | nil =>
          have h := hyphenAt_last P (init ++ [a]) b
          rw [h]
          simp
        | cons c more =>
          have h := hyphenAt_middle P init a b c more
          simp only [List.length_append, List.length_singleton, List.append_assoc,
            List.singleton_append]
          rw [h]
          simp
    · congr 1
      funext k
      congr 1
      omega

/-- The reference definition of the flag name, position by position. -/
theorem insertHyphens_positions (P : Platform) (s : List Char) :
    insertHyphens P none s = (List.range s.length).flatMap (hyphenAt P s) := by
  have h := insertHyphens_positions_aux P s []
  simpa using h

/-- C23: for every name of ASCII characters (letters, digits and dots among
them) `hyphenName` returns the reference flag name: every `.` replaced by
`-`, then, for every position `j` with `1 ≤ j` and `j + 1 < length` whose
characters at `j - 1`, `j`, `j + 1` are (upper, upper, lower), (lower, upper,
lower) or (lower, upper, upper), one `-` inserted immediately before the
character at `j`, the triplets being read from the characters of the
replaced name, and the whole in lower case. -/
theorem hyphenName_reference (P : Platform) (p : parameter)
    (h : asciiName p.name = true) :
    p.hyphenName P = .ok (hyphenRef P p.name) ∧
    hyphenRef P p.name =
      strToLower P ⟨(List.range (replaceChar '.' '-' p.name).data.length).flatMap
        (hyphenAt P (replaceChar '.' '-' p.name).data)⟩ := by
  refine ⟨hyphenName_ascii P p h, ?_⟩
  unfold hyphenRef
  rw [insertHyphens_positions]

/-- C23 at the name `Server.HTTPConfig.hostName2`: the flag name is
`server-http-config-host-name2`, as the reference definition gives it. -/
theorem hyphenName_reference_witness :
    asciiName "Server.HTTPConfig.hostName2" = true ∧
    (parameter.hyphenName refPlatform { name := "Server.HTTPConfig.hostName2" } =
        .ok (hyphenRef refPlatform "Server.HTTPConfig.hostName2") ∧
      hyphenRef refPlatform "Server.HTTPConfig.hostName2" =
        strToLower refPlatform
          ⟨(List.range (replaceChar '.' '-' "Server.HTTPConfig.hostName2").data.length).flatMap
            (hyphenAt refPlatform (replaceChar '.' '-' "Server.HTTPConfig.hostName2").data)⟩) ∧
    hyphenRef refPlatform "Server.HTTPConfig.hostName2" = "server-http-config-host-name2" :=
  ⟨by decide!,
   hyphenName_reference refPlatform { name := "Server.HTTPConfig.hostName2" } (by decide!),
   by decide!⟩

/-- C24, counterexample: the name `aBc` has the flag name `a-bc`: its first
three characters are (lower, upper, lower), so a hyphen is inserted between
the first and the second character, and the first two characters `aB` are
not the first two characters of the result, lower-casing apart. -/
theorem first_two_split_counterexample :
    parameter.hyphenName refPlatform { name := "aBc" } = .ok "a-bc" ∧
    caseTransition refPlatform 'a' 'B' 'c' = true ∧
    parameter.hyphenName refPlatform { name := "myValue" } = .ok "my-value" ∧
    parameter.hyphenName refPlatform { name := "aTLA" } = .ok "a-tla" := by
  refine ⟨by decide!, by decide!, by decide!, by decide!⟩

/-- C24, amended: for a name of ASCII characters whose dot-to-hyphen-replaced
form is `a`, `b` and the characters `rest`: the result of `hyphenName` is the
lower-cased form of a string that begins with `a`, so that nothing is
inserted before the first character; when there is a third character `c` and
`(a, b, c)` is a case transition, a hyphen is inserted between the first and
the second character; otherwise the first two characters of the result are
`a` and `b`.  In both cases the rest of the result is what the reference
definition inserts from the second character on. -/
theorem first_two_characters (P : Platform) (p : parameter) (a b : Char)
    (rest : List Char) (h : asciiName p.name = true)
    (hs : (replaceChar '.' '-' p.name).data = a :: b :: rest) :
    (∀ c more, rest = c :: more → caseTransition P a b c = true →
      p.hyphenName P =
        .ok (strToLower P ⟨a :: '-' :: b :: insertHyphens P (some b) rest⟩)) ∧
    ((rest = [] ∨ ∃ c more, rest = c :: more ∧ caseTransition P a b c = false) →
      p.hyphenName P = .ok (strToLower P ⟨a :: b :: insertHyphens P (some b) rest⟩)) := by
  have h0 := hyphenName_ascii P p h
  unfold hyphenRef at h0
  rw [hs] at h0
  refine ⟨?_, ?_⟩
  · intro c more hr hct
    rw [h0, hr]
    simp [insertHyphens, hct]
  · intro hcase
    rw [h0]
    rcases hcase with hr | ⟨c, more, hr, hct⟩
    · rw [hr]
      simp [insertHyphens]
    · rw [hr]
      simp [insertHyphens, hct]

/-- C24, amended, at the names `aBc` and `NaNa`: in `aBc` the hyphen stands
between the first and the second character, in `NaNa` the first two
characters are retained. -/
theorem first_two_characters_witness :
    (∀ c more, ['c'] = c :: more → caseTransition refPlatform 'a' 'B' c = true →
      parameter.hyphenName refPlatform { name := "aBc" } =
        .ok (strToLower refPlatform
          ⟨'a' :: '-' :: 'B' :: insertHyphens refPlatform (some 'B') ['c']⟩)) ∧
    strToLower refPlatform ⟨'a' :: '-' :: 'B' :: insertHyphens refPlatform (some 'B') ['c']⟩ =
      "a-bc" ∧
    parameter.hyphenName refPlatform { name := "NaNa" } = .ok "na-na" :=
  ⟨(first_two_characters refPlatform { name := "aBc" } 'a' 'B' ['c'] (by decide!)
      (by decide!)).1,
   by decide!, by decide!⟩

/-- C30, failing input: the name `SeñorName` has the two-byte character `ñ`
before the case transition `(r, N, a)`; at the character `a` the loop index
is the byte offset 7 while the slice holds 6 characters, and the write
`ret[i-1+changes]` at index 6 panics.  So does the name `Éa` at its second
character.  The flag loader on a struct with the field `SeñorName` panics
when it makes the flag.  What holds: on every name of ASCII characters
`hyphenName` returns a result. -/
theorem hyphenName_panics_multibyte :
    parameter.hyphenName refPlatform { name := "SeñorName" } = .panic "index out of range" ∧
    parameter.hyphenName refPlatform { name := "Éa" } = .panic "index out of range" ∧
    parameter.envName refPlatform { name := "SeñorName" } = .panic "index out of range" ∧
    newConfigParameters refPlatform (.pointer (.struct cfgSenor)) =
      .ok { params := [{ name := "SeñorName", description := "n" }] } ∧
    (NewFlag noSourcePlatform (.pointer (.struct cfgSenor)) []).2 =
      .panic "index out of range" ∧
    (NewEnvFlag noSourcePlatform (.pointer (.struct cfgSenor)) []).2 =
      .panic "index out of range" ∧
    (∀ (P : Platform) (p : parameter), asciiName p.name = true →
      ∃ s, p.hyphenName P = .ok s) := by
  refine ⟨by decide!, by decide!, by decide!, by decide!, by decide!, by decide!, ?_⟩
  intro P p h
  exact ⟨_, hyphenName_ascii P p h⟩

/-- Function `makeFlag` succeeds for a parameter of a valid kind whose flag
name is not registered yet. -/
theorem makeFlag_succeeds {P : Platform} {regs : List FlagReg} {p : parameter} {n : String}
    (hn : p.hyphenName P = .ok n) (hk : p.paramtype ≠ .invalidType)
    (hfree : n ∉ regs.map (·.name)) :
    ∃ regs1 d, makeFlag P regs p = .ok (regs1, d) ∧ d.flagName = n ∧ d.name = p.name ∧
      regs1.map (·.name) = regs.map (·.name) ++ [n] := by
  have hany : regs.any (fun x => x.name == n) = false := by
    rw [Bool.eq_false_iff]
    intro h
    rw [List.any_eq_true] at h
    obtain ⟨x, hx, hxn⟩ := h
    exact hfree (List.mem_map.mpr ⟨x, hx, by simpa using hxn⟩)
  unfold makeFlag
  rw [hn]
  simp only [Res.bind]
  cases hp : p.paramtype <;>
    first
    | exact absurd hp hk
    | (simp only [register, hany, Bool.false_eq_true, if_false]
       exact ⟨_, _, rfl, rfl, rfl, by simp⟩)

/-- The loop that makes the flags succeeds when the parameters have valid
kinds and flag names that differ from each other and from the registered
ones. -/
theorem makeFlags_succeeds {P : Platform} (params : List parameter) :
    ∀ (regs : List FlagReg) (names : List String),
      List.Forall₂ (fun p n => p.hyphenName P = .ok n) params names →
      (∀ p ∈ params, p.paramtype ≠ .invalidType) →
      (regs.map (·.name) ++ names).Nodup →
      ∃ regs1 ds, makeFlags P regs params = .ok (regs1, ds) ∧
        ds.map (·.flagName) = names ∧ ds.map (·.name) = params.map (·.name) := by
  induction params with
  | nil =>
    intro regs names hall _ _
    cases hall
    exact ⟨regs, [], rfl, rfl, rfl⟩
  | cons p rest ih =>
    intro regs names hall hk hnd
    cases hall with
    | cons hp hrest =>
      rename_i n ns
      have hfree : n ∉ regs.map (·.name) := by
        intro hmem
        rw [List.nodup_append] at hnd
        exact hnd.2.2 hmem (List.mem_cons_self _ _)
      obtain ⟨regs1, d, h1, hd1, hd2, hregs⟩ :=
        makeFlag_succeeds hp (hk p (List.mem_cons_self _ _)) hfree
      have hnd2 : (regs1.map (·.name) ++ ns).Nodup := by
        rw [hregs, List.append_assoc]
        simpa using hnd
      obtain ⟨regs2, ds, h2, hds1, hds2⟩ :=
        ih regs1 ns hrest (fun q hq => hk q (List.mem_cons_of_mem _ hq)) hnd2
      refine ⟨regs2, d :: ds, ?_, ?_, ?_⟩
      · unfold makeFlags
        rw [h1]
        simp only [Res.bind, h2]
      · simp [hd1, hds1]
      · simp [hd2, hds2]

/-- The loop that makes the flags never succeeds when two parameters have
the same flag name. -/
theorem makeFlags_collision {P : Platform} {params : List parameter} {i j : Nat}
    {p q : parameter} {n : String} (hij : i < j) (hp : params[i]? = some p)
    (hq : params[j]? = some q) (hpn : p.hyphenName P = .ok n) (hqn : q.hyphenName P = .ok n)
    (r : List FlagReg × List flagDef) : makeFlags P [] params ≠ .ok r := by
  intro h
  obtain ⟨regs1, ds⟩ := r
  obtain ⟨hall, hnames, hnd⟩ := makeFlags_spec params [] regs1 ds h
  have hnd2 : (ds.map (·.flagName)).Nodup := by
    have := hnd (by simp)
    rw [hnames] at this
    simpa using this
  obtain ⟨d1, hd1, hn1, -⟩ := hall i p hp
  obtain ⟨d2, hd2, hn2, -⟩ := hall j q hq
  rw [hpn] at hn1
  rw [hqn] at hn2
  simp only [Res.ok.injEq] at hn1 hn2
  have e : d2.flagName = d1.flagName := hn2.symm.trans hn1
  have hi : i < ds.length := by
    rcases Nat.lt_or_ge i ds.length with h | h
    · exact h
    · rw [List.getElem?_eq_none h] at hd1
      cases hd1
  have hj : j < ds.length := by
    rcases Nat.lt_or_ge j ds.length with h | h
    · exact h
    · rw [List.getElem?_eq_none h] at hd2
      cases hd2
  have e1 : (ds.map (·.flagName))[i]? = some d1.flagName := by simp [hd1]
  have e2 : (ds.map (·.flagName))[j]? = some d1.flagName := by simp [hd2, e]
  have := (List.nodup_iff_getElem?_ne_getElem?.mp hnd2) i j hij (by simpa using hj)
  exact this (e1.trans e2.symm)

/-- C29, counterexample: the struct `cfgCollide` builds the parameters
`HTTP.Endpoint` and `HTTPEndpoint`, whose dotted names differ; both have the
flag name `http-endpoint` and the environment name `HTTP_ENDPOINT`, and the
flag loader panics when it registers the second flag. -/
theorem flag_name_collision_counterexample :
    newConfigParameters refPlatform (.pointer (.struct cfgCollide)) =
      .ok { params := [{ name := "HTTP.Endpoint", description := "e" },
                       { name := "HTTPEndpoint", description := "f" }] } ∧
    ("HTTP.Endpoint" : String) ≠ "HTTPEndpoint" ∧
    parameter.hyphenName refPlatform { name := "HTTP.Endpoint" } = .ok "http-endpoint" ∧
    parameter.hyphenName refPlatform { name := "HTTPEndpoint" } = .ok "http-endpoint" ∧
    parameter.envName refPlatform { name := "HTTP.Endpoint" } = .ok "HTTP_ENDPOINT" ∧
    parameter.envName refPlatform { name := "HTTPEndpoint" } = .ok "HTTP_ENDPOINT" ∧
    (NewFlag noSourcePlatform (.pointer (.struct cfgCollide)) []).2 = .panic "flag redefined" ∧
    (NewEnvFlag noSourcePlatform (.pointer (.struct cfgCollide)) []).2 =
      .panic "flag redefined" := by
  refine ⟨by decide!, by decide, by decide!, by decide!, by decide!, by decide!, by decide!,
    by decide!⟩

/-- C29, amended: flag names need not differ where dotted names differ.
When two parameters of the list have the same flag name, the loop that makes
the flags never succeeds (the second registration panics).  When the
parameters have valid kinds and flag names that differ pairwise, the loop
registers one flag per parameter, under its flag name and for its parameter
name, and the lookup of a flag definition by its flag name finds that
definition. -/
theorem flag_names_registration (P : Platform) (params : List parameter) :
    (∀ (i j : Nat) (p q : parameter) (n : String), i < j → params[i]? = some p →
      params[j]? = some q → p.hyphenName P = .ok n → q.hyphenName P = .ok n →
      ∀ r, makeFlags P [] params ≠ .ok r) ∧
    (∀ names : List String,
      List.Forall₂ (fun p n => p.hyphenName P = .ok n) params names →
      (∀ p ∈ params, p.paramtype ≠ .invalidType) → names.Nodup →
      ∃ regs ds, makeFlags P [] params = .ok (regs, ds) ∧
        ds.map (·.flagName) = names ∧ ds.map (·.name) = params.map (·.name) ∧
        ∀ (i : Nat) (d : flagDef), ds[i]? = some d →
          ds.find? (fun x => x.flagName == d.flagName) = some d) := by
  refine ⟨?_, ?_⟩
  · intro i j p q n hij hp hq hpn hqn r
    exact makeFlags_collision hij hp hq hpn hqn r
  · intro names hall hk hnd
    obtain ⟨regs, ds, h1, h2, h3⟩ := makeFlags_succeeds params [] names hall hk (by simpa using hnd)
    refine ⟨regs, ds, h1, h2, h3, ?_⟩
    intro i d hd
    exact find_flag_of_nodup (by rw [h2]; exact hnd) hd

/-- C29, amended, at the parameters of `cfgCollide`: the loop that makes the
flags does not succeed on `HTTP.Endpoint` and `HTTPEndpoint`. -/
theorem flag_names_registration_witness :
    (∀ r, makeFlags refPlatform []
        [{ name := "HTTP.Endpoint", description := "e" },
         { name := "HTTPEndpoint", description := "f" }] ≠ .ok r) ∧
    makeFlags refPlatform []
        [{ name := "HTTP.Endpoint", description := "e" },
         { name := "HTTPEndpoint", description := "f" }] = .panic "flag redefined" :=
  ⟨(flag_names_registration refPlatform
      [{ name := "HTTP.Endpoint", description := "e" },
       { name := "HTTPEndpoint", description := "f" }]).1 0 1
      { name := "HTTP.Endpoint", description := "e" }
      { name := "HTTPEndpoint", description := "f" } "http-endpoint"
      (by decide) rfl rfl (by decide!) (by decide!),
   by decide!⟩

/-- Go call `strconv.ParseInt(s, 10, 64)` succeeds exactly on the literals
within the range of `int64`. -/
theorem parseInt_eq_some (s : String) (n : Int) :
    parseInt s = some n ↔ signedLiteral s = some n ∧ - 2 ^ 63 ≤ n ∧ n < 2 ^ 63 := by
  unfold parseInt parseIntRaw
  cases hl : signedLiteral s with
  | none => simp
  | some m =>
    simp only [Option.some.injEq]
    by_cases h1 : m < - 2 ^ 63
    · simp only [h1, if_true]
      constructor
      · intro h
        cases h
      · rintro ⟨rfl, h2, -⟩
        omega
    · by_cases h2 : (2 : Int) ^ 63 ≤ m
      · simp only [h1, h2, if_true, if_false]
        constructor
        · intro h
          cases h
        · rintro ⟨rfl, -, h3⟩
          omega
      · simp only [h1, h2, if_false, Option.some.injEq]
        constructor
        · rintro rfl
          exact ⟨rfl, by omega, by omega⟩
        · rintro ⟨rfl, -, -⟩
          rfl

/-- C28: textual assignment to a uint parameter succeeds exactly when the
text is a signed decimal integer literal denoting `n` with
`0 ≤ n ≤ 2^63 - 1`, and then it stores `n` and sets `isSet`; for every other
text (a literal that denotes a negative number, a text that is no literal, a
literal above `2^63 - 1`) it returns the invalid value error and leaves the
parameter unchanged. -/
theorem uint_text_range (P : Platform) (p : parameter) (val : String)
    (hk : p.paramtype = .uintType) :
    ((p.SetValueAsString P val).2 = .ok () ↔
      ∃ n : Int, signedLiteral val = some n ∧ 0 ≤ n ∧ n ≤ 2 ^ 63 - 1) ∧
    (∀ n : Int, signedLiteral val = some n → 0 ≤ n → n ≤ 2 ^ 63 - 1 →
      p.SetValueAsString P val = ({ p with value := .uint n.toNat, isSet := true }, .ok ())) ∧
    ((∀ n : Int, signedLiteral val = some n → n < 0 ∨ 2 ^ 63 - 1 < n) →
      p.SetValueAsString P val = (p, .error (.invalidValue p.name val))) := by
  have hyes : ∀ n : Int, signedLiteral val = some n → 0 ≤ n → n ≤ 2 ^ 63 - 1 →
      p.SetValueAsString P val = ({ p with value := .uint n.toNat, isSet := true }, .ok ()) := by
    intro n hn h0 h1
    have hp : parseInt val = some n := (parseInt_eq_some val n).mpr ⟨hn, by omega, by omega⟩
    unfold parameter.SetValueAsString
    rw [hk]
    simp only [hp]
    rw [if_neg (by omega)]
  have hno : (∀ n : Int, signedLiteral val = some n → n < 0 ∨ 2 ^ 63 - 1 < n) →
      p.SetValueAsString P val = (p, .error (.invalidValue p.name val)) := by
    intro hall
    unfold parameter.SetValueAsString
    rw [hk]
    cases hp : parseInt val with
    | none => rfl
    | some m =>
      obtain ⟨hm, h1, h2⟩ := (parseInt_eq_some val m).mp hp
      simp only
      rcases hall m hm with h | h
      · rw [if_pos h]
      · omega
  refine ⟨?_, hyes, hno⟩
  constructor
  · intro hok
    by_contra hne
    have hall : ∀ n : Int, signedLiteral val = some n → n < 0 ∨ 2 ^ 63 - 1 < n := by
      intro n hn
      by_contra hc
      exact hne ⟨n, hn, by omega, by omega⟩
    rw [hno hall] at hok
    cases hok
  · rintro ⟨n, hn, h0, h1⟩
    rw [hyes n hn h0 h1]

/-- C28 at the texts `9223372036854775807` (accepted, the largest),
`18446744073709551615`, `9223372036854775808`, `-1` and `abc` (rejected). -/
theorem uint_text_range_witness :
    (((parameter.SetValueAsString refPlatform { name := "U", paramtype := .uintType }
        "18446744073709551615").2 = .ok () ↔
      ∃ n : Int, signedLiteral "18446744073709551615" = some n ∧ 0 ≤ n ∧ n ≤ 2 ^ 63 - 1)) ∧
    signedLiteral "18446744073709551615" = some 18446744073709551615 ∧
    parameter.SetValueAsString refPlatform { name := "U", paramtype := .uintType }
        "18446744073709551615" =
      ({ name := "U", paramtype := .uintType },
        .error (.invalidValue "U" "18446744073709551615")) ∧
    parameter.SetValueAsString refPlatform { name := "U", paramtype := .uintType }
        "9223372036854775807" =
      ({ name := "U", paramtype := .uintType, value := .uint 9223372036854775807,
         isSet := true }, .ok ()) ∧
    (parameter.SetValueAsString refPlatform { name := "U", paramtype := .uintType }
        "9223372036854775808").2 = .error (.invalidValue "U" "9223372036854775808") ∧
    (parameter.SetValueAsString refPlatform { name := "U", paramtype := .uintType }
        "-1").2 = .error (.invalidValue "U" "-1") ∧
    (parameter.SetValueAsString refPlatform { name := "U", paramtype := .uintType }
        "abc").2 = .error (.invalidValue "U" "abc") ∧
    (parameter.SetValueAsString refPlatform { name := "U", paramtype := .uintType }
        "0").1.value = .uint 0 :=
  ⟨(uint_text_range refPlatform { name := "U", paramtype := .uintType }
      "18446744073709551615" rfl).1,
   by decide!, by decide!, by decide!, by decide!, by decide!, by decide!, by decide!⟩

theorem findOption_nil {P : Platform} {p : parameter} (hval : p.value = .nil)
    (opts : List String) : p.findOption P opts = .ok false := by
  induction opts with
  | nil => rfl
  | cons o rest ih =>
    unfold parameter.findOption
    rw [hval]
    exact ih

/-- C27: for a string parameter with a non-empty option list, without bounds
(as every string parameter is) and passing the required check: when
`validate` succeeds, the value is present, a string, and equal to one of the
options under `strings.EqualFold`; when the value is absent, `validate`
returns the error "option <nil> is not valid for <name>". -/
theorem options_need_value (P : Platform) (p : parameter)
    (hk : p.paramtype = .stringType) (hopt : p.options ≠ [])
    (hmin : p.minvalue = "") (hmax : p.maxvalue = "")
    (hreq : ¬ (p.required = true ∧ p.isSet = false))
    (hfit : p.value = .nil ∨ toInternalType p.value = p.paramtype) :
    (p.validate P = .ok () →
      ∃ s, p.value = .str s ∧ ∃ o ∈ p.options, equalFold P o s = true) ∧
    (p.value = .nil → p.validate P = .error (.invalidOption .nil p.name)) := by
  have hlen : 0 < p.options.length := List.length_pos.mpr hopt
  have hchecks : p.validate P =
      (p.checkOptions P).bind fun _ => p.checkFile P := by
    rw [validate_eq_checks hreq]
    unfold parameter.checks parameter.checkMin parameter.checkMax
    simp only [hmin, hmax, ne_eq, not_true_eq_false, if_false, Res.bind]
  have hnil : p.value = .nil → p.validate P = .error (.invalidOption .nil p.name) := by
    intro hv
    rw [hchecks]
    unfold parameter.checkOptions
    rw [if_pos hlen, findOption_nil hv]
    simp only [Res.bind, Bool.not_false, if_true, hv]
  refine ⟨?_, hnil⟩
  intro hok
  rcases hfit with hv | hv
  · rw [hnil hv] at hok
    cases hok
  · rw [hk] at hv
    cases hval : p.value with
    | str s =>
      refine ⟨s, rfl, ?_⟩
      rw [hchecks] at hok
      obtain ⟨u, h1, -⟩ := Res.bind_eq_ok hok
      unfold parameter.checkOptions at h1
      rw [if_pos hlen, findOption_str hval] at h1
      simp only [Res.bind] at h1
      split at h1
      · cases h1
      · rename_i hfound
        simp only [Bool.not_eq_true', Bool.not_eq_false] at hfound
        rw [List.any_eq_true] at hfound
        exact hfound
    | nil => rw [hval] at hv; cases hv
    | int n => rw [hval] at hv; cases hv
    | uint n => rw [hval] at hv; cases hv
    | bool b => rw [hval] at hv; cases hv
    | duration d => rw [hval] at hv; cases hv
    | float f => rw [hval] at hv; cases hv
    | other t => rw [hval] at hv; cases hv

/-- C27 at the struct `pc1` of `TestOptions` (`Val string` tagged
`desc=foo;options=a,B,C,d`): the parameter built has no value, `validate`
returns the invalid option error, and so does each loader when no source
assigns the parameter. -/
theorem options_need_value_witness :
    ((Value.nil : Value) = .nil →
      parameter.validate refPlatform
        { name := "Val", description := "foo", options := ["a", "B", "C", "d"] } =
        .error (.invalidOption .nil "Val")) ∧
    newConfigParameters refPlatform (.pointer (.struct cfgOptions)) =
      .ok { params := [{ name := "Val", description := "foo",
                         options := ["a", "B", "C", "d"] }] } ∧
    (NewFile noSourcePlatform (.pointer (.struct cfgOptions)) (.bytes "\x7b\x7d")).2 =
      .error (.invalidOption .nil "Val") ∧
    (NewFlag noSourcePlatform (.pointer (.struct cfgOptions)) []).2 =
      .error (.invalidOption .nil "Val") :=
  ⟨(options_need_value refPlatform
      { name := "Val", description := "foo", options := ["a", "B", "C", "d"] }
      rfl (by decide) rfl rfl (by decide) (Or.inl rfl)).2,
   by decide!, by decide!, by decide!⟩

theorem SetValue_fst (p : parameter) (v : Value) :
    (p.SetValue v).1 = p ∨
    ((p.SetValue v).1 = { p with value := v, isSet := true } ∧
      toInternalType v = p.paramtype) := by
  unfold parameter.SetValue
  split
  · exact Or.inl rfl
  · rename_i hk
    simp only [ne_eq, Decidable.not_not] at hk
    split
    · exact Or.inl rfl
    · exact Or.inr ⟨rfl, hk⟩

/-- An assigning call leaves the parameter as it is or stores a value of the
kind of the parameter and sets `isSet`. -/
theorem afterCall_cases (P : Platform) (p : parameter) (op : Assignment) :
    p.afterCall P op = p ∨
    ∃ w, p.afterCall P op = { p with value := w, isSet := true } ∧
      toInternalType w = p.paramtype := by
  cases op with
  | typed v =>
    rcases SetValue_fst p v with h | ⟨h, hk⟩
    · exact Or.inl h
    · exact Or.inr ⟨v, h, hk⟩
  | textual s => exact SetValueAsString_fst P p s

/-- After any sequence of assigning calls everything but `value` and `isSet`
is as before, and the value is the old one or of the kind of the parameter. -/
theorem afterCalls_frame (P : Platform) (ops : List Assignment) :
    ∀ p : parameter,
      ({ p.afterCalls P ops with value := .nil, isSet := false } : parameter) =
        { p with value := .nil, isSet := false } ∧
      ((p.afterCalls P ops).value = p.value ∨
        toInternalType (p.afterCalls P ops).value = p.paramtype) := by
  induction ops with
  | nil => intro p; exact ⟨rfl, Or.inl rfl⟩
  | cons op rest ih =>
    intro p
    have hstep : p.afterCalls P (op :: rest) = (p.afterCall P op).afterCalls P rest := rfl
    rw [hstep]
    obtain ⟨h1, h2⟩ := ih (p.afterCall P op)
    rcases afterCall_cases P p op with e | ⟨w, e, hw⟩
    · rw [e] at h1 h2 ⊢
      exact ⟨h1, h2⟩
    · rw [e] at h1 h2 ⊢
      refine ⟨h1, ?_⟩
      rcases h2 with h | h
      · right
        rw [h]
        exact hw
      · exact Or.inr h

theorem toFloat_of_kind {p : parameter} (h : toInternalType p.value = p.paramtype) :
    ∃ f, p.toFloat = .ok f := by
  unfold parameter.toFloat
  cases hv : p.value <;> rw [hv] at h <;> rw [← h] <;> exact ⟨_, rfl⟩

/-- The attribute switch keeps the option list and the file flag on string
parameters. -/
theorem newParameterKey_kinded {ret r : parameter} {tv : List String} {key : String}
    (h : newParameterKey ret tv key = .ok r)
    (h0 : (ret.options ≠ [] → ret.paramtype = .stringType) ∧
      (ret.file = true → ret.paramtype = .stringType)) :
    (r.options ≠ [] → r.paramtype = .stringType) ∧
    (r.file = true → r.paramtype = .stringType) := by
  unfold newParameterKey at h
  split at h
  · obtain ⟨x, -, h2⟩ := Res.bind_eq_ok h
    cases h2
    exact h0
  split at h
  · obtain ⟨x, -, h2⟩ := Res.bind_eq_ok h
    cases h2
    exact h0
  split at h
  · obtain ⟨x, -, h2⟩ := Res.bind_eq_ok h
    split at h2
    · cases h2
    · cases h2
      exact h0
  split at h
  · obtain ⟨x, -, h2⟩ := Res.bind_eq_ok h
    split at h2
    · cases h2
    · cases h2
      exact h0
  split at h
  · split at h
    · cases h
    · rename_i hs
      cases h
      exact ⟨h0.1, fun _ => not_not.mp hs⟩
  split at h
  · cases h
    exact h0
  split at h
  · split at h
    · cases h
    · rename_i hs
      obtain ⟨x, -, h2⟩ := Res.bind_eq_ok h
      split at h2
      · cases h2
      · cases h2
        exact ⟨fun _ => not_not.mp hs, h0.2⟩
  · cases h

theorem newParameterLoop_kinded {P : Platform} {ret r : parameter} {attribs : List String}
    (h : newParameterLoop P ret attribs = .ok r)
    (h0 : (ret.options ≠ [] → ret.paramtype = .stringType) ∧
      (ret.file = true → ret.paramtype = .stringType)) :
    (r.options ≠ [] → r.paramtype = .stringType) ∧
    (r.file = true → r.paramtype = .stringType) := by
  induction attribs generalizing ret with
  | nil =>
    unfold newParameterLoop at h
    cases h
    exact h0
  | cons v rest ih =>
    unfold newParameterLoop at h
    obtain ⟨r1, h1, h2⟩ := Res.bind_eq_ok h
    refine ih h2 ?_
    unfold newParameterAttr at h1
    split at h1
    · cases h1
    split at h1
    · cases h1
      exact h0
    · exact newParameterKey_kinded h1 h0

/-- A parameter that `newParameter` builds has options and the file flag
only when it is a string parameter, and bounds only when it is numeric. -/
theorem newParameter_kinded {P : Platform} {pfx fieldName tag : String} {v : Value}
    {p : parameter} (h : newParameter P pfx fieldName (some tag) v = .ok (some p)) :
    (p.options ≠ [] → p.paramtype = .stringType) ∧
    (p.file = true → p.paramtype = .stringType) := by
  obtain ⟨-, r, hloop, -, -, -, hcase⟩ := newParameter_ok_inv h
  have hr := newParameterLoop_kinded hloop
    ⟨fun a => absurd rfl a, fun a => by cases a⟩
  rcases hcase with ⟨-, e⟩ | ⟨-, w, -, e⟩ <;> rw [e] <;> exact hr

theorem value_str_of_kind {p : parameter} (hv : toInternalType p.value = p.paramtype)
    (hk : p.paramtype = .stringType) : ∃ s, p.value = .str s := by
  rw [hk] at hv
  cases hval : p.value <;> rw [hval] at hv <;> first | exact ⟨_, rfl⟩ | cases hv

/-- Method `validate` does not panic on a parameter whose value is of its
kind and that has options or the file flag only as a string parameter. -/
theorem validate_no_panic {P : Platform} {p : parameter}
    (hv : toInternalType p.value = p.paramtype)
    (hopt : p.options ≠ [] → p.paramtype = .stringType)
    (hfile : p.file = true → p.paramtype = .stringType) (w : String) :
    p.validate P ≠ .panic w := by
  obtain ⟨f, hf⟩ := toFloat_of_kind hv
  have hmin : ∀ w, p.checkMin P ≠ .panic w := by
    intro w h
    unfold parameter.checkMin at h
    rw [hf] at h
    simp only [Res.bind] at h
    split at h
    · split at h <;> cases h
    · cases h
  have hmax : ∀ w, p.checkMax P ≠ .panic w := by
    intro w h
    unfold parameter.checkMax at h
    rw [hf] at h
    simp only [Res.bind] at h
    split at h
    · split at h <;> cases h
    · cases h
  have hoptions : ∀ w, p.checkOptions P ≠ .panic w := by
    intro w h
    unfold parameter.checkOptions at h
    split at h
    · rename_i hlen
      obtain ⟨s, hs⟩ := value_str_of_kind hv (hopt (List.length_pos.mp hlen))
      rw [findOption_str hs] at h
      simp only [Res.bind] at h
      split at h <;> cases h
    · cases h
  have hcheckFile : ∀ w, p.checkFile P ≠ .panic w := by
    intro w h
    unfold parameter.checkFile at h
    split at h
    · rename_i hfv
      obtain ⟨s, hs⟩ := value_str_of_kind hv (hfile hfv.1)
      rw [hs] at h
      simp only at h
      split at h
      · split at h <;> cases h
      · cases h
    · cases h
  intro h
  unfold parameter.validate at h
  split at h
  · cases h
  · unfold parameter.checks at h
    rcases Res.bind_eq_panic h with h1 | ⟨_, -, h2⟩
    · exact hmin w h1
    · rcases Res.bind_eq_panic h2 with h1 | ⟨_, -, h3⟩
      · exact hmax w h1
      · rcases Res.bind_eq_panic h3 with h1 | ⟨_, -, h4⟩
        · exact hoptions w h1
        · exact hcheckFile w h4

/-- The type assertion of `AssignValues` does not panic on a parameter whose
value is absent or of its kind: the only panic left is the one of
`reflect`. -/
theorem assignValue_panic {P : Platform} {config : Config} {p : parameter} {w : String}
    (hv : p.value = .nil ∨ toInternalType p.value = p.paramtype)
    (h : (assignValue P config p).2 = .panic w) :
    w = "reflect: call on zero or unexported Value" := by
  unfold assignValue at h
  simp only at h
  split at h
  · simp only [Res.panic.injEq] at h
    exact h.symm
  · split at h
    · cases h
    · split at h
      · cases h
      · rename_i hnil
        split at h
        · cases h
        · split at h
          · rename_i hne
            rcases hv with a | a
            · exact absurd a hnil
            · exact absurd a hne
          · cases h

/-- C26: for every parameter `p` that `newParameter` builds and every
sequence of `SetValue` and `SetValueAsString` calls on it, successful or
not: the kind is unchanged (it is the kind of the field), the name is
unchanged, and the value is absent or a value that `toInternalType`
classifies as the kind of the parameter.  Hence, whenever the value is
present, `toFloat` returns, `validate` does not panic, and the type
assertion in `AssignValues` does not panic (the only panic left there is the
one of `reflect` on a struct without the field). -/
theorem value_kind_invariant (P : Platform) (pfx fieldName tag : String) (v : Value)
    (p : parameter) (h : newParameter P pfx fieldName (some tag) v = .ok (some p))
    (ops : List Assignment) :
    (p.afterCalls P ops).paramtype = p.paramtype ∧
    (p.afterCalls P ops).paramtype = toInternalType v ∧
    (p.afterCalls P ops).name = p.name ∧
    ((p.afterCalls P ops).value = .nil ∨
      toInternalType (p.afterCalls P ops).value = (p.afterCalls P ops).paramtype) ∧
    ((p.afterCalls P ops).value ≠ .nil →
      (∃ f, (p.afterCalls P ops).toFloat = .ok f) ∧
      (∀ w, (p.afterCalls P ops).validate P ≠ .panic w)) ∧
    (∀ config w, (assignValue P config (p.afterCalls P ops)).2 = .panic w →
      w = "reflect: call on zero or unexported Value") := by
  obtain ⟨-, hp, -, -, hval⟩ := newParameter_spec h
  obtain ⟨hopt, hfile⟩ := newParameter_kinded h
  obtain ⟨hframe, hv⟩ := afterCalls_frame P ops p
  have hk : (p.afterCalls P ops).paramtype = p.paramtype := by
    have := congrArg parameter.paramtype hframe
    exact this
  have hn : (p.afterCalls P ops).name = p.name := by
    have := congrArg parameter.name hframe
    exact this
  have ho : (p.afterCalls P ops).options = p.options := by
    have := congrArg parameter.options hframe
    exact this
  have hfl : (p.afterCalls P ops).file = p.file := by
    have := congrArg parameter.file hframe
    exact this
  have hinv : (p.afterCalls P ops).value = .nil ∨
      toInternalType (p.afterCalls P ops).value = (p.afterCalls P ops).paramtype := by
    rw [hk]
    rcases hv with e | e
    · rw [e]
      exact hval
    · exact Or.inr e
  refine ⟨hk, hk.trans hp, hn, hinv, ?_, ?_⟩
  · intro hne
    have hkind : toInternalType (p.afterCalls P ops).value = (p.afterCalls P ops).paramtype := by
      rcases hinv with a | a
      · exact absurd a hne
      · exact a
    refine ⟨toFloat_of_kind hkind, validate_no_panic hkind ?_ ?_⟩
    · rw [ho, hk]
      exact hopt
    · rw [hfl, hk]
      exact hfile
  · intro config w hw
    exact assignValue_panic hinv hw

/-- C26 at the field `Val uint` tagged `desc=foo;min=1;max=200;default=2` of
`TestMinMaxDefaults`: after a failing textual call, a failing typed call and
a successful typed call the kind is still uint and the value is the uint 7. -/
theorem value_kind_invariant_witness :
    newParameter refPlatform "" "Val" (some "desc=foo;min=1;max=200;default=2") (.uint 0) =
      .ok (some { name := "Val", paramtype := .uintType, description := "foo",
                  defaultValue := "2", value := .uint 2, minvalue := "1",
                  maxvalue := "200" }) ∧
    (parameter.afterCalls refPlatform
        { name := "Val", paramtype := .uintType, description := "foo",
          defaultValue := "2", value := .uint 2, minvalue := "1", maxvalue := "200" }
        [.textual "-5", .typed (.str "x"), .typed (.uint 7)]).paramtype =
      parameter.paramtype
        { name := "Val", paramtype := .uintType, description := "foo",
          defaultValue := "2", value := .uint 2, minvalue := "1", maxvalue := "200" } ∧
    (parameter.afterCalls refPlatform
        { name := "Val", paramtype := .uintType, description := "foo",
          defaultValue := "2", value := .uint 2, minvalue := "1", maxvalue := "200" }
        [.textual "-5", .typed (.str "x"), .typed (.uint 7)]).value = .uint 7 :=
  ⟨by decide!,
   (value_kind_invariant refPlatform "" "Val" "desc=foo;min=1;max=200;default=2" (.uint 0)
      { name := "Val", paramtype := .uintType, description := "foo",
        defaultValue := "2", value := .uint 2, minvalue := "1", maxvalue := "200" }
      (by decide!) [.textual "-5", .typed (.str "x"), .typed (.uint 7)]).1,
   by decide!⟩

/-- The attribute loop panics on a token without `=` whose key carries a
value: for the keys desc, default, min and max whatever the kind of the
field, for the key options on a string field. -/
theorem newParameterAttr_panics (P : Platform) (ret : parameter) (t : String)
    (hlen : (strSplit t '=').length = 1) :
    (tokenKey P t = "desc" ∨ tokenKey P t = "default" ∨ tokenKey P t = "min" ∨
        tokenKey P t = "max" →
      newParameterAttr P ret t = .panic "index out of range") ∧
    (tokenKey P t = "options" → ret.paramtype = .stringType →
      newParameterAttr P ret t = .panic "index out of range") := by
  have hlen2 : ¬ (2 < (strSplit t '=').length) := by omega
  have hidx : index (strSplit t '=') 1 = .panic "index out of range" := by
    match hs : strSplit t '=' with
    | [] => rw [hs] at hlen; cases hlen
    | [_] => rfl
    | _ :: _ :: _ =>
      rw [hs] at hlen
      simp only [List.length_cons] at hlen
      omega
  have hkey : tokenKey P t = strToLower P (trimSpace P ((strSplit t '=').headD "")) := rfl
  refine ⟨?_, ?_⟩
  · intro hk
    have hne : (strSplit t '=').head? ≠ some "" := by
      apply tokenKey_head_ne (P := P)
      rcases hk with h | h | h | h <;> rw [h] <;> decide
    unfold newParameterAttr
    rw [if_neg hlen2, if_neg hne, ← hkey]
    unfold newParameterKey
    rcases hk with h | h | h | h
    · rw [h, if_pos rfl, hidx]
      rfl
    · rw [h, if_neg (show ("default" : String) ≠ "desc" by decide), if_pos rfl, hidx]
      rfl
    · rw [h, if_neg (show ("min" : String) ≠ "desc" by decide),
        if_neg (show ("min" : String) ≠ "default" by decide), if_pos rfl, hidx]
      rfl
    · rw [h, if_neg (show ("max" : String) ≠ "desc" by decide),
        if_neg (show ("max" : String) ≠ "default" by decide),
        if_neg (show ("max" : String) ≠ "min" by decide), if_pos rfl, hidx]
      rfl
  · intro hk hs
    have hne := tokenKey_head_ne (P := P) (t := t) (by rw [hk]; decide)
    unfold newParameterAttr
    rw [if_neg hlen2, if_neg hne, ← hkey, hk]
    unfold newParameterKey
    rw [if_neg (show ("options" : String) ≠ "desc" by decide),
      if_neg (show ("options" : String) ≠ "default" by decide),
      if_neg (show ("options" : String) ≠ "min" by decide),
      if_neg (show ("options" : String) ≠ "max" by decide),
      if_neg (show ("options" : String) ≠ "file" by decide),
      if_neg (show ("options" : String) ≠ "required" by decide),
      if_pos rfl, if_neg (not_not.mpr hs), hidx]
    rfl

/-- C22, failing input: the tag `desc` (the key written without `=`) on a
string field makes `newParameter` panic at `tv[1]`, and with it schema
construction and the file loader; so do `default`, `min` and `max` on an
int field, `min` on a string field (the element is read before the kind is
checked) and `options` on a string field, while `options` on an int field
returns the error of the kind check, which comes first.  In general the
attribute loop panics on a token without `=` whose key is desc, default, min
or max, and on one whose key is options on a string field.  What holds: on a
tag in which every key that carries a value is written `key=value`,
`newParameter` does not panic, so that it returns a parameter or an error. -/
theorem annotation_parsing_panics :
    (newParameter refPlatform "" "Val" (some "desc") (.str "") = .panic "index out of range" ∧
     newParameter refPlatform "" "Val" (some "default") (.int 0) =
       .panic "index out of range" ∧
     newParameter refPlatform "" "Val" (some "desc=foo;min") (.int 0) =
       .panic "index out of range" ∧
     newParameter refPlatform "" "Val" (some "max") (.int 0) = .panic "index out of range" ∧
     newParameter refPlatform "" "Val" (some "min") (.str "") = .panic "index out of range" ∧
     newParameter refPlatform "" "Val" (some "options") (.str "") =
       .panic "index out of range" ∧
     newParameter refPlatform "" "Val" (some "options") (.int 0) =
       .error (.optionsNeedString "Val") ∧
     newConfigParameters refPlatform
       (.pointer (.struct (.cons "Val" (some "desc") (.leaf (.str "")) .nil))) =
       .panic "index out of range" ∧
     (NewFile noSourcePlatform
       (.pointer (.struct (.cons "Val" (some "desc") (.leaf (.str "")) .nil)))
       (.bytes "\x7b\x7d")).2 = .panic "index out of range" ∧
     (NewFlag noSourcePlatform
       (.pointer (.struct (.cons "Val" (some "desc") (.leaf (.str "")) .nil))) []).2 =
       .panic "index out of range") ∧
    (∀ (P : Platform) (ret : parameter) (t : String), (strSplit t '=').length = 1 →
      (tokenKey P t = "desc" ∨ tokenKey P t = "default" ∨ tokenKey P t = "min" ∨
          tokenKey P t = "max" →
        newParameterAttr P ret t = .panic "index out of range") ∧
      (tokenKey P t = "options" → ret.paramtype = .stringType →
        newParameterAttr P ret t = .panic "index out of range")) ∧
    (∀ (P : Platform) (pfx fieldName tag : String) (v : Value),
      tagWritten P tag = true →
      (∀ w, newParameter P pfx fieldName (some tag) v ≠ .panic w) ∧
      ((∃ p, newParameter P pfx fieldName (some tag) v = .ok (some p)) ∨
        ∃ e, newParameter P pfx fieldName (some tag) v = .error e)) := by
  refine ⟨⟨by decide!, by decide!, by decide!, by decide!, by decide!, by decide!, by decide!,
    by decide!, by decide!, by decide!⟩, newParameterAttr_panics, ?_⟩
  intro P pfx fieldName tag v hw
  have hnp := @newParameter_no_panic P pfx fieldName tag v hw
  refine ⟨hnp, ?_⟩
  cases hr : newParameter P pfx fieldName (some tag) v with
  | ok r =>
    cases r with
    | none => exact absurd hr newParameter_ne_none
    | some p => exact Or.inl ⟨p, rfl⟩
  | error e => exact Or.inr ⟨e, rfl⟩
  | panic w => exact absurd hr (hnp w)

theorem SetValue_no_panic (p : parameter) (v : Value) (w : String) :
    (p.SetValue v).2 ≠ .panic w := by
  unfold parameter.SetValue
  intro h
  split at h
  · cases h
  · split at h <;> cases h

/-- C21, failing input: for the struct with the field `Val int` tagged
`desc=foo` the file loader panics on the documents that give `val` the
string "abc", the boolean true or null, in the type assertion `v.(float64)`;
for a duration field the sibling branch checks the assertion and returns an
error on a number.  In general the body of the loop panics for an int or
uint parameter on every decoded value that is no `float64`.  What holds: it
does not panic when an int or uint parameter is given a `float64`, nor for a
parameter of another kind. -/
theorem file_loader_panics_on_non_number :
    ((NewFile (docPlatform "\x7b\"val\": \"abc\"\x7d" (.cons "val" (.val (.str "abc")) .nil))
        (.pointer (.struct cfgIntVal)) (.bytes "\x7b\"val\": \"abc\"\x7d")).2 =
        .panic "interface conversion: not float64" ∧
     (NewFile (docPlatform "\x7b\"val\": true\x7d" (.cons "val" (.val (.bool true)) .nil))
        (.pointer (.struct cfgIntVal)) (.bytes "\x7b\"val\": true\x7d")).2 =
        .panic "interface conversion: not float64" ∧
     (NewFile (docPlatform "\x7b\"val\": null\x7d" (.cons "val" (.val .nil) .nil))
        (.pointer (.struct cfgIntVal)) (.bytes "\x7b\"val\": null\x7d")).2 =
        .panic "interface conversion: not float64" ∧
     (NewFile (docPlatform "\x7b\"val\": 5\x7d" (.cons "val" (.val (.float (.fin 5))) .nil))
        (.pointer (.struct cfgIntVal)) (.bytes "\x7b\"val\": 5\x7d")).2 = .ok () ∧
     (NewFile (docPlatform "\x7b\"val\": 5\x7d" (.cons "val" (.val (.float (.fin 5))) .nil))
        (.pointer (.struct cfgIntVal)) (.bytes "\x7b\"val\": 5\x7d")).1.get ["Val"] =
        some (.int 5) ∧
     (NewFile (docPlatform "\x7b\"wait\": 5\x7d" (.cons "wait" (.val (.float (.fin 5))) .nil))
        (.pointer (.struct cfgDurationVal)) (.bytes "\x7b\"wait\": 5\x7d")).2 =
        .error (.durationNotString "Wait")) ∧
    (∀ (P : Platform) (para : parameter) (v : Value),
      para.paramtype = .intType ∨ para.paramtype = .uintType → (∀ f, v ≠ .float f) →
      fileValue P para v = (para, .panic "interface conversion: not float64")) ∧
    (∀ (P : Platform) (para : parameter) (v : Value),
      (para.paramtype = .intType ∨ para.paramtype = .uintType → ∃ f, v = .float f) →
      ∀ w, (fileValue P para v).2 ≠ .panic w) := by
  refine ⟨⟨by decide!, by decide!, by decide!, by decide!, by decide!, by decide!⟩, ?_, ?_⟩
  · intro P para v hk hv
    unfold fileValue
    rcases hk with hk | hk
    · rw [if_pos hk]
      cases v <;> first | rfl | exact absurd rfl (hv _)
    · rw [if_neg (by rw [hk]; decide), if_pos hk]
      cases v <;> first | rfl | exact absurd rfl (hv _)
  · intro P para v hfloat w h
    unfold fileValue at h
    split at h
    · rename_i hk
      obtain ⟨f, rfl⟩ := hfloat (Or.inl hk)
      exact SetValue_no_panic _ _ w h
    · split at h
      · rename_i hk
        obtain ⟨f, rfl⟩ := hfloat (Or.inr hk)
        exact SetValue_no_panic _ _ w h
      · split at h
        · split at h
          · split at h <;> cases h
          · cases h
        · exact SetValue_no_panic _ _ w h

theorem mapSet_new (out : List (String × Value)) (k : String) (v : Value)
    (h : k ∉ out.map Prod.fst) : mapSet out k v = out ++ [(k, v)] := by
  induction out with
  | nil => rfl
  | cons e rest ih =>
    obtain ⟨k1, v1⟩ := e
    simp only [List.map_cons, List.mem_cons, not_or] at h
    unfold mapSet
    rw [if_neg (fun a => h.1 a.symm), ih h.2]
    rfl

/-- With keys that are new and pairwise different, `flattenMap` appends its
entries to the map in the order it writes them. -/
theorem JsonMap.flattenMap_append (P : Platform) (m : JsonMap) (pfx : String)
    (out : List (String × Value))
    (h : ((out ++ m.entriesFrom P pfx).map Prod.fst).Nodup) :
    m.flattenMap P pfx out = out ++ m.entriesFrom P pfx := by
  match m with
  | .nil => simp [JsonMap.flattenMap, JsonMap.entriesFrom]
  | .cons k (.obj sub) rest =>
    unfold JsonMap.flattenMap JsonMap.entriesFrom
    unfold JsonMap.entriesFrom at h
    rw [← List.append_assoc] at h
    have h1 : ((out ++ sub.entriesFrom P (pfx ++ strToLower P k ++ ".")).map Prod.fst).Nodup := by
      rw [List.map_append] at h
      exact (List.nodup_append.mp h).1
    rw [JsonMap.flattenMap_append P sub (pfx ++ strToLower P k ++ ".") out h1,
      JsonMap.flattenMap_append P rest pfx _ h, List.append_assoc]
  | .cons k (.val v) rest =>
    unfold JsonMap.flattenMap JsonMap.entriesFrom
    unfold JsonMap.entriesFrom at h
    have hk : pfx ++ strToLower P k ∉ out.map Prod.fst := by
      intro hmem
      rw [List.map_append, List.nodup_append] at h
      exact h.2.2 hmem (by simp)
    rw [mapSet_new out _ v hk]
    have h2 : (((out ++ [(pfx ++ strToLower P k, v)]) ++ rest.entriesFrom P pfx).map
        Prod.fst).Nodup := by
      simpa using h
    rw [JsonMap.flattenMap_append P rest pfx _ h2]
    simp

theorem JsonMap.leafPaths_ne_nil (m : JsonMap) : ∀ e ∈ m.leafPaths, e.1 ≠ [] := by
  match m with
  | .nil => intro e he; cases he
  | .cons k (.obj sub) rest =>
    intro e he
    unfold JsonMap.leafPaths at he
    rcases List.mem_append.mp he with h | h
    · obtain ⟨x, -, rfl⟩ := List.mem_map.mp h
      simp
    · exact JsonMap.leafPaths_ne_nil rest e h
  | .cons k (.val v) rest =>
    intro e he
    unfold JsonMap.leafPaths at he
    rcases List.mem_cons.mp he with h | h
    · rw [h]
      simp
    · exact JsonMap.leafPaths_ne_nil rest e h

theorem flatKey_cons (P : Platform) (pfx k : String) (path : List String) (h : path ≠ []) :
    pfx ++ flatKey P (k :: path) = pfx ++ strToLower P k ++ "." ++ flatKey P path := by
  unfold flatKey
  cases path with
  | nil => exact absurd rfl h
  | cons a rest => simp [dotted, String.append_assoc]

/-- The entries that `flattenMap` writes are those of the specification,
with the key text before them. -/
theorem JsonMap.entriesFrom_eq (P : Platform) (m : JsonMap) (pfx : String) :
    m.entriesFrom P pfx = m.leafPaths.map fun e => (pfx ++ flatKey P e.1, e.2) := by
  match m with
  | .nil => rfl
  | .cons k (.obj sub) rest =>
    unfold JsonMap.entriesFrom JsonMap.leafPaths
    rw [JsonMap.entriesFrom_eq P sub, JsonMap.entriesFrom_eq P rest, List.map_append,
      List.map_map]
    congr 1
    apply List.map_congr_left
    intro e he
    simp only [Function.comp]
    rw [flatKey_cons P pfx k e.1 (JsonMap.leafPaths_ne_nil sub e he)]
  | .cons k (.val v) rest =>
    unfold JsonMap.entriesFrom JsonMap.leafPaths
    rw [JsonMap.entriesFrom_eq P rest]
    simp [flatKey, dotted]

theorem JsonMap.entriesFrom_empty (P : Platform) (m : JsonMap) :
    m.entriesFrom P "" = m.flatEntries P := by
  rw [JsonMap.entriesFrom_eq]
  unfold JsonMap.flatEntries
  apply List.map_congr_left
  intro e _
  rw [String.empty_append]

/-- Listing a nested map in another order permutes its leaves. -/
theorem JsonMap.Reordered.leafPaths_perm {m m1 : JsonMap} (h : JsonMap.Reordered m m1) :
    m.leafPaths.Perm m1.leafPaths := by
  have hcons : ∀ (k : String) (v : Json) (rest : JsonMap),
      ∃ piece, ∀ r : JsonMap, (JsonMap.cons k v r).leafPaths = piece ++ r.leafPaths := by
    intro k v rest
    cases v with
    | val x => exact ⟨[([k], x)], fun r => by simp [JsonMap.leafPaths]⟩
    | obj sub =>
      exact ⟨sub.leafPaths.map fun e => (k :: e.1, e.2), fun r => by simp [JsonMap.leafPaths]⟩
  induction h with
  | refl m => exact List.Perm.refl _
  | swap k1 v1 k2 v2 rest =>
    obtain ⟨p1, h1⟩ := hcons k1 v1 rest
    obtain ⟨p2, h2⟩ := hcons k2 v2 rest
    rw [h1, h2, h2, h1, ← List.append_assoc, ← List.append_assoc]
    exact List.Perm.append_right _ List.perm_append_comm
  | tail k v _ ih =>
    rename_i r r1
    obtain ⟨p1, h1⟩ := hcons k v r
    rw [h1, h1]
    exact List.Perm.append_left _ ih
  | inside k rest _ ih =>
    unfold JsonMap.leafPaths
    exact List.Perm.append_right _ (List.Perm.map _ ih)
  | trans _ _ ih1 ih2 => exact ih1.trans ih2

/-- C25: for every nested map whose flat keys (the lower-cased keys on the
path to each non-object leaf, joined with dots) are pairwise different,
`flattenMap` started with the empty key text and the empty map yields
exactly the entries of the specification: one entry per non-object leaf,
under its flat key, with the value of the leaf unchanged, and none for a
nested object itself.  The result does not depend on the order in which the
entries of the map and of its nested objects are visited: every other order
gives a map with the same entries. -/
theorem flattenMap_spec (P : Platform) (m : JsonMap)
    (h : ((m.flatEntries P).map Prod.fst).Nodup) :
    m.flattenMap P "" [] = m.flatEntries P ∧
    (∀ m1, JsonMap.Reordered m m1 →
      (m1.flattenMap P "" []).Perm (m.flattenMap P "" []) ∧
      ((m1.flattenMap P "" []).map Prod.fst).Nodup ∧
      ∀ e, e ∈ m1.flattenMap P "" [] ↔ e ∈ m.flattenMap P "" []) := by
  have hflat : ∀ x : JsonMap, ((x.flatEntries P).map Prod.fst).Nodup →
      x.flattenMap P "" [] = x.flatEntries P := by
    intro x hx
    have := JsonMap.flattenMap_append P x "" [] (by
      rw [List.nil_append, JsonMap.entriesFrom_empty]
      exact hx)
    rw [this, List.nil_append, JsonMap.entriesFrom_empty]
  refine ⟨hflat m h, ?_⟩
  intro m1 hre
  have hperm : (m1.flatEntries P).Perm (m.flatEntries P) := by
    unfold JsonMap.flatEntries
    exact List.Perm.map _ hre.leafPaths_perm.symm
  have hnd1 : ((m1.flatEntries P).map Prod.fst).Nodup :=
    (List.Perm.nodup_iff (List.Perm.map _ hperm)).mpr h
  rw [hflat m h, hflat m1 hnd1]
  exact ⟨hperm, hnd1, fun e => hperm.mem_iff⟩

/-- C25 at the nested map `mapNested`: the flattened map has the entries
`http.endpoint`, `deviceio.endpoint` and `mybool`, and the map listed in
another order has the same entries. -/
theorem flattenMap_spec_witness :
    ((mapNested.flatEntries refPlatform).map Prod.fst).Nodup ∧
    (JsonMap.flattenMap refPlatform "" mapNested [] = mapNested.flatEntries refPlatform ∧
      (∀ m1, JsonMap.Reordered mapNested m1 →
        (m1.flattenMap refPlatform "" []).Perm (mapNested.flattenMap refPlatform "" []) ∧
        ((m1.flattenMap refPlatform "" []).map Prod.fst).Nodup ∧
        ∀ e, e ∈ m1.flattenMap refPlatform "" [] ↔
          e ∈ mapNested.flattenMap refPlatform "" [])) ∧
    mapNested.flatEntries refPlatform =
      [("http.endpoint", .str ":1234"), ("deviceio.endpoint", .str "localhost:4711"),
       ("mybool", .bool true)] ∧
    JsonMap.Reordered mapNested mapNestedSwapped ∧
    JsonMap.flattenMap refPlatform "" mapNestedSwapped [] =
      [("deviceio.endpoint", .str "localhost:4711"), ("http.endpoint", .str ":1234"),
       ("mybool", .bool true)] :=
  ⟨by decide!, flattenMap_spec refPlatform mapNested (by decide!), by decide!,
   JsonMap.Reordered.swap _ _ _ _ _, by decide!⟩

end Params
